import Mathlib

/-!
cpp-promise: a shallow embedding of `src/promise.h`.

The header implements a synchronous promise chain.  Nodes (`PromiseImpl`) live at
addresses; a node points at its successor through the raw pointer `child_`, and a
non-root node deletes itself after it has forwarded.  The embedding keeps an explicit
store of nodes:

* an address is a natural number, `nullptr` is `none`;
* `new` appends a cell to the store (addresses are never reused), `delete` empties a cell;
* reading or writing through an address whose cell is empty is a fault
  (`Fault.invalidAccess`), the counterpart of undefined behaviour in C++;
* the forwarding recursion `resolveSuccess → opaqueResolveSuccess → resolveSuccess …`
  follows `child_` pointers and need not terminate on a cyclic store, so it takes fuel;
* `ASSERT(x)` is `#define ASSERT(x) do while (false)`: it evaluates nothing and halts
  nothing, so an `ASSERT` line contributes no step;
* `std::move` of a value is modelled as a copy of the value;
* a handle (`Promise`) is its pointer `impl_` together with the address of its inline
  member `root_impl_`, which is a cell of the store like any other node; moving a handle
  (`Promise::assign`) leaves the handle moved from and its inline node in place;
* every node of one store has the same success type `S` and failure type `F`
  (a chain over several C++ types is obtained by taking sum types for `S` and `F`).

The store also records a trace of the virtual forwarding calls and of the `delete`s that
were executed, so that "forwards" and "releases" can be stated as such.
-/

namespace PromiseState

/-- Enumerator `PromiseState::Pending`. -/
def Pending : Nat := 0

/-- Enumerator `PromiseState::Success`. -/
def Success : Nat := 1

/-- Enumerator `PromiseState::Failure`. -/
def Failure : Nat := 2

/-- Enumerator `PromiseState::IsRoot = 1 << 7`. -/
def IsRoot : Nat := 1 <<< 7

/-- Enumerator `PromiseState::Mask = IsRoot`. -/
def Mask : Nat := IsRoot

end PromiseState

namespace PromiseImplBase

/-- The body of `setIsRoot`: `state_ |= PromiseState::IsRoot` on a `uint8_t`. -/
def setIsRoot (state_ : Nat) : Nat :=
  (state_ ||| PromiseState.IsRoot) % 256

/-- The body of `isRoot`: `(state_ & PromiseState::IsRoot) != 0`. -/
def isRoot (state_ : Nat) : Bool :=
  (state_ &&& PromiseState.IsRoot) != 0

/-- The body of `getState`: `state_ & ~PromiseState::Mask`.  Both operands are promoted
to `int`; the complement of `Mask` has every bit set except bit 7, written here on the
32 bits of an `int`. -/
def getState (state_ : Nat) : Nat :=
  state_ &&& (2 ^ 32 - 1 - PromiseState.Mask)

/-- The body of `isPending`: `getState() == PromiseState::Pending`. -/
def isPending (state_ : Nat) : Bool :=
  getState state_ == PromiseState.Pending

/-- The body of `setState`: `mask = state_ & Mask; state_ = state | mask`, stored
in a `uint8_t`. -/
def setState (state_ : Nat) (state : Nat) : Nat :=
  let mask := (state_ &&& PromiseState.Mask) % 256
  (state ||| mask) % 256

end PromiseImplBase

/-- The members that `ChildImpl` adds to `PromiseImpl`: the two mapping functions. -/
structure ChildImpl (S F : Type) where
  map_success_ : S → S
  map_failure_ : F → F

/-- A node: the members of `PromiseImplBase` (`child_`, `state_`) and of `PromiseImpl`
(`success_`, `failure_`).  A pointer to a node is `Option Nat`: an address, or `none`
for `nullptr`.  `dyn` is the dynamic type: `some c` for an object constructed
as a `ChildImpl` with mappers `c`, `none` for a plain `PromiseImpl`. -/
structure PromiseImpl (S F : Type) where
  child_ : Option Nat
  state_ : Nat
  success_ : S
  failure_ : F
  dyn : Option (ChildImpl S F)

/-- What the trace records: a virtual call `child_->opaqueResolveSuccess` or
`child_->opaqueResolveFailure` made by node `src` on node `dst`, and a `delete this`. -/
inductive Event where
  | forwardSuccess (src dst : Nat)
  | forwardFailure (src dst : Nat)
  | release (a : Nat)
  deriving DecidableEq, Repr

/-- The store of nodes together with the trace of forwarding calls and deletes. -/
structure Heap (S F : Type) where
  cells : List (Option (PromiseImpl S F))
  trace : List Event

/-- Why a run of the model did not return. -/
inductive Fault where
  | outOfFuel
  | invalidAccess
  deriving DecidableEq, Repr

namespace Heap

variable {S F : Type}

/-- The store with no node. -/
def empty : Heap S F := ⟨[], []⟩

/-- The node at an address, `none` when nothing is allocated there. -/
def read (h : Heap S F) (a : Nat) : Option (PromiseImpl S F) :=
  (h.cells[a]?).join

/-- Overwrite the node at an address. -/
def write (h : Heap S F) (a : Nat) (n : PromiseImpl S F) : Heap S F :=
  { h with cells := h.cells.set a (some n) }

/-- A `new`: the node gets the next address. -/
def alloc (h : Heap S F) (n : PromiseImpl S F) : Nat × Heap S F :=
  (h.cells.length, { h with cells := h.cells ++ [some n] })

/-- A `delete`: the cell is emptied and the release is recorded. -/
def free (h : Heap S F) (a : Nat) : Heap S F :=
  { cells := h.cells.set a none, trace := h.trace ++ [Event.release a] }

/-- Record an event. -/
def note (h : Heap S F) (e : Event) : Heap S F :=
  { h with trace := h.trace ++ [e] }

end Heap

namespace PromiseImpl

variable {S F : Type}

/-- The default constructor `PromiseImpl()`: `child_ = nullptr`, `state_ = Pending`,
default-constructed values. -/
def new [Inhabited S] [Inhabited F] : PromiseImpl S F :=
  { child_ := none, state_ := PromiseState.Pending, success_ := default,
    failure_ := default, dyn := none }

/-- The constructor `ChildImpl(map_success, map_failure)`. -/
def newChild [Inhabited S] [Inhabited F] (map_success : S → S) (map_failure : F → F) :
    PromiseImpl S F :=
  { child_ := none, state_ := PromiseState.Pending, success_ := default,
    failure_ := default, dyn := some ⟨map_success, map_failure⟩ }

/-- `PromiseImpl::destruct`: `if (!isRoot()) delete this;`. -/
def destruct (this : Nat) (h : Heap S F) : Except Fault (Heap S F) :=
  match h.read this with
  | none => .error .invalidAccess
  | some n =>
    if !PromiseImplBase.isRoot n.state_ then .ok (h.free this) else .ok h

mutual

/-- The virtual `opaqueResolveSuccess`: the override in `ChildImpl` maps the value and
calls `resolveSuccess` on itself; the base version is `ASSERT(false)`, which does nothing. -/
def opaqueResolveSuccess : Nat → Nat → S → Heap S F → Except Fault (Heap S F)
  | 0, _, _, _ => .error .outOfFuel
  | fuel + 1, this, success, h =>
    match h.read this with
    | none => .error .invalidAccess
    | some n =>
      match n.dyn with
      | some c => resolveSuccess fuel this (c.map_success_ success) h
      | none => .ok h

/-- `PromiseImpl::resolveSuccess`. -/
def resolveSuccess : Nat → Nat → S → Heap S F → Except Fault (Heap S F)
  | 0, _, _, _ => .error .outOfFuel
  | fuel + 1, this, success, h =>
    match h.read this with
    | none => .error .invalidAccess
    | some n =>
      match n.child_ with
      | some child =>
        if child ≠ this then
          match opaqueResolveSuccess fuel child success
              (h.note (Event.forwardSuccess this child)) with
          | .error e => .error e
          | .ok h1 => destruct this h1
        else destruct this h
      | none =>
        .ok (h.write this
          { n with state_ := PromiseImplBase.setState n.state_ PromiseState.Success,
                   success_ := success })

end

mutual

/-- The virtual `opaqueResolveFailure`: the override in `ChildImpl` maps the value and
calls `resolveFailure` on itself; the base version is `ASSERT(false)`, which does nothing. -/
def opaqueResolveFailure : Nat → Nat → F → Heap S F → Except Fault (Heap S F)
  | 0, _, _, _ => .error .outOfFuel
  | fuel + 1, this, failure, h =>
    match h.read this with
    | none => .error .invalidAccess
    | some n =>
      match n.dyn with
      | some c => resolveFailure fuel this (c.map_failure_ failure) h
      | none => .ok h

/-- `PromiseImpl::resolveFailure`. -/
def resolveFailure : Nat → Nat → F → Heap S F → Except Fault (Heap S F)
  | 0, _, _, _ => .error .outOfFuel
  | fuel + 1, this, failure, h =>
    match h.read this with
    | none => .error .invalidAccess
    | some n =>
      match n.child_ with
      | some child =>
        if child ≠ this then
          match opaqueResolveFailure fuel child failure
              (h.note (Event.forwardFailure this child)) with
          | .error e => .error e
          | .ok h1 => destruct this h1
        else destruct this h
      | none =>
        .ok (h.write this
          { n with state_ := PromiseImplBase.setState n.state_ PromiseState.Failure,
                   failure_ := failure })

end

/-- `PromiseImpl::then`: allocate the child, link it, and when this node is already
resolved forward the stored value at once and `destruct()`.  Returns the child. -/
def then_ [Inhabited S] [Inhabited F] (fuel : Nat) (this : Nat)
    (map_success : S → S) (map_failure : F → F) (h : Heap S F) :
    Except Fault (Nat × Heap S F) :=
  match h.read this with
  | none => .error .invalidAccess
  | some n =>
    let (child, h1) := h.alloc (newChild map_success map_failure)
    let h2 := h1.write this { n with child_ := some child }
    if !PromiseImplBase.isPending n.state_ then
      let state := PromiseImplBase.getState n.state_
      let r :=
        if state = PromiseState.Success then
          opaqueResolveSuccess fuel child n.success_
            (h2.note (Event.forwardSuccess this child))
        else if state = PromiseState.Failure then
          opaqueResolveFailure fuel child n.failure_
            (h2.note (Event.forwardFailure this child))
        else .ok h2
      match r with
      | .error e => .error e
      | .ok h3 =>
        match destruct this h3 with
        | .error e => .error e
        | .ok h4 => .ok (child, h4)
    else .ok (child, h2)

/-- `PromiseImpl::thenTerminate`: `child_ = this`. -/
def thenTerminate (this : Nat) (h : Heap S F) : Except Fault (Heap S F) :=
  match h.read this with
  | none => .error .invalidAccess
  | some n => .ok (h.write this { n with child_ := some this })

end PromiseImpl

/-- The functor `Move<T>`: returns its argument. -/
def Move {T : Type} (value : T) : T := value

/-- A handle `Promise<Success, Failure>`: the pointer `impl_`, and the address at which
the handle's inline member `root_impl_` is stored. -/
structure Promise where
  impl_ : Nat
  root_impl_ : Nat
  deriving DecidableEq, Repr

namespace Promise

variable {S F : Type}

/-- The private constructor `Promise(impl)`: `impl_` is set, the member `root_impl_`
is default-constructed in the handle's own storage. -/
def ofImpl [Inhabited S] [Inhabited F] (impl : Nat) (h : Heap S F) : Promise × Heap S F :=
  let (r, h1) := h.alloc PromiseImpl.new
  ({ impl_ := impl, root_impl_ := r }, h1)

/-- `Promise::thenTerminate`. -/
def thenTerminate (p : Promise) (h : Heap S F) : Except Fault (Heap S F) :=
  PromiseImpl.thenTerminate p.impl_ h

/-- `Promise::then(map_success, map_failure)`: `impl_->then(...)` wrapped in a new handle. -/
def then_ [Inhabited S] [Inhabited F] (fuel : Nat) (p : Promise)
    (map_success : S → S) (map_failure : F → F) (h : Heap S F) :
    Except Fault (Promise × Heap S F) :=
  match PromiseImpl.then_ fuel p.impl_ map_success map_failure h with
  | .error e => .error e
  | .ok (child, h1) => .ok (ofImpl child h1)

/-- `Promise::then(map_success)`, the overload with a success mapper only:
`then(map_success, Move<Failure>())`. -/
def then1 [Inhabited S] [Inhabited F] (fuel : Nat) (p : Promise)
    (map_success : S → S) (h : Heap S F) : Except Fault (Promise × Heap S F) :=
  then_ fuel p map_success Move h

/-- `Promise::catch_(map_failure)`: `then(Move<Success>(), map_failure)`. -/
def catch_ [Inhabited S] [Inhabited F] (fuel : Nat) (p : Promise)
    (map_failure : F → F) (h : Heap S F) : Except Fault (Promise × Heap S F) :=
  then_ fuel p Move map_failure h

/-- `Promise::resolveSuccess`: `impl_->resolveSuccess(...)`. -/
def resolveSuccess (fuel : Nat) (p : Promise) (success : S) (h : Heap S F) :
    Except Fault (Heap S F) :=
  PromiseImpl.resolveSuccess fuel p.impl_ success h

/-- `Promise::resolveFailure`: `impl_->resolveFailure(...)`. -/
def resolveFailure (fuel : Nat) (p : Promise) (failure : F) (h : Heap S F) :
    Except Fault (Heap S F) :=
  PromiseImpl.resolveFailure fuel p.impl_ failure h

end Promise

namespace RootPromise

variable {S F : Type}

/-- The constructor `RootPromise()`: the base is built with `impl_ = &root_impl_`, then
`root_impl_.setIsRoot()`. -/
def new [Inhabited S] [Inhabited F] (h : Heap S F) : Promise × Heap S F :=
  let (r, h1) := h.alloc (PromiseImpl.new : PromiseImpl S F)
  let n : PromiseImpl S F := PromiseImpl.new
  ({ impl_ := r, root_impl_ := r },
    h1.write r { n with state_ := PromiseImplBase.setIsRoot n.state_ })

/-- The constructor `RootPromise(Success &&)`: `RootPromise()` then `resolveSuccess`. -/
def ofSuccess [Inhabited S] [Inhabited F] (fuel : Nat) (success : S) (h : Heap S F) :
    Except Fault (Promise × Heap S F) :=
  let (p, h1) := new h
  match Promise.resolveSuccess fuel p success h1 with
  | .error e => .error e
  | .ok h2 => .ok (p, h2)

/-- The constructor `RootPromise(Failure &&)`: `RootPromise()` then `resolveFailure`. -/
def ofFailure [Inhabited S] [Inhabited F] (fuel : Nat) (failure : F) (h : Heap S F) :
    Except Fault (Promise × Heap S F) :=
  let (p, h1) := new h
  match Promise.resolveFailure fuel p failure h1 with
  | .error e => .error e
  | .ok h2 => .ok (p, h2)

/-- `RootPromise::then()`: a handle built from this handle's `impl_`. -/
def then0 [Inhabited S] [Inhabited F] (p : Promise) (h : Heap S F) : Promise × Heap S F :=
  Promise.ofImpl p.impl_ h

end RootPromise

/-- The resolution state of the node at an address, as `getState()` reports it;
`none` when no node is allocated there. -/
def stateAt {S F : Type} (h : Heap S F) (a : Nat) : Option Nat :=
  (h.read a).map (fun n => PromiseImplBase.getState n.state_)

/-- The member `success_` of the node at an address. -/
def successAt {S F : Type} (h : Heap S F) (a : Nat) : Option S :=
  (h.read a).map (fun n => n.success_)

/-- The member `failure_` of the node at an address. -/
def failureAt {S F : Type} (h : Heap S F) (a : Nat) : Option F :=
  (h.read a).map (fun n => n.failure_)

/-- The member `child_` of the node at an address (`some none` is a null `child_`). -/
def childAt {S F : Type} (h : Heap S F) (a : Nat) : Option (Option Nat) :=
  (h.read a).map (fun n => n.child_)

/-- Whether the node at an address carries the root flag. -/
def isRootAt {S F : Type} (h : Heap S F) (a : Nat) : Option Bool :=
  (h.read a).map (fun n => PromiseImplBase.isRoot n.state_)

/-- The node that `RootPromise()` leaves in the handle's inline storage: a default
`PromiseImpl` on which `setIsRoot()` was called. -/
def RootPromise.rootNode {S F : Type} [Inhabited S] [Inhabited F] : PromiseImpl S F :=
  { (PromiseImpl.new : PromiseImpl S F) with
    state_ := PromiseImplBase.setIsRoot PromiseState.Pending }

/-! ## Client programs used to state the properties -/

/-- A pending root is built, `then(f, g)` is attached, then the root is resolved with
`resolveSuccess(X)`.  Returns the handle that `then` returned. -/
def attachThenResolveSuccess {S F : Type} [Inhabited S] [Inhabited F] (fuel : Nat) (X : S)
    (f : S → S) (g : F → F) (h : Heap S F) : Except Fault (Promise × Heap S F) :=
  let (root, h0) := RootPromise.new h
  match Promise.then_ fuel root f g h0 with
  | .error e => .error e
  | .ok (c, h1) =>
    match Promise.resolveSuccess fuel root X h1 with
    | .error e => .error e
    | .ok h2 => .ok (c, h2)

/-- A root is built already resolved with Success `X`, then `then(f, g)` is attached.
Returns the handle that `then` returned. -/
def resolveSuccessThenAttach {S F : Type} [Inhabited S] [Inhabited F] (fuel : Nat) (X : S)
    (f : S → S) (g : F → F) (h : Heap S F) : Except Fault (Promise × Heap S F) :=
  match RootPromise.ofSuccess fuel X h with
  | .error e => .error e
  | .ok (root, h0) => Promise.then_ fuel root f g h0

/-- A pending root is built, `then(f, g)` is attached, then the root is resolved with
`resolveFailure(E)`.  Returns the handle that `then` returned. -/
def attachThenResolveFailure {S F : Type} [Inhabited S] [Inhabited F] (fuel : Nat) (E : F)
    (f : S → S) (g : F → F) (h : Heap S F) : Except Fault (Promise × Heap S F) :=
  let (root, h0) := RootPromise.new h
  match Promise.then_ fuel root f g h0 with
  | .error e => .error e
  | .ok (c, h1) =>
    match Promise.resolveFailure fuel root E h1 with
    | .error e => .error e
    | .ok h2 => .ok (c, h2)

/-- A root is built already resolved with Failure `E`, then `then(f, g)` is attached.
Returns the handle that `then` returned. -/
def resolveFailureThenAttach {S F : Type} [Inhabited S] [Inhabited F] (fuel : Nat) (E : F)
    (f : S → S) (g : F → F) (h : Heap S F) : Except Fault (Promise × Heap S F) :=
  match RootPromise.ofFailure fuel E h with
  | .error e => .error e
  | .ok (root, h0) => Promise.then_ fuel root f g h0

/-- Successive attachments: `then(f₁, g₁)` on the handle, `then(f₂, g₂)` on the handle
that returned, and so on through the list.  Returns the last handle (the given one for
the empty list). -/
def attachAll {S F : Type} [Inhabited S] [Inhabited F] (fuel : Nat) :
    List ((S → S) × (F → F)) → Promise → Heap S F → Except Fault (Promise × Heap S F)
  | [], p, h => .ok (p, h)
  | m :: rest, p, h =>
    match Promise.then_ fuel p m.1 m.2 h with
    | .error e => .error e
    | .ok (q, h1) => attachAll fuel rest q h1

/-- The nodes reached from `a` by following `child_` are exactly the addresses of `l`, in
order; each of them is a bridge (`ChildImpl`) with the listed mappers, all addresses
are distinct, and the last node has a null `child_`. -/
def PromiseChain {S F : Type} (h : Heap S F) : Nat → List (Nat × ChildImpl S F) → Prop
  | a, [] => ∃ n, h.read a = some n ∧ n.child_ = none
  | a, (c, m) :: rest =>
    (∃ n, h.read a = some n ∧ n.child_ = some c) ∧ c ≠ a ∧
    a ∉ rest.map Prod.fst ∧
    (∃ cn, h.read c = some cn ∧ cn.dyn = some m) ∧
    PromiseChain h c rest

/-- The address of the last node of a chain that starts at `a`. -/
def chainLast {S F : Type} : Nat → List (Nat × ChildImpl S F) → Nat
  | a, [] => a
  | _, (c, _) :: rest => chainLast c rest

/-- The success mappers of a chain, applied in order. -/
def chainMapSuccess {S F : Type} : List (Nat × ChildImpl S F) → S → S
  | [], v => v
  | (_, m) :: rest, v => chainMapSuccess rest (m.map_success_ v)

/-- The failure mappers of a chain, applied in order. -/
def chainMapFailure {S F : Type} : List (Nat × ChildImpl S F) → F → F
  | [], v => v
  | (_, m) :: rest, v => chainMapFailure rest (m.map_failure_ v)

/-! ## Further client programs, and what is observed of a run -/

/-- What a run that returned a handle lets one observe of the handle's node: its state,
its success value and its failure value (each `none` when the node is not allocated).
`none` when the run did not return. -/
def observe {S F : Type} (r : Except Fault (Promise × Heap S F)) :
    Option (Option Nat × Option S × Option F) :=
  match r with
  | .ok (p, h) => some (stateAt h p.impl_, successAt h p.impl_, failureAt h p.impl_)
  | .error _ => none

/-- The forwarding calls and deletes that a run executed; `none` when it did not return. -/
def traceOf {S F : Type} (r : Except Fault (Promise × Heap S F)) : Option (List Event) :=
  match r with
  | .ok (_, h) => some h.trace
  | .error _ => none

/-- A pending root is built, `thenTerminate()` is called on it, then it is resolved with
`resolveSuccess(X)`.  Returns the root handle. -/
def terminateRootThenResolve {S F : Type} [Inhabited S] [Inhabited F] (fuel : Nat) (X : S)
    (h : Heap S F) : Except Fault (Promise × Heap S F) :=
  let (root, h0) := RootPromise.new h
  match Promise.thenTerminate root h0 with
  | .error e => .error e
  | .ok h1 =>
    match Promise.resolveSuccess fuel root X h1 with
    | .error e => .error e
    | .ok h2 => .ok (root, h2)

/-- A pending root is built, `then(f, g)` is attached, `thenTerminate()` is called on the
handle that `then` returned, then the root is resolved with `resolveSuccess(X)`.  Returns
the handle of the terminal child. -/
def terminateChildThenResolve {S F : Type} [Inhabited S] [Inhabited F] (fuel : Nat) (X : S)
    (f : S → S) (g : F → F) (h : Heap S F) : Except Fault (Promise × Heap S F) :=
  let (root, h0) := RootPromise.new h
  match Promise.then_ fuel root f g h0 with
  | .error e => .error e
  | .ok (c, h1) =>
    match Promise.thenTerminate c h1 with
    | .error e => .error e
    | .ok h2 =>
      match Promise.resolveSuccess fuel root X h2 with
      | .error e => .error e
      | .ok h3 => .ok (c, h3)

/-- A store with one pending root, at address 0. -/
def pendingRootHeap : Heap Nat Nat := (RootPromise.new Heap.empty).2

/-- A pending root at address 0 on which `thenTerminate()` was called. -/
def terminalRootNode : PromiseImpl Nat Nat :=
  { (RootPromise.rootNode : PromiseImpl Nat Nat) with child_ := some 0 }

/-- A store with one pending root, at address 0, on which `thenTerminate()` was called. -/
def terminalRootHeap : Heap Nat Nat := pendingRootHeap.write 0 terminalRootNode

/-- A root that `resolveSuccess(7)` has resolved. -/
def successRootNode : PromiseImpl Nat Nat :=
  { (RootPromise.rootNode : PromiseImpl Nat Nat) with
    state_ := PromiseImplBase.setState
      (PromiseImplBase.setIsRoot PromiseState.Pending) PromiseState.Success,
    success_ := 7 }

/-- A store with one root, at address 0, resolved with Success 7. -/
def successRootHeap : Heap Nat Nat := pendingRootHeap.write 0 successRootNode

/-- A root that `resolveFailure(9)` has resolved. -/
def failureRootNode : PromiseImpl Nat Nat :=
  { (RootPromise.rootNode : PromiseImpl Nat Nat) with
    state_ := PromiseImplBase.setState
      (PromiseImplBase.setIsRoot PromiseState.Pending) PromiseState.Failure,
    failure_ := 9 }

/-- A store with one root, at address 0, resolved with Failure 9. -/
def failureRootHeap : Heap Nat Nat := pendingRootHeap.write 0 failureRootNode

/-- A root is built resolved with Success `X`, then `resolveFailure(E)` is called on it.
Returns the root handle. -/
def resolveSuccessThenFailure {S F : Type} [Inhabited S] [Inhabited F] (fuel : Nat) (X : S)
    (E : F) (h : Heap S F) : Except Fault (Promise × Heap S F) :=
  match RootPromise.ofSuccess fuel X h with
  | .error e => .error e
  | .ok (root, h0) =>
    match Promise.resolveFailure fuel root E h0 with
    | .error e => .error e
    | .ok h1 => .ok (root, h1)

/-- A root is built resolved with Success `X`, then `resolveSuccess(Y)` is called on it.
Returns the root handle. -/
def resolveSuccessTwice {S F : Type} [Inhabited S] [Inhabited F] (fuel : Nat) (X Y : S)
    (h : Heap S F) : Except Fault (Promise × Heap S F) :=
  match RootPromise.ofSuccess fuel X h with
  | .error e => .error e
  | .ok (root, h0) =>
    match Promise.resolveSuccess fuel root Y h0 with
    | .error e => .error e
    | .ok h1 => .ok (root, h1)

/-- A root is built resolved with Failure `E`, then `resolveSuccess(X)` is called on it.
Returns the root handle. -/
def resolveFailureThenSuccess {S F : Type} [Inhabited S] [Inhabited F] (fuel : Nat) (E : F)
    (X : S) (h : Heap S F) : Except Fault (Promise × Heap S F) :=
  match RootPromise.ofFailure fuel E h with
  | .error e => .error e
  | .ok (root, h0) =>
    match Promise.resolveSuccess fuel root X h0 with
    | .error e => .error e
    | .ok h1 => .ok (root, h1)

/-- A pending root is built and `then` is called on it twice, with `(f, g)` and then with
`(f2, g2)`.  Returns the root handle and the two handles that the calls returned. -/
def attachTwice {S F : Type} [Inhabited S] [Inhabited F] (fuel : Nat) (f f2 : S → S)
    (g g2 : F → F) (h : Heap S F) : Except Fault ((Promise × Promise × Promise) × Heap S F) :=
  let (root, h0) := RootPromise.new h
  match Promise.then_ fuel root f g h0 with
  | .error e => .error e
  | .ok (c1, h1) =>
    match Promise.then_ fuel root f2 g2 h1 with
    | .error e => .error e
    | .ok (c2, h2) => .ok ((root, c1, c2), h2)

/-- A store with a pending root at address 0 to which `then(identity, identity)` was
attached: the child is at address 1 (address 2 holds the inline node of the handle). -/
def attachedRootHeap : Heap Nat Nat :=
  ((((pendingRootHeap.alloc (PromiseImpl.newChild (fun s => s) (fun e => e))).2.write 0
    { (RootPromise.rootNode : PromiseImpl Nat Nat) with child_ := some 1 }).alloc
      PromiseImpl.new).2)

/-- The node of the root in `attachedRootHeap`. -/
def attachedRootNode : PromiseImpl Nat Nat :=
  { (RootPromise.rootNode : PromiseImpl Nat Nat) with child_ := some 1 }

/-! ## How the state byte of a node may change -/

/-- The state byte `s` became `t`: the root flag is the same, and either the byte is
unchanged or `t` encodes Success or Failure. -/
def StateKept (s t : Nat) : Prop :=
  PromiseImplBase.isRoot t = PromiseImplBase.isRoot s ∧
  (t = s ∨ PromiseImplBase.getState t = PromiseState.Success ∨
    PromiseImplBase.getState t = PromiseState.Failure)

/-- The store `h` became `h2`: no address was given up, a released cell stays empty, and
the state byte of every node allocated in both changed only as `StateKept` allows. -/
def Heap.Evolves {S F : Type} (h h2 : Heap S F) : Prop :=
  h.cells.length ≤ h2.cells.length ∧
  (∀ b, b < h.cells.length → h.read b = none → h2.read b = none) ∧
  (∀ b n n2, h.read b = some n → h2.read b = some n2 → StateKept n.state_ n2.state_)

/-- The state byte encodes Success or Failure. -/
def PromiseImplBase.isResolved (state_ : Nat) : Prop :=
  PromiseImplBase.getState state_ = PromiseState.Success ∨
    PromiseImplBase.getState state_ = PromiseState.Failure

/-- The chain operations on a node: `then` with its two mappers, `thenTerminate`,
`resolveSuccess` and `resolveFailure`. -/
inductive ChainOp (S F : Type) where
  | attach (map_success : S → S) (map_failure : F → F)
  | thenTerminate
  | resolveSuccess (success : S)
  | resolveFailure (failure : F)

/-- Run a chain operation on the node at `this`; the store it leaves. -/
def ChainOp.run {S F : Type} [Inhabited S] [Inhabited F] (fuel this : Nat) :
    ChainOp S F → Heap S F → Except Fault (Heap S F)
  | .attach map_success map_failure, h =>
    match PromiseImpl.then_ fuel this map_success map_failure h with
    | .error e => .error e
    | .ok (_, h1) => .ok h1
  | .thenTerminate, h => PromiseImpl.thenTerminate this h
  | .resolveSuccess success, h => PromiseImpl.resolveSuccess fuel this success h
  | .resolveFailure failure, h => PromiseImpl.resolveFailure fuel this failure h

/-- Whether the operation is an attachment (`then`) or `thenTerminate`, the two
operations that resolve nothing on the node they are called on. -/
def ChainOp.isAttachment {S F : Type} : ChainOp S F → Bool
  | .attach _ _ => true
  | .thenTerminate => true
  | .resolveSuccess _ => false
  | .resolveFailure _ => false

/-! ## Moving a handle -/

/-- `PromiseImplBase::assignBase`: `child_ = other.child_; state_ = other.state_`. -/
def PromiseImpl.assignBase {S F : Type} (this other : PromiseImpl S F) : PromiseImpl S F :=
  { this with child_ := other.child_, state_ := other.state_ }

/-- `PromiseImpl::operator=(PromiseImpl &&)` on the members: `assignBase(other)`, then
`success_` and `failure_` are moved over.  The dynamic type of the target stays. -/
def PromiseImpl.assignNode {S F : Type} (this other : PromiseImpl S F) : PromiseImpl S F :=
  { PromiseImpl.assignBase this other with
    success_ := other.success_, failure_ := other.failure_ }

/-- `PromiseImpl::operator=(PromiseImpl &&)` between two nodes of the store. -/
def PromiseImpl.moveAssign {S F : Type} (this other : Nat) (h : Heap S F) :
    Except Fault (Heap S F) :=
  match h.read other with
  | none => .error .invalidAccess
  | some o =>
    match h.read this with
    | none => .error .invalidAccess
    | some n => .ok (h.write this (PromiseImpl.assignNode n o))

/-- `Promise::assign(other)`: when `other.impl_->isRoot()`, the inline node is
move-assigned from `other.root_impl_` and `impl_` is set to `&root_impl_` (the `ASSERT`
that follows does nothing); otherwise `impl_ = other.impl_`.  Returns the handle as it
is after the call. -/
def Promise.assign {S F : Type} (this other : Promise) (h : Heap S F) :
    Except Fault (Promise × Heap S F) :=
  match h.read other.impl_ with
  | none => .error .invalidAccess
  | some oi =>
    if PromiseImplBase.isRoot oi.state_ then
      match PromiseImpl.moveAssign this.root_impl_ other.root_impl_ h with
      | .error e => .error e
      | .ok h1 => .ok ({ this with impl_ := this.root_impl_ }, h1)
    else .ok ({ this with impl_ := other.impl_ }, h)

/-- The move constructor `Promise(Promise && other)`: the member `root_impl_` is
default-constructed in the new handle's storage, `impl_` is left uninitialised (the
address of the own inline node stands for the indeterminate value; `assign` overwrites it
on both branches), then `assign(other)`. -/
def Promise.moveNew {S F : Type} [Inhabited S] [Inhabited F] (other : Promise)
    (h : Heap S F) : Except Fault (Promise × Heap S F) :=
  let (r, h1) := h.alloc (PromiseImpl.new : PromiseImpl S F)
  Promise.assign { impl_ := r, root_impl_ := r } other h1

/-- The result of the `ASSERT(impl_->isRoot())` condition for a handle: whether the node
that `impl_` points at carries the root flag (`none` when no node is allocated there). -/
def Promise.implIsRoot {S F : Type} (p : Promise) (h : Heap S F) : Option Bool :=
  isRootAt h p.impl_

/-- A root is built, the non-owning handle `then()` is taken from it, and that handle is
moved into a new handle.  Returns the handle moved from and the handle moved to. -/
def moveNonOwningRootHandle {S F : Type} [Inhabited S] [Inhabited F] (h : Heap S F) :
    Except Fault ((Promise × Promise) × Heap S F) :=
  let (root, h0) := RootPromise.new h
  let (q, h1) := RootPromise.then0 root h0
  match Promise.moveNew q h1 with
  | .error e => .error e
  | .ok (m, h2) => .ok ((q, m), h2)

/-- A root is built, `thenTerminate()` is called on it, the root handle is moved into a
new handle, and `resolveSuccess(X)` is called through the new handle.  Returns the root
handle and the handle moved to. -/
def moveTerminalRootThenResolve {S F : Type} [Inhabited S] [Inhabited F] (fuel : Nat) (X : S)
    (h : Heap S F) : Except Fault ((Promise × Promise) × Heap S F) :=
  let (root, h0) := RootPromise.new h
  match Promise.thenTerminate root h0 with
  | .error e => .error e
  | .ok h1 =>
    match Promise.moveNew root h1 with
    | .error e => .error e
    | .ok (m, h2) =>
      match Promise.resolveSuccess fuel m X h2 with
      | .error e => .error e
      | .ok h3 => .ok ((root, m), h3)

/-! ## What resolving a chain records -/

/-- The forwarding calls made when the head `a` of a chain is resolved with a Success:
one call per link, from the head down. -/
def chainForwardsSuccess {S F : Type} : Nat → List (Nat × ChildImpl S F) → List Event
  | _, [] => []
  | a, (c, _) :: rest => Event.forwardSuccess a c :: chainForwardsSuccess c rest

/-- The forwarding calls made when the head `a` of a chain is resolved with a Failure. -/
def chainForwardsFailure {S F : Type} : Nat → List (Nat × ChildImpl S F) → List Event
  | _, [] => []
  | a, (c, _) :: rest => Event.forwardFailure a c :: chainForwardsFailure c rest

/-- The deletes made when the head `a` of a chain is resolved: every node but the last
calls `destruct()` after its forwarding call returned, innermost first, and deletes
itself unless it carries the root flag. -/
def chainReleases {S F : Type} (h : Heap S F) : Nat → List (Nat × ChildImpl S F) → List Event
  | _, [] => []
  | a, (c, _) :: rest =>
    chainReleases h c rest ++
      (if isRootAt h a = some true then [] else [Event.release a])

/-- How many times the node at `x` was deleted between the store `h` and the later store
`h2`: the number of `release x` events that the trace gained. -/
def releasesBetween {S F : Type} (h h2 : Heap S F) (x : Nat) : Nat :=
  (h2.trace.drop h.trace.length).count (Event.release x)

/-- Whether an event is a forwarding call on the failure channel. -/
def Event.isForwardFailure : Event → Bool
  | .forwardFailure _ _ => true
  | _ => false

/-- Whether an event is a forwarding call on the success channel. -/
def Event.isForwardSuccess : Event → Bool
  | .forwardSuccess _ _ => true
  | _ => false

/-- A store with a pending root at address 0 and two continuations attached one after the
other: the first child is at address 1, the second at address 3 (addresses 2 and 4 hold
the inline nodes of the two handles that `then` returned). -/
def twoLinkChainHeap : Heap Nat Nat :=
  match attachAll 0 [(fun s => s, fun e => e), (fun s => s + 1, fun e => e + 1)]
      ⟨0, 0⟩ pendingRootHeap with
  | .ok (_, h) => h
  | .error _ => Heap.empty

/-- The links of the chain in `twoLinkChainHeap`. -/
def twoLinkChain : List (Nat × ChildImpl Nat Nat) :=
  [(1, ⟨fun s => s, fun e => e⟩), (3, ⟨fun s => s + 1, fun e => e + 1⟩)]

/-- A pending root is built, the continuations of the list are attached in order, each on
the handle the previous one returned, then the root is resolved with `resolveSuccess(X)`.
Returns the last handle. -/
def chainThenResolveSuccess {S F : Type} [Inhabited S] [Inhabited F] (fuel : Nat)
    (ms : List ((S → S) × (F → F))) (X : S) (h : Heap S F) :
    Except Fault (Promise × Heap S F) :=
  let (root, h0) := RootPromise.new h
  match attachAll fuel ms root h0 with
  | .error e => .error e
  | .ok (last, h1) =>
    match Promise.resolveSuccess fuel root X h1 with
    | .error e => .error e
    | .ok h2 => .ok (last, h2)

/-- A pending root is built, the continuations of the list are attached in order, each on
the handle the previous one returned, then the root is resolved with `resolveFailure(E)`.
Returns the last handle. -/
def chainThenResolveFailure {S F : Type} [Inhabited S] [Inhabited F] (fuel : Nat)
    (ms : List ((S → S) × (F → F))) (E : F) (h : Heap S F) :
    Except Fault (Promise × Heap S F) :=
  let (root, h0) := RootPromise.new h
  match attachAll fuel ms root h0 with
  | .error e => .error e
  | .ok (last, h1) =>
    match Promise.resolveFailure fuel root E h1 with
    | .error e => .error e
    | .ok h2 => .ok (last, h2)

/-- A pending root is built, `then(f, g)` is attached, then the root is resolved twice:
`resolveSuccess(X)` and after it `resolveSuccess(Y)`.  Returns the handle that `then`
returned. -/
def resolveTwiceThroughChild {S F : Type} [Inhabited S] [Inhabited F] (fuel : Nat) (X Y : S)
    (f : S → S) (g : F → F) (h : Heap S F) : Except Fault (Promise × Heap S F) :=
  match attachThenResolveSuccess fuel X f g h with
  | .error e => .error e
  | .ok (c, h1) =>
    match PromiseImpl.resolveSuccess fuel h.cells.length Y h1 with
    | .error e => .error e
    | .ok h2 => .ok (c, h2)

/-- A root is built resolved with Success `X` and `then` is called on it twice, with
`(f, g)` and then with `(f2, g2)`.  Returns the root handle and the two handles that the
calls returned. -/
def attachTwiceResolved {S F : Type} [Inhabited S] [Inhabited F] (fuel : Nat) (X : S)
    (f f2 : S → S) (g g2 : F → F) (h : Heap S F) :
    Except Fault ((Promise × Promise × Promise) × Heap S F) :=
  match RootPromise.ofSuccess fuel X h with
  | .error e => .error e
  | .ok (root, h0) =>
    match Promise.then_ fuel root f g h0 with
    | .error e => .error e
    | .ok (c1, h1) =>
      match Promise.then_ fuel root f2 g2 h1 with
      | .error e => .error e
      | .ok (c2, h2) => .ok ((root, c1, c2), h2)

/-- A pending root is built, the continuations of the list are attached in order, each on
the handle the previous one returned, `thenTerminate()` is called on the last handle, then
the root is resolved with `resolveSuccess(X)`.  Returns the last handle. -/
def terminatedChainThenResolve {S F : Type} [Inhabited S] [Inhabited F] (fuel : Nat)
    (ms : List ((S → S) × (F → F))) (X : S) (h : Heap S F) :
    Except Fault (Promise × Heap S F) :=
  let (root, h0) := RootPromise.new h
  match attachAll fuel ms root h0 with
  | .error e => .error e
  | .ok (last, h1) =>
    match Promise.thenTerminate last h1 with
    | .error e => .error e
    | .ok h2 =>
      match Promise.resolveSuccess fuel root X h2 with
      | .error e => .error e
      | .ok h3 => .ok (last, h3)

/-! ## Chains closed with `thenTerminate` -/

/-- Like `PromiseChain`, but the last node of the chain was closed with
`thenTerminate()`: its `child_` is the node itself. -/
def TerminalChain {S F : Type} (h : Heap S F) : Nat → List (Nat × ChildImpl S F) → Prop
  | a, [] => ∃ n, h.read a = some n ∧ n.child_ = some a
  | a, (c, m) :: rest =>
    (∃ n, h.read a = some n ∧ n.child_ = some c) ∧ c ≠ a ∧
    a ∉ rest.map Prod.fst ∧
    (∃ cn, h.read c = some cn ∧ cn.dyn = some m) ∧
    TerminalChain h c rest

/-- The deletes made when the head `a` of a chain closed with `thenTerminate()` is
resolved: every node, the last included, calls `destruct()`, innermost first, and deletes
itself unless it carries the root flag. -/
def chainReleasesAll {S F : Type} (h : Heap S F) :
    Nat → List (Nat × ChildImpl S F) → List Event
  | a, [] => if isRootAt h a = some true then [] else [Event.release a]
  | a, (c, _) :: rest =>
    chainReleasesAll h c rest ++
      (if isRootAt h a = some true then [] else [Event.release a])

/-- The store `twoLinkChainHeap` after `thenTerminate()` on its last node, at address 3. -/
def terminatedTwoLinkChainHeap : Heap Nat Nat :=
  match PromiseImpl.thenTerminate 3 twoLinkChainHeap with
  | .ok h => h
  | .error _ => Heap.empty

/-! ## The state byte -/

namespace PromiseImplBase

theorem and_IsRoot_cases (b : Nat) :
    b &&& PromiseState.IsRoot = 0 ∨ b &&& PromiseState.IsRoot = 128 := by
  have h : b &&& PromiseState.IsRoot = (b / 128 % 2) * 128 := by
    apply Nat.eq_of_testBit_eq
    intro i
    have e : PromiseState.IsRoot = 2 ^ 7 := by decide
    rw [e, Nat.testBit_and, Nat.testBit_two_pow]
    by_cases hi : 7 = i
    · subst hi
      have : b / 128 % 2 = 0 ∨ b / 128 % 2 = 1 := by omega
      rcases this with h0 | h1
      · rw [h0]; simp [Nat.testBit, Nat.shiftRight_eq_div_pow]
        omega
      · rw [h1]; simp [Nat.testBit, Nat.shiftRight_eq_div_pow]
        omega
    · have : b / 128 % 2 = 0 ∨ b / 128 % 2 = 1 := by omega
      rcases this with h0 | h1
      · rw [h0]; simp [hi]
      · rw [h1]
        have e2 : (1 * 128 : Nat) = 2 ^ 7 := by norm_num
        rw [e2, Nat.testBit_two_pow]; simp [hi]
  rw [h]
  omega

theorem getState_setState_Success (b : Nat) :
    getState (setState b PromiseState.Success) = PromiseState.Success := by
  unfold setState PromiseState.Mask
  rcases and_IsRoot_cases b with h | h <;> rw [h] <;> decide

theorem getState_setState_Failure (b : Nat) :
    getState (setState b PromiseState.Failure) = PromiseState.Failure := by
  unfold setState PromiseState.Mask
  rcases and_IsRoot_cases b with h | h <;> rw [h] <;> decide

theorem isRoot_setState_Success (b : Nat) :
    isRoot (setState b PromiseState.Success) = isRoot b := by
  unfold setState PromiseState.Mask isRoot
  rcases and_IsRoot_cases b with h | h <;> rw [h] <;> decide

theorem isRoot_setState_Failure (b : Nat) :
    isRoot (setState b PromiseState.Failure) = isRoot b := by
  unfold setState PromiseState.Mask isRoot
  rcases and_IsRoot_cases b with h | h <;> rw [h] <;> decide

theorem isPending_eq_false_of_getState {b s : Nat} (h : getState b = s)
    (hs : s ≠ PromiseState.Pending) : isPending b = false := by
  unfold isPending
  rw [h]
  simpa using hs

end PromiseImplBase

/-! ## The store -/

namespace Heap

variable {S F : Type}

theorem lt_length_of_read {h : Heap S F} {a : Nat} {n : PromiseImpl S F}
    (hr : h.read a = some n) : a < h.cells.length := by
  unfold read at hr
  by_contra hlt
  rw [List.getElem?_eq_none (Nat.le_of_not_lt hlt)] at hr
  simp at hr

@[simp] theorem read_note (h : Heap S F) (e : Event) (a : Nat) :
    (h.note e).read a = h.read a := rfl

@[simp] theorem cells_note (h : Heap S F) (e : Event) :
    (h.note e).cells = h.cells := rfl

@[simp] theorem trace_note (h : Heap S F) (e : Event) :
    (h.note e).trace = h.trace ++ [e] := rfl

@[simp] theorem trace_write (h : Heap S F) (a : Nat) (n : PromiseImpl S F) :
    (h.write a n).trace = h.trace := rfl

@[simp] theorem trace_free (h : Heap S F) (a : Nat) :
    (h.free a).trace = h.trace ++ [Event.release a] := rfl

@[simp] theorem trace_alloc (h : Heap S F) (n : PromiseImpl S F) :
    (h.alloc n).2.trace = h.trace := rfl

@[simp] theorem fst_alloc (h : Heap S F) (n : PromiseImpl S F) :
    (h.alloc n).1 = h.cells.length := rfl

@[simp] theorem length_write (h : Heap S F) (a : Nat) (n : PromiseImpl S F) :
    (h.write a n).cells.length = h.cells.length := by
  simp [write]

@[simp] theorem length_free (h : Heap S F) (a : Nat) :
    (h.free a).cells.length = h.cells.length := by
  simp [free]

@[simp] theorem length_alloc (h : Heap S F) (n : PromiseImpl S F) :
    (h.alloc n).2.cells.length = h.cells.length + 1 := by
  simp [alloc]

theorem read_write (h : Heap S F) (a b : Nat) (n : PromiseImpl S F) :
    (h.write a n).read b =
      if b = a then (if a < h.cells.length then some n else none) else h.read b := by
  unfold write read
  by_cases hb : b = a
  · subst hb
    by_cases hl : b < h.cells.length
    · simp [hl, List.getElem?_set]
    · simp [hl, List.getElem?_set]
  · have hne : a ≠ b := fun e => hb e.symm
    simp [hb, List.getElem?_set_ne hne]

theorem read_write_self {h : Heap S F} {a : Nat} {m : PromiseImpl S F}
    (hr : h.read a = some m) (n : PromiseImpl S F) : (h.write a n).read a = some n := by
  rw [read_write]
  simp [lt_length_of_read hr]

theorem read_write_of_ne (h : Heap S F) {a b : Nat} (hb : b ≠ a) (n : PromiseImpl S F) :
    (h.write a n).read b = h.read b := by
  rw [read_write]
  simp [hb]

theorem read_free (h : Heap S F) (a b : Nat) :
    (h.free a).read b = if b = a then none else h.read b := by
  unfold free read
  by_cases hb : b = a
  · subst hb
    by_cases hl : b < h.cells.length
    · simp [hl, List.getElem?_set]
    · simp [hl, List.getElem?_set]
  · have hne : a ≠ b := fun e => hb e.symm
    simp [hb, List.getElem?_set_ne hne]

theorem read_alloc (h : Heap S F) (n : PromiseImpl S F) (b : Nat) :
    (h.alloc n).2.read b = if b = h.cells.length then some n else h.read b := by
  unfold alloc read
  by_cases hb : b = h.cells.length
  · subst hb
    simp
  · simp only [hb, if_false]
    by_cases hl : b < h.cells.length
    · rw [List.getElem?_append_left hl]
    · have hgt : h.cells.length < b := by omega
      have h1 : (h.cells ++ [some n]).length ≤ b := by simp; omega
      rw [List.getElem?_eq_none h1, List.getElem?_eq_none (Nat.le_of_lt hgt)]

theorem read_length (h : Heap S F) : h.read h.cells.length = none := by
  unfold read
  simp

theorem read_of_length_le (h : Heap S F) {a : Nat} (ha : h.cells.length ≤ a) :
    h.read a = none := by
  unfold read
  rw [List.getElem?_eq_none ha]
  rfl

end Heap

/-! ## One step of each operation -/

namespace PromiseImpl

variable {S F : Type}

theorem destruct_of_read {h : Heap S F} {a : Nat} {n : PromiseImpl S F}
    (hr : h.read a = some n) :
    destruct a h = .ok (if PromiseImplBase.isRoot n.state_ then h else h.free a) := by
  unfold destruct
  rw [hr]
  by_cases hroot : PromiseImplBase.isRoot n.state_ = true <;> simp [hroot]

theorem resolveSuccess_leaf {h : Heap S F} {a : Nat} {n : PromiseImpl S F}
    (hr : h.read a = some n) (hc : n.child_ = none) (fuel : Nat) (v : S) :
    resolveSuccess (fuel + 1) a v h =
      .ok (h.write a { n with
        state_ := PromiseImplBase.setState n.state_ PromiseState.Success, success_ := v }) := by
  simp [resolveSuccess, hr, hc]

theorem resolveFailure_leaf {h : Heap S F} {a : Nat} {n : PromiseImpl S F}
    (hr : h.read a = some n) (hc : n.child_ = none) (fuel : Nat) (v : F) :
    resolveFailure (fuel + 1) a v h =
      .ok (h.write a { n with
        state_ := PromiseImplBase.setState n.state_ PromiseState.Failure, failure_ := v }) := by
  simp [resolveFailure, hr, hc]

theorem resolveSuccess_terminal {h : Heap S F} {a : Nat} {n : PromiseImpl S F}
    (hr : h.read a = some n) (hc : n.child_ = some a) (fuel : Nat) (v : S) :
    resolveSuccess (fuel + 1) a v h =
      .ok (if PromiseImplBase.isRoot n.state_ then h else h.free a) := by
  simp [resolveSuccess, hr, hc, destruct_of_read hr]

theorem resolveFailure_terminal {h : Heap S F} {a : Nat} {n : PromiseImpl S F}
    (hr : h.read a = some n) (hc : n.child_ = some a) (fuel : Nat) (v : F) :
    resolveFailure (fuel + 1) a v h =
      .ok (if PromiseImplBase.isRoot n.state_ then h else h.free a) := by
  simp [resolveFailure, hr, hc, destruct_of_read hr]

theorem resolveSuccess_forward {h : Heap S F} {a c : Nat} {n : PromiseImpl S F}
    (hr : h.read a = some n) (hc : n.child_ = some c) (hne : c ≠ a) (fuel : Nat) (v : S) :
    resolveSuccess (fuel + 1) a v h =
      match opaqueResolveSuccess fuel c v (h.note (Event.forwardSuccess a c)) with
      | .error e => .error e
      | .ok h1 => destruct a h1 := by
  simp [resolveSuccess, hr, hc, hne]

theorem resolveFailure_forward {h : Heap S F} {a c : Nat} {n : PromiseImpl S F}
    (hr : h.read a = some n) (hc : n.child_ = some c) (hne : c ≠ a) (fuel : Nat) (v : F) :
    resolveFailure (fuel + 1) a v h =
      match opaqueResolveFailure fuel c v (h.note (Event.forwardFailure a c)) with
      | .error e => .error e
      | .ok h1 => destruct a h1 := by
  simp [resolveFailure, hr, hc, hne]

theorem opaqueResolveSuccess_child {h : Heap S F} {c : Nat} {n : PromiseImpl S F}
    {m : ChildImpl S F} (hr : h.read c = some n) (hd : n.dyn = some m) (fuel : Nat) (v : S) :
    opaqueResolveSuccess (fuel + 1) c v h = resolveSuccess fuel c (m.map_success_ v) h := by
  simp [opaqueResolveSuccess, hr, hd]

theorem opaqueResolveFailure_child {h : Heap S F} {c : Nat} {n : PromiseImpl S F}
    {m : ChildImpl S F} (hr : h.read c = some n) (hd : n.dyn = some m) (fuel : Nat) (v : F) :
    opaqueResolveFailure (fuel + 1) c v h = resolveFailure fuel c (m.map_failure_ v) h := by
  simp [opaqueResolveFailure, hr, hd]

/-- The store after `then` on a node that is still pending. -/
theorem then_pending [Inhabited S] [Inhabited F] {h : Heap S F} {a : Nat}
    {n : PromiseImpl S F} (hr : h.read a = some n)
    (hp : PromiseImplBase.isPending n.state_ = true) (fuel : Nat) (f : S → S) (g : F → F) :
    then_ fuel a f g h =
      .ok (h.cells.length,
        (h.alloc (newChild f g)).2.write a { n with child_ := some h.cells.length }) := by
  simp [then_, hr, hp]

/-- The store after `then` on a node whose state is Success: the child is resolved at
once with the mapped stored value, and the node destructs. -/
theorem then_resolved_success [Inhabited S] [Inhabited F] {h : Heap S F} {a : Nat}
    {n : PromiseImpl S F} (hr : h.read a = some n)
    (hs : PromiseImplBase.getState n.state_ = PromiseState.Success)
    (fuel : Nat) (f : S → S) (g : F → F) :
    then_ (fuel + 2) a f g h =
      .ok (h.cells.length,
        let h2 := (h.alloc (newChild f g)).2.write a { n with child_ := some h.cells.length }
        let h3 := (h2.note (Event.forwardSuccess a h.cells.length)).write h.cells.length
          { (newChild f g : PromiseImpl S F) with
            state_ := PromiseImplBase.setState PromiseState.Pending PromiseState.Success,
            success_ := f n.success_ }
        if PromiseImplBase.isRoot n.state_ then h3 else h3.free a) := by
  have hlt := Heap.lt_length_of_read hr
  have hne : a ≠ h.cells.length := by omega
  have hne2 : h.cells.length ≠ a := by omega
  have hp : PromiseImplBase.isPending n.state_ = false :=
    PromiseImplBase.isPending_eq_false_of_getState hs (by decide)
  have hc : ((h.alloc (newChild f g)).2.write a
      { n with child_ := some h.cells.length }).read h.cells.length =
      some (newChild f g) := by
    rw [Heap.read_write_of_ne _ hne2, Heap.read_alloc]; simp
  have hc2 : (((h.alloc (newChild f g)).2.write a
      { n with child_ := some h.cells.length }).note
        (Event.forwardSuccess a h.cells.length)).read h.cells.length =
      some (newChild f g) := by
    rw [Heap.read_note]; exact hc
  have hd : (newChild f g : PromiseImpl S F).dyn = some ⟨f, g⟩ := rfl
  have hcn : (newChild f g : PromiseImpl S F).child_ = none := rfl
  have ha : ∀ m, ((((h.alloc (newChild f g)).2.write a
      { n with child_ := some h.cells.length }).note
        (Event.forwardSuccess a h.cells.length)).write h.cells.length m).read a =
      some { n with child_ := some h.cells.length } := by
    intro m
    rw [Heap.read_write_of_ne _ hne, Heap.read_note, Heap.read_write, if_pos rfl]
    simp; omega
  simp only [then_, hr, hp, hs, Heap.fst_alloc]
  simp only [Bool.not_false, if_true]
  rw [opaqueResolveSuccess_child hc2 hd, resolveSuccess_leaf hc2 hcn]
  simp only []
  rw [destruct_of_read (ha _)]
  simp only []
  by_cases hroot : PromiseImplBase.isRoot n.state_ = true <;> simp [hroot, newChild]

end PromiseImpl

namespace PromiseImpl

variable {S F : Type}

/-- The store after `then` on a node whose state is Failure: the child is resolved at
once with the mapped stored failure, and the node destructs. -/
theorem then_resolved_failure [Inhabited S] [Inhabited F] {h : Heap S F} {a : Nat}
    {n : PromiseImpl S F} (hr : h.read a = some n)
    (hs : PromiseImplBase.getState n.state_ = PromiseState.Failure)
    (fuel : Nat) (f : S → S) (g : F → F) :
    then_ (fuel + 2) a f g h =
      .ok (h.cells.length,
        let h2 := (h.alloc (newChild f g)).2.write a { n with child_ := some h.cells.length }
        let h3 := (h2.note (Event.forwardFailure a h.cells.length)).write h.cells.length
          { (newChild f g : PromiseImpl S F) with
            state_ := PromiseImplBase.setState PromiseState.Pending PromiseState.Failure,
            failure_ := g n.failure_ }
        if PromiseImplBase.isRoot n.state_ then h3 else h3.free a) := by
  have hlt := Heap.lt_length_of_read hr
  have hne : a ≠ h.cells.length := by omega
  have hne2 : h.cells.length ≠ a := by omega
  have hp : PromiseImplBase.isPending n.state_ = false :=
    PromiseImplBase.isPending_eq_false_of_getState hs (by decide)
  have hc : ((h.alloc (newChild f g)).2.write a
      { n with child_ := some h.cells.length }).read h.cells.length =
      some (newChild f g) := by
    rw [Heap.read_write_of_ne _ hne2, Heap.read_alloc]; simp
  have hc2 : (((h.alloc (newChild f g)).2.write a
      { n with child_ := some h.cells.length }).note
        (Event.forwardFailure a h.cells.length)).read h.cells.length =
      some (newChild f g) := by
    rw [Heap.read_note]; exact hc
  have hd : (newChild f g : PromiseImpl S F).dyn = some ⟨f, g⟩ := rfl
  have hcn : (newChild f g : PromiseImpl S F).child_ = none := rfl
  have ha : ∀ m, ((((h.alloc (newChild f g)).2.write a
      { n with child_ := some h.cells.length }).note
        (Event.forwardFailure a h.cells.length)).write h.cells.length m).read a =
      some { n with child_ := some h.cells.length } := by
    intro m
    rw [Heap.read_write_of_ne _ hne, Heap.read_note, Heap.read_write, if_pos rfl]
    simp; omega
  have hsf : PromiseState.Failure ≠ PromiseState.Success := by decide
  simp only [then_, hr, hp, hs, Heap.fst_alloc]
  simp only [Bool.not_false, if_true, hsf, if_false]
  rw [opaqueResolveFailure_child hc2 hd, resolveFailure_leaf hc2 hcn]
  simp only []
  rw [destruct_of_read (ha _)]
  simp only []
  by_cases hroot : PromiseImplBase.isRoot n.state_ = true <;> simp [hroot, newChild]

end PromiseImpl

/-! ## Roots -/

namespace RootPromise

variable {S F : Type}

theorem new_fst [Inhabited S] [Inhabited F] (h : Heap S F) :
    (new h).1 = { impl_ := h.cells.length, root_impl_ := h.cells.length } := rfl

theorem read_new [Inhabited S] [Inhabited F] (h : Heap S F) (b : Nat) :
    (new h).2.read b = if b = h.cells.length then some rootNode else h.read b := by
  unfold new
  simp only [Heap.fst_alloc]
  rw [Heap.read_write, Heap.read_alloc]
  by_cases hb : b = h.cells.length
  · simp [hb, rootNode, PromiseImpl.new]
  · simp [hb]

theorem length_new [Inhabited S] [Inhabited F] (h : Heap S F) :
    (new h).2.cells.length = h.cells.length + 1 := by
  simp [new]

theorem trace_new [Inhabited S] [Inhabited F] (h : Heap S F) :
    (new h).2.trace = h.trace := rfl

theorem ofSuccess_eq [Inhabited S] [Inhabited F] (fuel : Nat) (X : S) (h : Heap S F) :
    ofSuccess (fuel + 1) X h =
      .ok ((new h).1, (new h).2.write h.cells.length
        { (rootNode : PromiseImpl S F) with
          state_ := PromiseImplBase.setState
            (PromiseImplBase.setIsRoot PromiseState.Pending) PromiseState.Success,
          success_ := X }) := by
  have hr : (new h).2.read h.cells.length = some rootNode := by
    rw [read_new]; simp
  unfold ofSuccess Promise.resolveSuccess
  simp only [new_fst]
  rw [PromiseImpl.resolveSuccess_leaf hr rfl]
  rfl

theorem ofFailure_eq [Inhabited S] [Inhabited F] (fuel : Nat) (E : F) (h : Heap S F) :
    ofFailure (fuel + 1) E h =
      .ok ((new h).1, (new h).2.write h.cells.length
        { (rootNode : PromiseImpl S F) with
          state_ := PromiseImplBase.setState
            (PromiseImplBase.setIsRoot PromiseState.Pending) PromiseState.Failure,
          failure_ := E }) := by
  have hr : (new h).2.read h.cells.length = some rootNode := by
    rw [read_new]; simp
  unfold ofFailure Promise.resolveFailure
  simp only [new_fst]
  rw [PromiseImpl.resolveFailure_leaf hr rfl]
  rfl

end RootPromise


namespace PromiseImpl

variable {S F : Type}

/-- What `then` leaves behind on a pending node. -/
theorem then_pending_spec [Inhabited S] [Inhabited F] {h : Heap S F} {a : Nat}
    {n : PromiseImpl S F} (hr : h.read a = some n)
    (hp : PromiseImplBase.isPending n.state_ = true) (fuel : Nat) (f : S → S) (g : F → F) :
    ∃ h' : Heap S F,
      then_ fuel a f g h = .ok (h.cells.length, h') ∧
      h'.read h.cells.length = some (newChild f g) ∧
      h'.read a = some ⟨some h.cells.length, n.state_, n.success_, n.failure_, n.dyn⟩ ∧
      (∀ b, b ≠ a → b ≠ h.cells.length → h'.read b = h.read b) ∧
      h'.cells.length = h.cells.length + 1 ∧
      h'.trace = h.trace := by
  have hlt := Heap.lt_length_of_read hr
  refine ⟨_, then_pending hr hp fuel f g, ?_, ?_, ?_, ?_, ?_⟩
  · rw [Heap.read_write, Heap.read_alloc]
    have : h.cells.length ≠ a := by omega
    simp [this]
  · rw [Heap.read_write]
    simp; omega
  · intro b hb1 hb2
    rw [Heap.read_write, Heap.read_alloc]
    simp [hb1, hb2]
  · simp
  · simp

/-- What `then` leaves behind on a node whose state is Success. -/
theorem then_resolved_success_spec [Inhabited S] [Inhabited F] {h : Heap S F} {a : Nat}
    {n : PromiseImpl S F} (hr : h.read a = some n)
    (hs : PromiseImplBase.getState n.state_ = PromiseState.Success)
    (fuel : Nat) (f : S → S) (g : F → F) :
    ∃ h' : Heap S F,
      then_ (fuel + 2) a f g h = .ok (h.cells.length, h') ∧
      h'.read h.cells.length =
        some ⟨none, PromiseState.Success, f n.success_, default, some ⟨f, g⟩⟩ ∧
      h'.read a = (if PromiseImplBase.isRoot n.state_ then
        some ⟨some h.cells.length, n.state_, n.success_, n.failure_, n.dyn⟩ else none) ∧
      (∀ b, b ≠ a → b ≠ h.cells.length → h'.read b = h.read b) ∧
      h'.cells.length = h.cells.length + 1 ∧
      h'.trace = h.trace ++ Event.forwardSuccess a h.cells.length ::
        (if PromiseImplBase.isRoot n.state_ then [] else [Event.release a]) := by
  have hlt := Heap.lt_length_of_read hr
  have hne : h.cells.length ≠ a := by omega
  have hne2 : a ≠ h.cells.length := by omega
  refine ⟨_, then_resolved_success hr hs fuel f g, ?_⟩
  by_cases hroot : PromiseImplBase.isRoot n.state_ = true
  · simp only [hroot, if_true]
    refine ⟨?_, ?_, ?_, ?_, ?_⟩
    · rw [Heap.read_write]
      simp [newChild]
      decide
    · rw [Heap.read_write_of_ne _ hne2, Heap.read_note, Heap.read_write]
      simp; omega
    · intro b hb1 hb2
      rw [Heap.read_write_of_ne _ hb2, Heap.read_note, Heap.read_write_of_ne _ hb1,
        Heap.read_alloc]
      simp [hb2]
    · simp
    · simp
  · have hroot' : PromiseImplBase.isRoot n.state_ = false := by simpa using hroot
    simp only [hroot', Bool.false_eq_true, if_false]
    refine ⟨?_, ?_, ?_, ?_, ?_⟩
    · rw [Heap.read_free, if_neg hne, Heap.read_write]
      simp [newChild]
      decide
    · rw [Heap.read_free]; simp
    · intro b hb1 hb2
      rw [Heap.read_free, if_neg hb1, Heap.read_write_of_ne _ hb2, Heap.read_note,
        Heap.read_write_of_ne _ hb1, Heap.read_alloc]
      simp [hb2]
    · simp
    · simp

/-- What `then` leaves behind on a node whose state is Failure. -/
theorem then_resolved_failure_spec [Inhabited S] [Inhabited F] {h : Heap S F} {a : Nat}
    {n : PromiseImpl S F} (hr : h.read a = some n)
    (hs : PromiseImplBase.getState n.state_ = PromiseState.Failure)
    (fuel : Nat) (f : S → S) (g : F → F) :
    ∃ h' : Heap S F,
      then_ (fuel + 2) a f g h = .ok (h.cells.length, h') ∧
      h'.read h.cells.length =
        some ⟨none, PromiseState.Failure, default, g n.failure_, some ⟨f, g⟩⟩ ∧
      h'.read a = (if PromiseImplBase.isRoot n.state_ then
        some ⟨some h.cells.length, n.state_, n.success_, n.failure_, n.dyn⟩ else none) ∧
      (∀ b, b ≠ a → b ≠ h.cells.length → h'.read b = h.read b) ∧
      h'.cells.length = h.cells.length + 1 ∧
      h'.trace = h.trace ++ Event.forwardFailure a h.cells.length ::
        (if PromiseImplBase.isRoot n.state_ then [] else [Event.release a]) := by
  have hlt := Heap.lt_length_of_read hr
  have hne : h.cells.length ≠ a := by omega
  have hne2 : a ≠ h.cells.length := by omega
  refine ⟨_, then_resolved_failure hr hs fuel f g, ?_⟩
  by_cases hroot : PromiseImplBase.isRoot n.state_ = true
  · simp only [hroot, if_true]
    refine ⟨?_, ?_, ?_, ?_, ?_⟩
    · rw [Heap.read_write]
      simp [newChild]
      decide
    · rw [Heap.read_write_of_ne _ hne2, Heap.read_note, Heap.read_write]
      simp; omega
    · intro b hb1 hb2
      rw [Heap.read_write_of_ne _ hb2, Heap.read_note, Heap.read_write_of_ne _ hb1,
        Heap.read_alloc]
      simp [hb2]
    · simp
    · simp
  · have hroot' : PromiseImplBase.isRoot n.state_ = false := by simpa using hroot
    simp only [hroot', Bool.false_eq_true, if_false]
    refine ⟨?_, ?_, ?_, ?_, ?_⟩
    · rw [Heap.read_free, if_neg hne, Heap.read_write]
      simp [newChild]
      decide
    · rw [Heap.read_free]; simp
    · intro b hb1 hb2
      rw [Heap.read_free, if_neg hb1, Heap.read_write_of_ne _ hb2, Heap.read_note,
        Heap.read_write_of_ne _ hb1, Heap.read_alloc]
      simp [hb2]
    · simp
    · simp

end PromiseImpl

namespace PromiseImpl

variable {S F : Type}

/-- Resolving a node whose child is a bridge with no child of its own: the child stores
the mapped value and the node destructs. -/
theorem resolveSuccess_one_hop {h : Heap S F} {a c : Nat} {n cn : PromiseImpl S F}
    {m : ChildImpl S F} (hr : h.read a = some n) (hc : n.child_ = some c) (hne : c ≠ a)
    (hrc : h.read c = some cn) (hd : cn.dyn = some m) (hcc : cn.child_ = none)
    (fuel : Nat) (v : S) :
    ∃ h' : Heap S F,
      resolveSuccess (fuel + 3) a v h = .ok h' ∧
      h'.read c = some ⟨none, PromiseImplBase.setState cn.state_ PromiseState.Success,
        m.map_success_ v, cn.failure_, cn.dyn⟩ ∧
      h'.read a = (if PromiseImplBase.isRoot n.state_ then some n else none) ∧
      (∀ b, b ≠ a → b ≠ c → h'.read b = h.read b) ∧
      h'.cells.length = h.cells.length ∧
      h'.trace = h.trace ++ Event.forwardSuccess a c ::
        (if PromiseImplBase.isRoot n.state_ then [] else [Event.release a]) := by
  have hlc := Heap.lt_length_of_read hrc
  have hrc' : (h.note (Event.forwardSuccess a c)).read c = some cn := by
    rw [Heap.read_note]; exact hrc
  have hra : ((h.note (Event.forwardSuccess a c)).write c
      { cn with state_ := PromiseImplBase.setState cn.state_ PromiseState.Success,
                success_ := m.map_success_ v }).read a = some n := by
    rw [Heap.read_write_of_ne _ (Ne.symm hne), Heap.read_note]; exact hr
  rw [resolveSuccess_forward hr hc hne, opaqueResolveSuccess_child hrc' hd,
    resolveSuccess_leaf hrc' hcc]
  simp only []
  rw [destruct_of_read hra]
  refine ⟨_, rfl, ?_⟩
  by_cases hroot : PromiseImplBase.isRoot n.state_ = true
  · simp only [hroot, if_true]
    refine ⟨?_, hra, ?_, by simp, by simp⟩
    · rw [Heap.read_write]; simp [hcc]; exact hlc
    · intro b hb1 hb2
      rw [Heap.read_write_of_ne _ hb2, Heap.read_note]
  · have hroot' : PromiseImplBase.isRoot n.state_ = false := by simpa using hroot
    simp only [hroot', Bool.false_eq_true, if_false]
    refine ⟨?_, ?_, ?_, by simp, by simp⟩
    · rw [Heap.read_free, if_neg hne, Heap.read_write]; simp [hcc]; exact hlc
    · rw [Heap.read_free]; simp
    · intro b hb1 hb2
      rw [Heap.read_free, if_neg hb1, Heap.read_write_of_ne _ hb2, Heap.read_note]

/-- The failure counterpart of `resolveSuccess_one_hop`. -/
theorem resolveFailure_one_hop {h : Heap S F} {a c : Nat} {n cn : PromiseImpl S F}
    {m : ChildImpl S F} (hr : h.read a = some n) (hc : n.child_ = some c) (hne : c ≠ a)
    (hrc : h.read c = some cn) (hd : cn.dyn = some m) (hcc : cn.child_ = none)
    (fuel : Nat) (v : F) :
    ∃ h' : Heap S F,
      resolveFailure (fuel + 3) a v h = .ok h' ∧
      h'.read c = some ⟨none, PromiseImplBase.setState cn.state_ PromiseState.Failure,
        cn.success_, m.map_failure_ v, cn.dyn⟩ ∧
      h'.read a = (if PromiseImplBase.isRoot n.state_ then some n else none) ∧
      (∀ b, b ≠ a → b ≠ c → h'.read b = h.read b) ∧
      h'.cells.length = h.cells.length ∧
      h'.trace = h.trace ++ Event.forwardFailure a c ::
        (if PromiseImplBase.isRoot n.state_ then [] else [Event.release a]) := by
  have hlc := Heap.lt_length_of_read hrc
  have hrc' : (h.note (Event.forwardFailure a c)).read c = some cn := by
    rw [Heap.read_note]; exact hrc
  have hra : ((h.note (Event.forwardFailure a c)).write c
      { cn with state_ := PromiseImplBase.setState cn.state_ PromiseState.Failure,
                failure_ := m.map_failure_ v }).read a = some n := by
    rw [Heap.read_write_of_ne _ (Ne.symm hne), Heap.read_note]; exact hr
  rw [resolveFailure_forward hr hc hne, opaqueResolveFailure_child hrc' hd,
    resolveFailure_leaf hrc' hcc]
  simp only []
  rw [destruct_of_read hra]
  refine ⟨_, rfl, ?_⟩
  by_cases hroot : PromiseImplBase.isRoot n.state_ = true
  · simp only [hroot, if_true]
    refine ⟨?_, hra, ?_, by simp, by simp⟩
    · rw [Heap.read_write]; simp [hcc]; exact hlc
    · intro b hb1 hb2
      rw [Heap.read_write_of_ne _ hb2, Heap.read_note]
  · have hroot' : PromiseImplBase.isRoot n.state_ = false := by simpa using hroot
    simp only [hroot', Bool.false_eq_true, if_false]
    refine ⟨?_, ?_, ?_, by simp, by simp⟩
    · rw [Heap.read_free, if_neg hne, Heap.read_write]; simp [hcc]; exact hlc
    · rw [Heap.read_free]; simp
    · intro b hb1 hb2
      rw [Heap.read_free, if_neg hb1, Heap.read_write_of_ne _ hb2, Heap.read_note]

end PromiseImpl

namespace Promise

variable {S F : Type}

theorem then_of_impl [Inhabited S] [Inhabited F] {fuel : Nat} {p : Promise} {f : S → S}
    {g : F → F} {h h1 : Heap S F} {c : Nat}
    (hi : PromiseImpl.then_ fuel p.impl_ f g h = .ok (c, h1)) :
    then_ fuel p f g h =
      .ok ({ impl_ := c, root_impl_ := h1.cells.length }, (h1.alloc PromiseImpl.new).2) := by
  unfold then_
  rw [hi]
  rfl

theorem read_alloc_of_read {h : Heap S F} {b : Nat} {n : PromiseImpl S F}
    (hr : h.read b = some n) (m : PromiseImpl S F) : (h.alloc m).2.read b = some n := by
  have := Heap.lt_length_of_read hr
  rw [Heap.read_alloc, if_neg (by omega)]
  exact hr

end Promise

namespace RootPromise

variable {S F : Type}

theorem ofSuccess_spec [Inhabited S] [Inhabited F] (fuel : Nat) (X : S) (h : Heap S F) :
    ∃ h' : Heap S F,
      ofSuccess (fuel + 1) X h =
        .ok ({ impl_ := h.cells.length, root_impl_ := h.cells.length }, h') ∧
      h'.read h.cells.length =
        some ⟨none, PromiseImplBase.setState
          (PromiseImplBase.setIsRoot PromiseState.Pending) PromiseState.Success,
          X, default, none⟩ ∧
      (∀ b, b ≠ h.cells.length → h'.read b = h.read b) ∧
      h'.cells.length = h.cells.length + 1 ∧
      h'.trace = h.trace := by
  refine ⟨_, ofSuccess_eq fuel X h, ?_, ?_, ?_, ?_⟩
  · rw [Heap.read_write, if_pos rfl, length_new]
    simp [rootNode, PromiseImpl.new]
  · intro b hb
    rw [Heap.read_write_of_ne _ hb, read_new, if_neg hb]
  · rw [Heap.length_write, length_new]
  · rw [Heap.trace_write, trace_new]

theorem ofFailure_spec [Inhabited S] [Inhabited F] (fuel : Nat) (E : F) (h : Heap S F) :
    ∃ h' : Heap S F,
      ofFailure (fuel + 1) E h =
        .ok ({ impl_ := h.cells.length, root_impl_ := h.cells.length }, h') ∧
      h'.read h.cells.length =
        some ⟨none, PromiseImplBase.setState
          (PromiseImplBase.setIsRoot PromiseState.Pending) PromiseState.Failure,
          default, E, none⟩ ∧
      (∀ b, b ≠ h.cells.length → h'.read b = h.read b) ∧
      h'.cells.length = h.cells.length + 1 ∧
      h'.trace = h.trace := by
  refine ⟨_, ofFailure_eq fuel E h, ?_, ?_, ?_, ?_⟩
  · rw [Heap.read_write, if_pos rfl, length_new]
    simp [rootNode, PromiseImpl.new]
  · intro b hb
    rw [Heap.read_write_of_ne _ hb, read_new, if_neg hb]
  · rw [Heap.length_write, length_new]
  · rw [Heap.trace_write, trace_new]

end RootPromise

namespace PromiseImplBase

theorem getState_Success : getState PromiseState.Success = PromiseState.Success := by
  decide

theorem getState_Failure : getState PromiseState.Failure = PromiseState.Failure := by
  decide

theorem getState_Pending : getState PromiseState.Pending = PromiseState.Pending := by
  decide

end PromiseImplBase

/-! ## Attaching after resolving, and resolving after attaching -/

section Order

variable {S F : Type} [Inhabited S] [Inhabited F]

theorem resolveSuccessThenAttach_node (fuel : Nat) (X : S) (f : S → S) (g : F → F)
    (h : Heap S F) :
    ∃ (p : Promise) (h2 : Heap S F),
      resolveSuccessThenAttach (fuel + 2) X f g h = .ok (p, h2) ∧
      h2.read p.impl_ = some ⟨none, PromiseState.Success, f X, default, some ⟨f, g⟩⟩ := by
  obtain ⟨h0, e0, hr0, -, hl0, -⟩ := RootPromise.ofSuccess_spec (fuel + 1) X h
  obtain ⟨h1, e1, hc1, -, -, -, -⟩ :=
    PromiseImpl.then_resolved_success_spec hr0
      (show PromiseImplBase.getState (PromiseImplBase.setState
        (PromiseImplBase.setIsRoot PromiseState.Pending) PromiseState.Success) =
          PromiseState.Success by decide) fuel f g
  unfold resolveSuccessThenAttach
  rw [e0]
  simp only []
  rw [Promise.then_of_impl e1]
  exact ⟨_, _, rfl, Promise.read_alloc_of_read hc1 _⟩

theorem resolveFailureThenAttach_node (fuel : Nat) (E : F) (f : S → S) (g : F → F)
    (h : Heap S F) :
    ∃ (p : Promise) (h2 : Heap S F),
      resolveFailureThenAttach (fuel + 2) E f g h = .ok (p, h2) ∧
      h2.read p.impl_ = some ⟨none, PromiseState.Failure, default, g E, some ⟨f, g⟩⟩ := by
  obtain ⟨h0, e0, hr0, -, hl0, -⟩ := RootPromise.ofFailure_spec (fuel + 1) E h
  obtain ⟨h1, e1, hc1, -, -, -, -⟩ :=
    PromiseImpl.then_resolved_failure_spec hr0
      (show PromiseImplBase.getState (PromiseImplBase.setState
        (PromiseImplBase.setIsRoot PromiseState.Pending) PromiseState.Failure) =
          PromiseState.Failure by decide) fuel f g
  unfold resolveFailureThenAttach
  rw [e0]
  simp only []
  rw [Promise.then_of_impl e1]
  exact ⟨_, _, rfl, Promise.read_alloc_of_read hc1 _⟩

theorem attachThenResolveSuccess_node (fuel : Nat) (X : S) (f : S → S) (g : F → F)
    (h : Heap S F) :
    ∃ (p : Promise) (h2 : Heap S F),
      attachThenResolveSuccess (fuel + 3) X f g h = .ok (p, h2) ∧
      h2.read p.impl_ = some ⟨none, PromiseState.Success, f X, default, some ⟨f, g⟩⟩ := by
  have hr0 : (RootPromise.new h).2.read h.cells.length =
      some (RootPromise.rootNode : PromiseImpl S F) := by
    rw [RootPromise.read_new]; simp
  have hl0 := RootPromise.length_new h
  obtain ⟨h1, e1, hc1, ha1, -, hl1, -⟩ :=
    PromiseImpl.then_pending_spec hr0
      (show PromiseImplBase.isPending
        (PromiseImplBase.setIsRoot PromiseState.Pending) = true by decide) (fuel + 3) f g
  rw [hl0] at e1 hc1 ha1
  have hc2 := Promise.read_alloc_of_read hc1 (PromiseImpl.new : PromiseImpl S F)
  have ha2 := Promise.read_alloc_of_read ha1 (PromiseImpl.new : PromiseImpl S F)
  obtain ⟨h3, e3, hc3, -, -, -, -⟩ :=
    PromiseImpl.resolveSuccess_one_hop (m := ⟨f, g⟩) ha2 rfl (by omega) hc2 rfl rfl fuel X
  unfold attachThenResolveSuccess
  simp only [RootPromise.new_fst]
  rw [Promise.then_of_impl e1]
  simp only [Promise.resolveSuccess]
  rw [e3]
  refine ⟨_, _, rfl, ?_⟩
  rw [hc3]
  have hs : PromiseImplBase.setState PromiseState.Pending PromiseState.Success =
      PromiseState.Success := by decide
  simp [PromiseImpl.newChild, hs]

theorem attachThenResolveFailure_node (fuel : Nat) (E : F) (f : S → S) (g : F → F)
    (h : Heap S F) :
    ∃ (p : Promise) (h2 : Heap S F),
      attachThenResolveFailure (fuel + 3) E f g h = .ok (p, h2) ∧
      h2.read p.impl_ = some ⟨none, PromiseState.Failure, default, g E, some ⟨f, g⟩⟩ := by
  have hr0 : (RootPromise.new h).2.read h.cells.length =
      some (RootPromise.rootNode : PromiseImpl S F) := by
    rw [RootPromise.read_new]; simp
  have hl0 := RootPromise.length_new h
  obtain ⟨h1, e1, hc1, ha1, -, hl1, -⟩ :=
    PromiseImpl.then_pending_spec hr0
      (show PromiseImplBase.isPending
        (PromiseImplBase.setIsRoot PromiseState.Pending) = true by decide) (fuel + 3) f g
  rw [hl0] at e1 hc1 ha1
  have hc2 := Promise.read_alloc_of_read hc1 (PromiseImpl.new : PromiseImpl S F)
  have ha2 := Promise.read_alloc_of_read ha1 (PromiseImpl.new : PromiseImpl S F)
  obtain ⟨h3, e3, hc3, -, -, -, -⟩ :=
    PromiseImpl.resolveFailure_one_hop (m := ⟨f, g⟩) ha2 rfl (by omega) hc2 rfl rfl fuel E
  unfold attachThenResolveFailure
  simp only [RootPromise.new_fst]
  rw [Promise.then_of_impl e1]
  simp only [Promise.resolveFailure]
  rw [e3]
  refine ⟨_, _, rfl, ?_⟩
  rw [hc3]
  have hs : PromiseImplBase.setState PromiseState.Pending PromiseState.Failure =
      PromiseState.Failure := by decide
  simp [PromiseImpl.newChild, hs]

end Order

/-! ## The claims -/

section Claims

variable {S F : Type} [Inhabited S] [Inhabited F]

/-- C1: a root built already resolved with Success `X`, to which `then(f, g)` is attached
afterwards, returns (with any fuel of at least 2) a child node whose state is Success and
whose success value is `f X`. -/
theorem C1_then_on_success_root (fuel : Nat) (X : S) (f : S → S) (g : F → F)
    (h : Heap S F) :
    ∃ (p : Promise) (h2 : Heap S F),
      resolveSuccessThenAttach (fuel + 2) X f g h = .ok (p, h2) ∧
      stateAt h2 p.impl_ = some PromiseState.Success ∧
      successAt h2 p.impl_ = some (f X) := by
  obtain ⟨p, h2, e, hr⟩ := resolveSuccessThenAttach_node fuel X f g h
  refine ⟨p, h2, e, ?_, ?_⟩
  · simp [stateAt, hr, PromiseImplBase.getState_Success, PromiseImplBase.getState_Failure]
  · rw [successAt, hr]; rfl

/-- C2: the order of attach and resolve does not change the child.  With enough fuel,
(pending root; `then(f, g)`; `resolveSuccess(X)`) and (root resolved with Success `X`;
`then(f, g)`) both return, and the two child nodes are equal (state, both value slots,
child link and mappers), in state Success holding `f X`; likewise for `resolveFailure(E)`,
where both children are in state Failure holding `g E`. -/
theorem C2_attach_resolve_order (fuel : Nat) (X : S) (E : F) (f : S → S) (g : F → F)
    (h : Heap S F) :
    (∃ (p q : Promise) (hp hq : Heap S F),
      attachThenResolveSuccess (fuel + 3) X f g h = .ok (p, hp) ∧
      resolveSuccessThenAttach (fuel + 3) X f g h = .ok (q, hq) ∧
      hp.read p.impl_ = hq.read q.impl_ ∧
      stateAt hp p.impl_ = some PromiseState.Success ∧
      successAt hp p.impl_ = some (f X)) ∧
    (∃ (p q : Promise) (hp hq : Heap S F),
      attachThenResolveFailure (fuel + 3) E f g h = .ok (p, hp) ∧
      resolveFailureThenAttach (fuel + 3) E f g h = .ok (q, hq) ∧
      hp.read p.impl_ = hq.read q.impl_ ∧
      stateAt hp p.impl_ = some PromiseState.Failure ∧
      failureAt hp p.impl_ = some (g E)) := by
  constructor
  · obtain ⟨p, hp, e1, r1⟩ := attachThenResolveSuccess_node fuel X f g h
    obtain ⟨q, hq, e2, r2⟩ := resolveSuccessThenAttach_node (fuel + 1) X f g h
    refine ⟨p, q, hp, hq, e1, e2, by rw [r1, r2], ?_, ?_⟩
    · simp [stateAt, r1, PromiseImplBase.getState_Success, PromiseImplBase.getState_Failure]
    · rw [successAt, r1]; rfl
  · obtain ⟨p, hp, e1, r1⟩ := attachThenResolveFailure_node fuel E f g h
    obtain ⟨q, hq, e2, r2⟩ := resolveFailureThenAttach_node (fuel + 1) E f g h
    refine ⟨p, q, hp, hq, e1, e2, by rw [r1, r2], ?_, ?_⟩
    · simp [stateAt, r1, PromiseImplBase.getState_Success, PromiseImplBase.getState_Failure]
    · rw [failureAt, r1]; rfl

end Claims

/-! ## Resolution along a chain -/

section Chain

variable {S F : Type}

theorem promiseChain_congr {h h' : Heap S F} (hrd : ∀ b, h'.read b = h.read b) :
    ∀ {a : Nat} {l : List (Nat × ChildImpl S F)},
      PromiseChain h a l → PromiseChain h' a l := by
  intro a l
  induction l generalizing a with
  | nil =>
    intro hc
    simpa [PromiseChain, hrd] using hc
  | cons x rest ih =>
    obtain ⟨c, m⟩ := x
    intro hc
    obtain ⟨h1, h2, h3, h4, h5⟩ := hc
    exact ⟨by simpa [hrd] using h1, h2, h3, by simpa [hrd] using h4, ih h5⟩

theorem chainLast_mem (a : Nat) (l : List (Nat × ChildImpl S F)) :
    chainLast a l = a ∨ chainLast a l ∈ l.map Prod.fst := by
  induction l generalizing a with
  | nil => left; rfl
  | cons x rest ih =>
    obtain ⟨c, m⟩ := x
    right
    rcases ih c with e | e
    · simp [chainLast, e]
    · simp only [chainLast, List.map_cons, List.mem_cons]
      right; exact e

theorem promiseChain_head_not_mem {h : Heap S F} {a : Nat} {l : List (Nat × ChildImpl S F)}
    (hc : PromiseChain h a l) : a ∉ l.map Prod.fst := by
  cases l with
  | nil => simp
  | cons x rest =>
    obtain ⟨c, m⟩ := x
    obtain ⟨-, h2, h3, -, -⟩ := hc
    simp only [List.map_cons, List.mem_cons, not_or]
    exact ⟨fun e => h2 e.symm, h3⟩

end Chain

/-! ## Building a chain -/

section Build

variable {S F : Type} [Inhabited S] [Inhabited F]

/-- Attaching a list of continuations, one after the other, starting at a pending node
with no child, succeeds and leaves a chain in the store whose bridges carry the given
mappers; the new nodes are fresh and nothing else but the start node is written. -/
theorem attachAll_pending_chain (ms : List ((S → S) × (F → F))) :
    ∀ (p : Promise) (h : Heap S F) (n : PromiseImpl S F), h.read p.impl_ = some n →
      n.child_ = none → PromiseImplBase.isPending n.state_ = true → ∀ fuel : Nat,
      ∃ (last : Promise) (h1 : Heap S F) (l : List (Nat × ChildImpl S F)),
        attachAll fuel ms p h = .ok (last, h1) ∧
        PromiseChain h1 p.impl_ l ∧
        last.impl_ = chainLast p.impl_ l ∧
        l.map Prod.snd = ms.map (fun m => (⟨m.1, m.2⟩ : ChildImpl S F)) ∧
        (∀ x ∈ l.map Prod.fst, h.cells.length ≤ x) ∧
        (∀ b, b < h.cells.length → b ≠ p.impl_ → h1.read b = h.read b) ∧
        h.cells.length ≤ h1.cells.length ∧
        (∃ n1, h1.read p.impl_ = some n1 ∧ n1.dyn = n.dyn ∧ n1.state_ = n.state_) := by
  induction ms with
  | nil =>
    intro p h n hr hc _ fuel
    exact ⟨p, h, [], rfl, ⟨n, hr, hc⟩, rfl, rfl, by simp, fun _ _ _ => rfl, le_refl _,
      ⟨n, hr, rfl, rfl⟩⟩
  | cons m rest ih =>
    intro p h n hr hc hp fuel
    have hlt := Heap.lt_length_of_read hr
    obtain ⟨h', e', hc', ha', hf', hl', -⟩ :=
      PromiseImpl.then_pending_spec hr hp fuel m.1 m.2
    have hq : (h'.alloc (PromiseImpl.new : PromiseImpl S F)).2.read h.cells.length =
        some (PromiseImpl.newChild m.1 m.2) := Promise.read_alloc_of_read hc' _
    have hl'' : (h'.alloc (PromiseImpl.new : PromiseImpl S F)).2.cells.length =
        h.cells.length + 2 := by
      rw [Heap.length_alloc, hl']
    obtain ⟨last, h1, l', e1, hch, hlast, hmap, hfresh, hframe, hlen, n1, hn1, hd1, -⟩ :=
      ih { impl_ := h.cells.length, root_impl_ := h'.cells.length }
        (h'.alloc PromiseImpl.new).2 (PromiseImpl.newChild m.1 m.2) hq rfl
        (show PromiseImplBase.isPending PromiseState.Pending = true by decide) fuel
    rw [hl''] at hfresh hframe hlen
    have hra : h1.read p.impl_ =
        some ⟨some h.cells.length, n.state_, n.success_, n.failure_, n.dyn⟩ := by
      rw [hframe p.impl_ (by omega) (by simp; omega)]
      exact Promise.read_alloc_of_read ha' _
    refine ⟨last, h1, (h.cells.length, ⟨m.1, m.2⟩) :: l', ?_, ?_, ?_, ?_, ?_, ?_, ?_, ?_⟩
    · simp only [attachAll]
      rw [Promise.then_of_impl e']
      exact e1
    · refine ⟨⟨_, hra, rfl⟩, by omega, ?_, ⟨n1, hn1, hd1⟩, hch⟩
      intro hmem
      have := hfresh _ hmem
      omega
    · exact hlast
    · simp [hmap]
    · intro x hx
      simp only [List.map_cons, List.mem_cons] at hx
      rcases hx with e | e
      · omega
      · have := hfresh _ e
        omega
    · intro b hb hbp
      rw [hframe b (by omega) (by simp; omega), Heap.read_alloc, hl',
        if_neg (by omega)]
      exact hf' b hbp (by omega)
    · omega
    · exact ⟨_, hra, rfl, rfl⟩

end Build

section Identity

variable {S F : Type}

end Identity

section Claims

variable {S F : Type} [Inhabited S] [Inhabited F]

end Claims

section Claims

variable {S F : Type}

/-- C4, as stated, fails: a pending root marked with `thenTerminate()` and then resolved
with `resolveSuccess(7)` is still Pending and its success slot still holds the default
value 0, not 7. -/
theorem C4_counterexample :
    observe (terminateRootThenResolve 1 7 (Heap.empty : Heap Nat Nat)) =
        some (some PromiseState.Pending, some 0, some 0) ∧
      observe (terminateRootThenResolve 1 7 (Heap.empty : Heap Nat Nat)) ≠
        some (some PromiseState.Success, some 7, some 0) := by
  decide

/-- C4, amended: after `thenTerminate()` on a node, `resolveSuccess(X)` and
`resolveFailure(E)` return without storing anything: a root node keeps the state and both
value slots it had (a Pending root stays Pending), and a non-root node is released. -/
theorem C4_terminal_resolve_stores_nothing (h : Heap S F) (this : Nat) (n : PromiseImpl S F)
    (hr : h.read this = some n) (fuel : Nat) (X : S) (E : F) :
    ∃ h1 : Heap S F,
      PromiseImpl.thenTerminate this h = .ok h1 ∧
      (∃ h2 : Heap S F,
        PromiseImpl.resolveSuccess (fuel + 1) this X h1 = .ok h2 ∧
        stateAt h2 this = (if PromiseImplBase.isRoot n.state_
          then some (PromiseImplBase.getState n.state_) else none) ∧
        successAt h2 this = (if PromiseImplBase.isRoot n.state_
          then some n.success_ else none) ∧
        failureAt h2 this = (if PromiseImplBase.isRoot n.state_
          then some n.failure_ else none)) ∧
      (∃ h2 : Heap S F,
        PromiseImpl.resolveFailure (fuel + 1) this E h1 = .ok h2 ∧
        stateAt h2 this = (if PromiseImplBase.isRoot n.state_
          then some (PromiseImplBase.getState n.state_) else none) ∧
        successAt h2 this = (if PromiseImplBase.isRoot n.state_
          then some n.success_ else none) ∧
        failureAt h2 this = (if PromiseImplBase.isRoot n.state_
          then some n.failure_ else none)) := by
  have hr1 : (h.write this { n with child_ := some this }).read this =
      some { n with child_ := some this } := Heap.read_write_self hr _
  refine ⟨h.write this { n with child_ := some this }, ?_, ?_, ?_⟩
  · simp [PromiseImpl.thenTerminate, hr]
  · refine ⟨_, PromiseImpl.resolveSuccess_terminal hr1 rfl fuel X, ?_⟩
    by_cases hroot : PromiseImplBase.isRoot n.state_ = true
    · simp [hroot, stateAt, successAt, failureAt, hr1]
    · have hroot' : PromiseImplBase.isRoot n.state_ = false := by simpa using hroot
      simp [hroot', stateAt, successAt, failureAt, Heap.read_free]
  · refine ⟨_, PromiseImpl.resolveFailure_terminal hr1 rfl fuel E, ?_⟩
    by_cases hroot : PromiseImplBase.isRoot n.state_ = true
    · simp [hroot, stateAt, successAt, failureAt, hr1]
    · have hroot' : PromiseImplBase.isRoot n.state_ = false := by simpa using hroot
      simp [hroot', stateAt, successAt, failureAt, Heap.read_free]

/-- C4, amended, at a pending root at address 0, resolved with 7 or failed with 9. -/
theorem C4_terminal_resolve_stores_nothing_witness :
    pendingRootHeap.read 0 = some RootPromise.rootNode ∧
    ∃ h1 : Heap Nat Nat,
      PromiseImpl.thenTerminate 0 pendingRootHeap = .ok h1 ∧
      (∃ h2 : Heap Nat Nat,
        PromiseImpl.resolveSuccess (0 + 1) 0 7 h1 = .ok h2 ∧
        stateAt h2 0 = (if PromiseImplBase.isRoot
            (RootPromise.rootNode : PromiseImpl Nat Nat).state_
          then some (PromiseImplBase.getState
            (RootPromise.rootNode : PromiseImpl Nat Nat).state_) else none) ∧
        successAt h2 0 = (if PromiseImplBase.isRoot
            (RootPromise.rootNode : PromiseImpl Nat Nat).state_
          then some (RootPromise.rootNode : PromiseImpl Nat Nat).success_ else none) ∧
        failureAt h2 0 = (if PromiseImplBase.isRoot
            (RootPromise.rootNode : PromiseImpl Nat Nat).state_
          then some (RootPromise.rootNode : PromiseImpl Nat Nat).failure_ else none)) ∧
      (∃ h2 : Heap Nat Nat,
        PromiseImpl.resolveFailure (0 + 1) 0 9 h1 = .ok h2 ∧
        stateAt h2 0 = (if PromiseImplBase.isRoot
            (RootPromise.rootNode : PromiseImpl Nat Nat).state_
          then some (PromiseImplBase.getState
            (RootPromise.rootNode : PromiseImpl Nat Nat).state_) else none) ∧
        successAt h2 0 = (if PromiseImplBase.isRoot
            (RootPromise.rootNode : PromiseImpl Nat Nat).state_
          then some (RootPromise.rootNode : PromiseImpl Nat Nat).success_ else none) ∧
        failureAt h2 0 = (if PromiseImplBase.isRoot
            (RootPromise.rootNode : PromiseImpl Nat Nat).state_
          then some (RootPromise.rootNode : PromiseImpl Nat Nat).failure_ else none)) :=
  ⟨rfl, C4_terminal_resolve_stores_nothing pendingRootHeap 0 RootPromise.rootNode rfl 0 7 9⟩

/-- C5, as stated, fails for a non-root node: the child returned by `then(f, g)`, marked
terminal with `thenTerminate()`, is released when the resolution reaches it (its node is
no longer allocated, and the trace ends with its release). -/
theorem C5_counterexample :
    observe (terminateChildThenResolve 3 7 (fun s => s) (fun e => e)
        (Heap.empty : Heap Nat Nat)) = some (none, none, none) ∧
      traceOf (terminateChildThenResolve 3 7 (fun s => s) (fun e => e)
        (Heap.empty : Heap Nat Nat)) =
        some [Event.forwardSuccess 0 1, Event.release 1] := by
  decide

/-- C5, amended: for every node marked terminal with `thenTerminate()` (its `child_` is
the node itself), `resolveSuccess` and `resolveFailure` return, make no forwarding call
and leave every other node as it was; the node itself is left untouched and not released
when it is a root, and is released when it is not a root. -/
theorem C5_terminal_resolve_effects (h : Heap S F) (this : Nat) (n : PromiseImpl S F)
    (hr : h.read this = some n) (hc : n.child_ = some this) (fuel : Nat) (X : S) (E : F) :
    (∃ h' : Heap S F,
      PromiseImpl.resolveSuccess (fuel + 1) this X h = .ok h' ∧
      (∀ b, b ≠ this → h'.read b = h.read b) ∧
      h'.read this = (if PromiseImplBase.isRoot n.state_ then some n else none) ∧
      h'.trace = h.trace ++
        (if PromiseImplBase.isRoot n.state_ then [] else [Event.release this])) ∧
    (∃ h' : Heap S F,
      PromiseImpl.resolveFailure (fuel + 1) this E h = .ok h' ∧
      (∀ b, b ≠ this → h'.read b = h.read b) ∧
      h'.read this = (if PromiseImplBase.isRoot n.state_ then some n else none) ∧
      h'.trace = h.trace ++
        (if PromiseImplBase.isRoot n.state_ then [] else [Event.release this])) := by
  constructor
  · refine ⟨_, PromiseImpl.resolveSuccess_terminal hr hc fuel X, ?_⟩
    by_cases hroot : PromiseImplBase.isRoot n.state_ = true
    · simp [hroot, hr]
    · have hroot' : PromiseImplBase.isRoot n.state_ = false := by simpa using hroot
      simp only [hroot', Bool.false_eq_true, if_false]
      refine ⟨?_, ?_, rfl⟩
      · intro b hb
        rw [Heap.read_free, if_neg hb]
      · rw [Heap.read_free, if_pos rfl]
  · refine ⟨_, PromiseImpl.resolveFailure_terminal hr hc fuel E, ?_⟩
    by_cases hroot : PromiseImplBase.isRoot n.state_ = true
    · simp [hroot, hr]
    · have hroot' : PromiseImplBase.isRoot n.state_ = false := by simpa using hroot
      simp only [hroot', Bool.false_eq_true, if_false]
      refine ⟨?_, ?_, rfl⟩
      · intro b hb
        rw [Heap.read_free, if_neg hb]
      · rw [Heap.read_free, if_pos rfl]

end Claims

section Claims

/-- C5, amended, at a root marked terminal at address 0, resolved with 7 or failed with 9. -/
theorem C5_terminal_resolve_effects_witness :
    terminalRootHeap.read 0 = some terminalRootNode ∧
    terminalRootNode.child_ = some 0 ∧
    (∃ h' : Heap Nat Nat,
      PromiseImpl.resolveSuccess (0 + 1) 0 7 terminalRootHeap = .ok h' ∧
      (∀ b, b ≠ 0 → h'.read b = terminalRootHeap.read b) ∧
      h'.read 0 = (if PromiseImplBase.isRoot terminalRootNode.state_
        then some terminalRootNode else none) ∧
      h'.trace = terminalRootHeap.trace ++
        (if PromiseImplBase.isRoot terminalRootNode.state_ then []
          else [Event.release 0])) ∧
    (∃ h' : Heap Nat Nat,
      PromiseImpl.resolveFailure (0 + 1) 0 9 terminalRootHeap = .ok h' ∧
      (∀ b, b ≠ 0 → h'.read b = terminalRootHeap.read b) ∧
      h'.read 0 = (if PromiseImplBase.isRoot terminalRootNode.state_
        then some terminalRootNode else none) ∧
      h'.trace = terminalRootHeap.trace ++
        (if PromiseImplBase.isRoot terminalRootNode.state_ then []
          else [Event.release 0])) :=
  ⟨rfl, rfl, C5_terminal_resolve_effects terminalRootHeap 0 terminalRootNode rfl rfl 0 7 9⟩

end Claims

/-! ## One attachment through a handle -/

namespace Promise

variable {S F : Type} [Inhabited S] [Inhabited F]

theorem then_on_success {p : Promise} {h : Heap S F} {n : PromiseImpl S F}
    (hr : h.read p.impl_ = some n)
    (hs : PromiseImplBase.getState n.state_ = PromiseState.Success)
    (fuel : Nat) (f : S → S) (g : F → F) :
    ∃ (c : Promise) (h' : Heap S F),
      then_ (fuel + 2) p f g h = .ok (c, h') ∧
      h'.read c.impl_ =
        some ⟨none, PromiseState.Success, f n.success_, default, some ⟨f, g⟩⟩ := by
  obtain ⟨h1, e1, hc1, -, -, -, -⟩ :=
    PromiseImpl.then_resolved_success_spec hr hs fuel f g
  exact ⟨_, _, then_of_impl e1, read_alloc_of_read hc1 _⟩

theorem then_on_failure {p : Promise} {h : Heap S F} {n : PromiseImpl S F}
    (hr : h.read p.impl_ = some n)
    (hs : PromiseImplBase.getState n.state_ = PromiseState.Failure)
    (fuel : Nat) (f : S → S) (g : F → F) :
    ∃ (c : Promise) (h' : Heap S F),
      then_ (fuel + 2) p f g h = .ok (c, h') ∧
      h'.read c.impl_ =
        some ⟨none, PromiseState.Failure, default, g n.failure_, some ⟨f, g⟩⟩ := by
  obtain ⟨h1, e1, hc1, -, -, -, -⟩ :=
    PromiseImpl.then_resolved_failure_spec hr hs fuel f g
  exact ⟨_, _, then_of_impl e1, read_alloc_of_read hc1 _⟩

theorem then_on_pending {p : Promise} {h : Heap S F} {n : PromiseImpl S F}
    (hr : h.read p.impl_ = some n)
    (hp : PromiseImplBase.isPending n.state_ = true)
    (fuel : Nat) (f : S → S) (g : F → F) :
    ∃ (c : Promise) (h1 : Heap S F),
      then_ fuel p f g h = .ok (c, h1) ∧
      (∀ (k : Nat) (X : S), ∃ h2 : Heap S F,
        resolveSuccess (k + 3) p X h1 = .ok h2 ∧
        h2.read c.impl_ =
          some ⟨none, PromiseState.Success, f X, default, some ⟨f, g⟩⟩) ∧
      (∀ (k : Nat) (E : F), ∃ h2 : Heap S F,
        resolveFailure (k + 3) p E h1 = .ok h2 ∧
        h2.read c.impl_ =
          some ⟨none, PromiseState.Failure, default, g E, some ⟨f, g⟩⟩) := by
  have hlt := Heap.lt_length_of_read hr
  obtain ⟨h1, e1, hc1, ha1, -, -, -⟩ := PromiseImpl.then_pending_spec hr hp fuel f g
  have hc2 := read_alloc_of_read hc1 (PromiseImpl.new : PromiseImpl S F)
  have ha2 := read_alloc_of_read ha1 (PromiseImpl.new : PromiseImpl S F)
  have hS : PromiseImplBase.setState PromiseState.Pending PromiseState.Success =
      PromiseState.Success := by decide
  have hF : PromiseImplBase.setState PromiseState.Pending PromiseState.Failure =
      PromiseState.Failure := by decide
  refine ⟨_, _, then_of_impl e1, ?_, ?_⟩
  · intro k X
    obtain ⟨h3, e3, hc3, -, -, -, -⟩ :=
      PromiseImpl.resolveSuccess_one_hop (m := ⟨f, g⟩) ha2 rfl (by omega) hc2 rfl rfl k X
    refine ⟨h3, e3, ?_⟩
    rw [hc3]
    simp [PromiseImpl.newChild, hS]
  · intro k E
    obtain ⟨h3, e3, hc3, -, -, -, -⟩ :=
      PromiseImpl.resolveFailure_one_hop (m := ⟨f, g⟩) ha2 rfl (by omega) hc2 rfl rfl k E
    refine ⟨h3, e3, ?_⟩
    rw [hc3]
    simp [PromiseImpl.newChild, hF]

end Promise

section Claims

variable {S F : Type} [Inhabited S] [Inhabited F]

/-- C6: `catch(g)` is `then(identity, g)`.  Attached to a node whose state is Success with
stored value `X`, it returns a child in state Success holding `X` unchanged; attached to
a node whose state is Failure with stored value `E`, it returns a child in state Failure
holding `g E`.  The same children result when `catch(g)` is attached to a pending node
that is resolved afterwards. -/
theorem C6_catch (p : Promise) (g : F → F) (h : Heap S F) (n : PromiseImpl S F)
    (hr : h.read p.impl_ = some n) (fuel : Nat) :
    Promise.catch_ fuel p g h = Promise.then_ fuel p (fun s => s) g h ∧
    (PromiseImplBase.getState n.state_ = PromiseState.Success →
      ∃ (c : Promise) (h' : Heap S F),
        Promise.catch_ (fuel + 2) p g h = .ok (c, h') ∧
        stateAt h' c.impl_ = some PromiseState.Success ∧
        successAt h' c.impl_ = some n.success_) ∧
    (PromiseImplBase.getState n.state_ = PromiseState.Failure →
      ∃ (c : Promise) (h' : Heap S F),
        Promise.catch_ (fuel + 2) p g h = .ok (c, h') ∧
        stateAt h' c.impl_ = some PromiseState.Failure ∧
        failureAt h' c.impl_ = some (g n.failure_)) ∧
    (PromiseImplBase.isPending n.state_ = true →
      ∃ (c : Promise) (h1 : Heap S F),
        Promise.catch_ fuel p g h = .ok (c, h1) ∧
        (∀ (k : Nat) (X : S), ∃ h2 : Heap S F,
          Promise.resolveSuccess (k + 3) p X h1 = .ok h2 ∧
          stateAt h2 c.impl_ = some PromiseState.Success ∧
          successAt h2 c.impl_ = some X) ∧
        (∀ (k : Nat) (E : F), ∃ h2 : Heap S F,
          Promise.resolveFailure (k + 3) p E h1 = .ok h2 ∧
          stateAt h2 c.impl_ = some PromiseState.Failure ∧
          failureAt h2 c.impl_ = some (g E))) := by
  refine ⟨rfl, ?_, ?_, ?_⟩
  · intro hs
    obtain ⟨c, h', e, hc⟩ := Promise.then_on_success hr hs fuel Move g
    exact ⟨c, h', e, by simp [stateAt, hc, PromiseImplBase.getState_Success],
      by simp [successAt, hc, Move]⟩
  · intro hs
    obtain ⟨c, h', e, hc⟩ := Promise.then_on_failure hr hs fuel Move g
    exact ⟨c, h', e, by simp [stateAt, hc, PromiseImplBase.getState_Failure],
      by simp [failureAt, hc]⟩
  · intro hp
    obtain ⟨c, h1, e, hS, hF⟩ := Promise.then_on_pending hr hp fuel Move g
    refine ⟨c, h1, e, ?_, ?_⟩
    · intro k X
      obtain ⟨h2, e2, hc⟩ := hS k X
      exact ⟨h2, e2, by simp [stateAt, hc, PromiseImplBase.getState_Success],
        by simp [successAt, hc, Move]⟩
    · intro k E
      obtain ⟨h2, e2, hc⟩ := hF k E
      exact ⟨h2, e2, by simp [stateAt, hc, PromiseImplBase.getState_Failure],
        by simp [failureAt, hc]⟩

/-- C7: `then(f)` with a success mapper only is `then(f, identity)`.  Attached to a node
whose state is Failure with stored value `E`, it returns a child in state Failure holding
`E` unchanged; attached to a node whose state is Success with stored value `X`, it returns
a child in state Success holding `f X`.  The same children result when `then(f)` is
attached to a pending node that is resolved afterwards. -/
theorem C7_then_success_mapper_only (p : Promise) (f : S → S) (h : Heap S F)
    (n : PromiseImpl S F) (hr : h.read p.impl_ = some n) (fuel : Nat) :
    Promise.then1 fuel p f h = Promise.then_ fuel p f (fun e => e) h ∧
    (PromiseImplBase.getState n.state_ = PromiseState.Failure →
      ∃ (c : Promise) (h' : Heap S F),
        Promise.then1 (fuel + 2) p f h = .ok (c, h') ∧
        stateAt h' c.impl_ = some PromiseState.Failure ∧
        failureAt h' c.impl_ = some n.failure_) ∧
    (PromiseImplBase.getState n.state_ = PromiseState.Success →
      ∃ (c : Promise) (h' : Heap S F),
        Promise.then1 (fuel + 2) p f h = .ok (c, h') ∧
        stateAt h' c.impl_ = some PromiseState.Success ∧
        successAt h' c.impl_ = some (f n.success_)) ∧
    (PromiseImplBase.isPending n.state_ = true →
      ∃ (c : Promise) (h1 : Heap S F),
        Promise.then1 fuel p f h = .ok (c, h1) ∧
        (∀ (k : Nat) (E : F), ∃ h2 : Heap S F,
          Promise.resolveFailure (k + 3) p E h1 = .ok h2 ∧
          stateAt h2 c.impl_ = some PromiseState.Failure ∧
          failureAt h2 c.impl_ = some E) ∧
        (∀ (k : Nat) (X : S), ∃ h2 : Heap S F,
          Promise.resolveSuccess (k + 3) p X h1 = .ok h2 ∧
          stateAt h2 c.impl_ = some PromiseState.Success ∧
          successAt h2 c.impl_ = some (f X))) := by
  refine ⟨rfl, ?_, ?_, ?_⟩
  · intro hs
    obtain ⟨c, h', e, hc⟩ := Promise.then_on_failure hr hs fuel f Move
    exact ⟨c, h', e, by simp [stateAt, hc, PromiseImplBase.getState_Failure],
      by simp [failureAt, hc, Move]⟩
  · intro hs
    obtain ⟨c, h', e, hc⟩ := Promise.then_on_success hr hs fuel f Move
    exact ⟨c, h', e, by simp [stateAt, hc, PromiseImplBase.getState_Success],
      by simp [successAt, hc]⟩
  · intro hp
    obtain ⟨c, h1, e, hS, hF⟩ := Promise.then_on_pending hr hp fuel f Move
    refine ⟨c, h1, e, ?_, ?_⟩
    · intro k E
      obtain ⟨h2, e2, hc⟩ := hF k E
      exact ⟨h2, e2, by simp [stateAt, hc, PromiseImplBase.getState_Failure],
        by simp [failureAt, hc, Move]⟩
    · intro k X
      obtain ⟨h2, e2, hc⟩ := hS k X
      exact ⟨h2, e2, by simp [stateAt, hc, PromiseImplBase.getState_Success],
        by simp [successAt, hc]⟩

end Claims

section Claims

/-- C6 at roots at address 0: one resolved with Success 7, one resolved with Failure 9,
one pending; the failure mapper adds 1. -/
theorem C6_catch_witness :
    successRootHeap.read 0 = some successRootNode ∧
    failureRootHeap.read 0 = some failureRootNode ∧
    pendingRootHeap.read 0 = some RootPromise.rootNode ∧
    (∃ (c : Promise) (h' : Heap Nat Nat),
      Promise.catch_ (0 + 2) ⟨0, 0⟩ (fun e => e + 1) successRootHeap = .ok (c, h') ∧
      stateAt h' c.impl_ = some PromiseState.Success ∧
      successAt h' c.impl_ = some 7) ∧
    (∃ (c : Promise) (h' : Heap Nat Nat),
      Promise.catch_ (0 + 2) ⟨0, 0⟩ (fun e => e + 1) failureRootHeap = .ok (c, h') ∧
      stateAt h' c.impl_ = some PromiseState.Failure ∧
      failureAt h' c.impl_ = some 10) ∧
    (∃ (c : Promise) (h1 : Heap Nat Nat),
      Promise.catch_ 0 ⟨0, 0⟩ (fun e => e + 1) pendingRootHeap = .ok (c, h1) ∧
      (∀ (k : Nat) (X : Nat), ∃ h2 : Heap Nat Nat,
        Promise.resolveSuccess (k + 3) ⟨0, 0⟩ X h1 = .ok h2 ∧
        stateAt h2 c.impl_ = some PromiseState.Success ∧
        successAt h2 c.impl_ = some X) ∧
      (∀ (k : Nat) (E : Nat), ∃ h2 : Heap Nat Nat,
        Promise.resolveFailure (k + 3) ⟨0, 0⟩ E h1 = .ok h2 ∧
        stateAt h2 c.impl_ = some PromiseState.Failure ∧
        failureAt h2 c.impl_ = some (E + 1))) :=
  ⟨rfl, rfl, rfl,
    (C6_catch ⟨0, 0⟩ (fun e => e + 1) successRootHeap successRootNode rfl 0).2.1
      (by decide),
    (C6_catch ⟨0, 0⟩ (fun e => e + 1) failureRootHeap failureRootNode rfl 0).2.2.1
      (by decide),
    (C6_catch ⟨0, 0⟩ (fun e => e + 1) pendingRootHeap RootPromise.rootNode rfl 0).2.2.2
      (by decide)⟩

/-- C7 at roots at address 0: one resolved with Failure 9, one resolved with Success 7,
one pending; the success mapper doubles. -/
theorem C7_then_success_mapper_only_witness :
    failureRootHeap.read 0 = some failureRootNode ∧
    successRootHeap.read 0 = some successRootNode ∧
    pendingRootHeap.read 0 = some RootPromise.rootNode ∧
    (∃ (c : Promise) (h' : Heap Nat Nat),
      Promise.then1 (0 + 2) ⟨0, 0⟩ (fun s => 2 * s) failureRootHeap = .ok (c, h') ∧
      stateAt h' c.impl_ = some PromiseState.Failure ∧
      failureAt h' c.impl_ = some 9) ∧
    (∃ (c : Promise) (h' : Heap Nat Nat),
      Promise.then1 (0 + 2) ⟨0, 0⟩ (fun s => 2 * s) successRootHeap = .ok (c, h') ∧
      stateAt h' c.impl_ = some PromiseState.Success ∧
      successAt h' c.impl_ = some 14) ∧
    (∃ (c : Promise) (h1 : Heap Nat Nat),
      Promise.then1 0 ⟨0, 0⟩ (fun s => 2 * s) pendingRootHeap = .ok (c, h1) ∧
      (∀ (k : Nat) (E : Nat), ∃ h2 : Heap Nat Nat,
        Promise.resolveFailure (k + 3) ⟨0, 0⟩ E h1 = .ok h2 ∧
        stateAt h2 c.impl_ = some PromiseState.Failure ∧
        failureAt h2 c.impl_ = some E) ∧
      (∀ (k : Nat) (X : Nat), ∃ h2 : Heap Nat Nat,
        Promise.resolveSuccess (k + 3) ⟨0, 0⟩ X h1 = .ok h2 ∧
        stateAt h2 c.impl_ = some PromiseState.Success ∧
        successAt h2 c.impl_ = some (2 * X))) :=
  ⟨rfl, rfl, rfl,
    (C7_then_success_mapper_only ⟨0, 0⟩ (fun s => 2 * s) failureRootHeap failureRootNode
      rfl 0).2.1 (by decide),
    (C7_then_success_mapper_only ⟨0, 0⟩ (fun s => 2 * s) successRootHeap successRootNode
      rfl 0).2.2.1 (by decide),
    (C7_then_success_mapper_only ⟨0, 0⟩ (fun s => 2 * s) pendingRootHeap
      RootPromise.rootNode rfl 0).2.2.2 (by decide)⟩

end Claims

section Claims

variable {S F : Type}

/-- C8 fails on the code: a second resolve is not stopped.  A root resolved with Success 7
accepts `resolveFailure(9)`, which returns and leaves the root in state Failure; it accepts
a second `resolveSuccess(8)`, which returns and replaces the stored 7 by 8; and a pending
root with an attached `then(f, g)`, resolved with 7 and then again with 8, forwards both
times, so the child resolved with `f 7` is resolved a second time and holds `f 8`. -/
theorem C8_double_resolve_not_stopped :
    observe (RootPromise.ofSuccess 1 7 (Heap.empty : Heap Nat Nat)) =
        some (some PromiseState.Success, some 7, some 0) ∧
      observe (resolveSuccessThenFailure 1 7 9 (Heap.empty : Heap Nat Nat)) =
        some (some PromiseState.Failure, some 7, some 9) ∧
      observe (resolveSuccessTwice 1 7 8 (Heap.empty : Heap Nat Nat)) =
        some (some PromiseState.Success, some 8, some 0) ∧
      observe (attachThenResolveSuccess 3 7 (fun s => s + 1) (fun e => e)
        (Heap.empty : Heap Nat Nat)) = some (some PromiseState.Success, some 8, some 0) ∧
      observe (resolveTwiceThroughChild 3 7 8 (fun s => s + 1) (fun e => e)
        (Heap.empty : Heap Nat Nat)) = some (some PromiseState.Success, some 9, some 0) := by
  decide

/-- What the code does on a node with no child attached, whatever its state (the
`isPending()` assertion checks nothing): `resolveSuccess(Y)` returns and leaves the node in
state Success holding `Y`, and `resolveFailure(E)` returns and leaves it in state Failure
holding `E`; a resolution stored before is overwritten.  The other value slot, the child
link, the root flag and every other node are unchanged. -/
theorem resolve_without_child_overwrites (h : Heap S F) (this : Nat) (n : PromiseImpl S F)
    (hr : h.read this = some n) (hc : n.child_ = none) (fuel : Nat) (Y : S) (E : F) :
    (∃ h' : Heap S F,
      PromiseImpl.resolveSuccess (fuel + 1) this Y h = .ok h' ∧
      stateAt h' this = some PromiseState.Success ∧
      successAt h' this = some Y ∧
      failureAt h' this = some n.failure_ ∧
      childAt h' this = some none ∧
      isRootAt h' this = some (PromiseImplBase.isRoot n.state_) ∧
      (∀ b, b ≠ this → h'.read b = h.read b)) ∧
    (∃ h' : Heap S F,
      PromiseImpl.resolveFailure (fuel + 1) this E h = .ok h' ∧
      stateAt h' this = some PromiseState.Failure ∧
      failureAt h' this = some E ∧
      successAt h' this = some n.success_ ∧
      childAt h' this = some none ∧
      isRootAt h' this = some (PromiseImplBase.isRoot n.state_) ∧
      (∀ b, b ≠ this → h'.read b = h.read b)) := by
  constructor
  · refine ⟨_, PromiseImpl.resolveSuccess_leaf hr hc fuel Y, ?_, ?_, ?_, ?_, ?_, ?_⟩
    · simp [stateAt, Heap.read_write_self hr, PromiseImplBase.getState_setState_Success]
    · simp [successAt, Heap.read_write_self hr]
    · simp [failureAt, Heap.read_write_self hr]
    · simp [childAt, Heap.read_write_self hr, hc]
    · simp [isRootAt, Heap.read_write_self hr, PromiseImplBase.isRoot_setState_Success]
    · intro b hb
      rw [Heap.read_write_of_ne _ hb]
  · refine ⟨_, PromiseImpl.resolveFailure_leaf hr hc fuel E, ?_, ?_, ?_, ?_, ?_, ?_⟩
    · simp [stateAt, Heap.read_write_self hr, PromiseImplBase.getState_setState_Failure]
    · simp [failureAt, Heap.read_write_self hr]
    · simp [successAt, Heap.read_write_self hr]
    · simp [childAt, Heap.read_write_self hr, hc]
    · simp [isRootAt, Heap.read_write_self hr, PromiseImplBase.isRoot_setState_Failure]
    · intro b hb
      rw [Heap.read_write_of_ne _ hb]

/-- The overwrite by a second resolve, at a root at address 0 already resolved with
Success 7. -/
theorem resolve_without_child_overwrites_witness :
    successRootHeap.read 0 = some successRootNode ∧
    successRootNode.child_ = none ∧
    (∃ h' : Heap Nat Nat,
      PromiseImpl.resolveSuccess (0 + 1) 0 8 successRootHeap = .ok h' ∧
      stateAt h' 0 = some PromiseState.Success ∧
      successAt h' 0 = some 8 ∧
      failureAt h' 0 = some successRootNode.failure_ ∧
      childAt h' 0 = some none ∧
      isRootAt h' 0 = some (PromiseImplBase.isRoot successRootNode.state_) ∧
      (∀ b, b ≠ 0 → h'.read b = successRootHeap.read b)) ∧
    (∃ h' : Heap Nat Nat,
      PromiseImpl.resolveFailure (0 + 1) 0 9 successRootHeap = .ok h' ∧
      stateAt h' 0 = some PromiseState.Failure ∧
      failureAt h' 0 = some 9 ∧
      successAt h' 0 = some successRootNode.success_ ∧
      childAt h' 0 = some none ∧
      isRootAt h' 0 = some (PromiseImplBase.isRoot successRootNode.state_) ∧
      (∀ b, b ≠ 0 → h'.read b = successRootHeap.read b)) :=
  ⟨rfl, rfl, resolve_without_child_overwrites successRootHeap 0 successRootNode rfl rfl 0 8 9⟩

/-- C9 fails on the code: a second attachment is not stopped.  On a pending root, a second
`then` returns a new child (address 3, the first child being at address 1), and the
root's child link then is the new child; the first child is still allocated, pending, and
no longer linked.  On a root resolved with Success 7 a second `then` likewise returns a
new child and replaces the link, and both children were resolved at once (with `7 + 1` and
`7 * 2`). -/
theorem C9_double_attach_not_stopped :
    (attachTwice 0 (fun s => s) (fun s => s + 1) (fun e => e) (fun e => e)
        (Heap.empty : Heap Nat Nat)).toOption.map
      (fun r => (r.1.2.1.impl_, r.1.2.2.impl_, childAt r.2 r.1.1.impl_,
        stateAt r.2 r.1.2.1.impl_)) =
      some (1, 3, some (some 3), some PromiseState.Pending) ∧
    (attachTwiceResolved 2 7 (fun s => s + 1) (fun s => s * 2) (fun e => e) (fun e => e)
        (Heap.empty : Heap Nat Nat)).toOption.map
      (fun r => (r.1.2.1.impl_, r.1.2.2.impl_, childAt r.2 r.1.1.impl_,
        successAt r.2 r.1.2.1.impl_, successAt r.2 r.1.2.2.impl_)) =
      some (1, 3, some (some 3), some 8, some 14) :=
  ⟨by decide, by decide⟩

end Claims

section Claims

variable {S F : Type} [Inhabited S] [Inhabited F]

/-- What the code does at a second attachment (the `!child_` assertion checks nothing):
`then` (and `catch`, which is `then` with an identity success mapper) on a pending node
that already has a child attached returns a
handle on a newly allocated child carrying the new mappers, the node's child link is
replaced by the new child, and every other allocated node, the earlier child included, is
left as it was. -/
theorem second_attach_replaces_link (p : Promise) (h : Heap S F) (n : PromiseImpl S F)
    (c : Nat) (hr : h.read p.impl_ = some n) (hc : n.child_ = some c)
    (hp : PromiseImplBase.isPending n.state_ = true) (fuel : Nat) (f : S → S) (g : F → F) :
    (∃ (q : Promise) (h' : Heap S F),
      Promise.then_ fuel p f g h = .ok (q, h') ∧
      h.read q.impl_ = none ∧
      h'.read q.impl_ = some (PromiseImpl.newChild f g) ∧
      childAt h' p.impl_ = some (some q.impl_) ∧
      (∀ cn, h.read c = some cn →
        q.impl_ ≠ c ∧ childAt h' p.impl_ ≠ childAt h p.impl_) ∧
      (∀ b m, b ≠ p.impl_ → h.read b = some m → h'.read b = some m)) ∧
    Promise.catch_ fuel p g h = Promise.then_ fuel p (fun s => s) g h := by
  have hlt := Heap.lt_length_of_read hr
  obtain ⟨h1, e1, hc1, ha1, hf1, hl1, -⟩ := PromiseImpl.then_pending_spec hr hp fuel f g
  refine ⟨⟨_, _, Promise.then_of_impl e1, Heap.read_length h,
    Promise.read_alloc_of_read hc1 _, ?_, ?_, ?_⟩, rfl⟩
  · simp [childAt, Promise.read_alloc_of_read ha1]
  · intro cn hcn
    have hcl := Heap.lt_length_of_read hcn
    have hne : h.cells.length ≠ c := by omega
    refine ⟨hne, ?_⟩
    simp [childAt, Promise.read_alloc_of_read ha1, hr, hc, hne]
  · intro b m hb hm
    have hbl := Heap.lt_length_of_read hm
    have hb1 : h1.read b = some m := by
      rw [hf1 b hb (by omega)]; exact hm
    exact Promise.read_alloc_of_read hb1 _

/-- The replaced child link, at a pending root at address 0 whose child is at address 1. -/
theorem second_attach_replaces_link_witness :
    attachedRootHeap.read 0 = some attachedRootNode ∧
    attachedRootNode.child_ = some 1 ∧
    PromiseImplBase.isPending attachedRootNode.state_ = true ∧
    ((∃ (q : Promise) (h' : Heap Nat Nat),
      Promise.then_ 0 ⟨0, 0⟩ (fun s => s + 1) (fun e => e) attachedRootHeap = .ok (q, h') ∧
      attachedRootHeap.read q.impl_ = none ∧
      h'.read q.impl_ = some (PromiseImpl.newChild (fun s => s + 1) (fun e => e)) ∧
      childAt h' 0 = some (some q.impl_) ∧
      (∀ cn, attachedRootHeap.read 1 = some cn →
        q.impl_ ≠ 1 ∧ childAt h' 0 ≠ childAt attachedRootHeap 0) ∧
      (∀ b m, b ≠ 0 → attachedRootHeap.read b = some m → h'.read b = some m)) ∧
    Promise.catch_ 0 ⟨0, 0⟩ (fun e => e) attachedRootHeap =
      Promise.then_ 0 ⟨0, 0⟩ (fun s => s) (fun e => e) attachedRootHeap) :=
  ⟨rfl, rfl, by decide,
    second_attach_replaces_link ⟨0, 0⟩ attachedRootHeap attachedRootNode 1 rfl rfl
      (by decide) 0 (fun s => s + 1) (fun e => e)⟩

end Claims

/-! ## The state byte along a run -/

section Evolution

variable {S F : Type}

theorem stateKept_refl (s : Nat) : StateKept s s := ⟨rfl, Or.inl rfl⟩

theorem stateKept_trans {s t u : Nat} (h1 : StateKept s t) (h2 : StateKept t u) :
    StateKept s u := by
  refine ⟨h2.1.trans h1.1, ?_⟩
  rcases h2.2 with e | e | e
  · rcases h1.2 with e1 | e1 | e1
    · left; rw [e, e1]
    · right; left; rw [e]; exact e1
    · right; right; rw [e]; exact e1
  · right; left; exact e
  · right; right; exact e

theorem stateKept_setState_Success (s : Nat) :
    StateKept s (PromiseImplBase.setState s PromiseState.Success) :=
  ⟨PromiseImplBase.isRoot_setState_Success s,
    Or.inr (Or.inl (PromiseImplBase.getState_setState_Success s))⟩

theorem stateKept_setState_Failure (s : Nat) :
    StateKept s (PromiseImplBase.setState s PromiseState.Failure) :=
  ⟨PromiseImplBase.isRoot_setState_Failure s,
    Or.inr (Or.inr (PromiseImplBase.getState_setState_Failure s))⟩

theorem stateKept_isResolved {s t : Nat} (hk : StateKept s t)
    (hs : PromiseImplBase.isResolved s) : PromiseImplBase.isResolved t := by
  rcases hk.2 with e | e | e
  · rw [e]; exact hs
  · exact Or.inl e
  · exact Or.inr e

namespace Heap

theorem evolves_refl (h : Heap S F) : h.Evolves h :=
  ⟨le_refl _, fun _ _ e => e, fun b n n2 e1 e2 => by
    rw [e1] at e2
    injection e2 with e2
    rw [e2]
    exact stateKept_refl _⟩

theorem evolves_trans {h1 h2 h3 : Heap S F} (e12 : h1.Evolves h2) (e23 : h2.Evolves h3) :
    h1.Evolves h3 := by
  obtain ⟨l12, d12, s12⟩ := e12
  obtain ⟨l23, d23, s23⟩ := e23
  refine ⟨le_trans l12 l23, ?_, ?_⟩
  · intro b hb hn
    exact d23 b (lt_of_lt_of_le hb l12) (d12 b hb hn)
  · intro b n n3 hn hn3
    have hb := lt_length_of_read hn
    cases hm : h2.read b with
    | none =>
      have := d23 b (lt_of_lt_of_le hb l12) hm
      rw [this] at hn3
      exact absurd hn3 (by simp)
    | some m => exact stateKept_trans (s12 b n m hn hm) (s23 b m n3 hm hn3)

theorem evolves_note (h : Heap S F) (e : Event) : h.Evolves (h.note e) :=
  evolves_refl h

theorem evolves_free (h : Heap S F) (a : Nat) : h.Evolves (h.free a) := by
  refine ⟨by simp, ?_, ?_⟩
  · intro b _ hn
    rw [read_free]
    split
    · rfl
    · exact hn
  · intro b n n2 hn hn2
    rw [read_free] at hn2
    split at hn2
    · exact absurd hn2 (by simp)
    · rw [hn] at hn2
      injection hn2 with e
      rw [e]
      exact stateKept_refl _

theorem evolves_alloc (h : Heap S F) (m : PromiseImpl S F) : h.Evolves (h.alloc m).2 := by
  refine ⟨by simp, ?_, ?_⟩
  · intro b hb hn
    rw [read_alloc, if_neg (by omega)]
    exact hn
  · intro b n n2 hn hn2
    have hb := lt_length_of_read hn
    rw [read_alloc, if_neg (by omega), hn] at hn2
    injection hn2 with e
    rw [e]
    exact stateKept_refl _

theorem evolves_write {h : Heap S F} {a : Nat} {n m : PromiseImpl S F}
    (hr : h.read a = some n) (hk : StateKept n.state_ m.state_) :
    h.Evolves (h.write a m) := by
  refine ⟨by simp, ?_, ?_⟩
  · intro b _ hn
    have hne : b ≠ a := by
      intro e
      rw [e, hr] at hn
      exact absurd hn (by simp)
    rw [read_write_of_ne _ hne]
    exact hn
  · intro b k k2 hk1 hk2
    by_cases hb : b = a
    · subst hb
      rw [read_write_self hr] at hk2
      rw [hr] at hk1
      injection hk1 with e1
      injection hk2 with e2
      rw [← e1, ← e2]
      exact hk
    · rw [read_write_of_ne _ hb, hk1] at hk2
      injection hk2 with e
      rw [e]
      exact stateKept_refl _

end Heap

namespace PromiseImpl

theorem destruct_evolves {a : Nat} {h h' : Heap S F} (e : destruct a h = .ok h') :
    h.Evolves h' := by
  cases hr : h.read a with
  | none => simp [destruct, hr] at e
  | some n =>
    rw [destruct_of_read hr] at e
    injection e with e
    subst e
    split
    · exact Heap.evolves_refl h
    · exact Heap.evolves_free h a

theorem resolveSuccess_evolves_aux (fuel : Nat) :
    (∀ (a : Nat) (v : S) (h h' : Heap S F),
      resolveSuccess fuel a v h = .ok h' → h.Evolves h') ∧
    (∀ (a : Nat) (v : S) (h h' : Heap S F),
      opaqueResolveSuccess fuel a v h = .ok h' → h.Evolves h') := by
  induction fuel with
  | zero =>
    constructor
    · intro a v h h' e
      simp [resolveSuccess] at e
    · intro a v h h' e
      simp [opaqueResolveSuccess] at e
  | succ k ih =>
    constructor
    · intro a v h h' e
      cases hr : h.read a with
      | none => simp [resolveSuccess, hr] at e
      | some n =>
        cases hc : n.child_ with
        | none =>
          rw [resolveSuccess_leaf hr hc] at e
          injection e with e
          subst e
          exact Heap.evolves_write hr (stateKept_setState_Success _)
        | some c =>
          by_cases hne : c = a
          · subst hne
            rw [resolveSuccess_terminal hr hc] at e
            injection e with e
            subst e
            split
            · exact Heap.evolves_refl h
            · exact Heap.evolves_free h c
          · rw [resolveSuccess_forward hr hc hne] at e
            cases ho : opaqueResolveSuccess k c v (h.note (Event.forwardSuccess a c)) with
            | error x => simp [ho] at e
            | ok h1 =>
              rw [ho] at e
              exact Heap.evolves_trans (Heap.evolves_note h _)
                (Heap.evolves_trans (ih.2 _ _ _ _ ho) (destruct_evolves e))
    · intro a v h h' e
      cases hr : h.read a with
      | none => simp [opaqueResolveSuccess, hr] at e
      | some n =>
        cases hd : n.dyn with
        | none =>
          simp [opaqueResolveSuccess, hr, hd] at e
          subst e
          exact Heap.evolves_refl h
        | some m =>
          rw [opaqueResolveSuccess_child hr hd] at e
          exact ih.1 _ _ _ _ e

theorem resolveFailure_evolves_aux (fuel : Nat) :
    (∀ (a : Nat) (v : F) (h h' : Heap S F),
      resolveFailure fuel a v h = .ok h' → h.Evolves h') ∧
    (∀ (a : Nat) (v : F) (h h' : Heap S F),
      opaqueResolveFailure fuel a v h = .ok h' → h.Evolves h') := by
  induction fuel with
  | zero =>
    constructor
    · intro a v h h' e
      simp [resolveFailure] at e
    · intro a v h h' e
      simp [opaqueResolveFailure] at e
  | succ k ih =>
    constructor
    · intro a v h h' e
      cases hr : h.read a with
      | none => simp [resolveFailure, hr] at e
      | some n =>
        cases hc : n.child_ with
        | none =>
          rw [resolveFailure_leaf hr hc] at e
          injection e with e
          subst e
          exact Heap.evolves_write hr (stateKept_setState_Failure _)
        | some c =>
          by_cases hne : c = a
          · subst hne
            rw [resolveFailure_terminal hr hc] at e
            injection e with e
            subst e
            split
            · exact Heap.evolves_refl h
            · exact Heap.evolves_free h c
          · rw [resolveFailure_forward hr hc hne] at e
            cases ho : opaqueResolveFailure k c v (h.note (Event.forwardFailure a c)) with
            | error x => simp [ho] at e
            | ok h1 =>
              rw [ho] at e
              exact Heap.evolves_trans (Heap.evolves_note h _)
                (Heap.evolves_trans (ih.2 _ _ _ _ ho) (destruct_evolves e))
    · intro a v h h' e
      cases hr : h.read a with
      | none => simp [opaqueResolveFailure, hr] at e
      | some n =>
        cases hd : n.dyn with
        | none =>
          simp [opaqueResolveFailure, hr, hd] at e
          subst e
          exact Heap.evolves_refl h
        | some m =>
          rw [opaqueResolveFailure_child hr hd] at e
          exact ih.1 _ _ _ _ e

end PromiseImpl

end Evolution

section AttachState

variable {S F : Type} [Inhabited S] [Inhabited F]

namespace PromiseImpl

/-- A `then` that returns leaves the state byte of every node that was allocated before
and still is allocated afterwards as it was. -/
theorem then_state_same {fuel a : Nat} {f : S → S} {g : F → F} {h h' : Heap S F} {c : Nat}
    (e : then_ fuel a f g h = .ok (c, h')) :
    ∀ b n n', h.read b = some n → h'.read b = some n' → n'.state_ = n.state_ := by
  cases hr : h.read a with
  | none => simp [then_, hr] at e
  | some na =>
    have hlt := Heap.lt_length_of_read hr
    -- the conclusion from a description of the final store
    have key : ∀ h'' : Heap S F,
        (h''.read a = some ⟨some h.cells.length, na.state_, na.success_, na.failure_, na.dyn⟩
          ∨ h''.read a = none) →
        (∀ b, b ≠ a → b ≠ h.cells.length → h''.read b = h.read b) →
        ∀ b n n', h.read b = some n → h''.read b = some n' → n'.state_ = n.state_ := by
      intro h'' ha hf b n n' hb hb'
      have hbl := Heap.lt_length_of_read hb
      by_cases hba : b = a
      · subst hba
        rw [hr] at hb
        injection hb with hb
        rcases ha with ha | ha
        · rw [ha] at hb'
          injection hb' with hb'
          rw [← hb', ← hb]
        · rw [ha] at hb'
          exact absurd hb' (by simp)
      · rw [hf b hba (by omega), hb] at hb'
        injection hb' with hb'
        rw [hb']
    by_cases hp : PromiseImplBase.isPending na.state_ = true
    · obtain ⟨h1, e1, -, ha1, hf1, -, -⟩ := then_pending_spec hr hp fuel f g
      rw [e1] at e
      injection e with e
      have e2 := (Prod.mk.inj e).2
      subst e2
      exact key h1 (Or.inl ha1) hf1
    · have hp' : PromiseImplBase.isPending na.state_ = false := by simpa using hp
      have hne : h.cells.length ≠ a := by omega
      have hc2 : ∀ ev, (((h.alloc (newChild f g)).2.write a
          { na with child_ := some h.cells.length }).note ev).read h.cells.length =
          some (newChild f g) := by
        intro ev
        rw [Heap.read_note, Heap.read_write_of_ne _ hne, Heap.read_alloc]; simp
      have ha2 : ((h.alloc (newChild f g)).2.write a
          { na with child_ := some h.cells.length }).read a =
          some ⟨some h.cells.length, na.state_, na.success_, na.failure_, na.dyn⟩ := by
        rw [Heap.read_write]; simp; omega
      have hd : (newChild f g : PromiseImpl S F).dyn = some ⟨f, g⟩ := rfl
      by_cases hS : PromiseImplBase.getState na.state_ = PromiseState.Success
      · match fuel with
        | 0 => simp [then_, hr, hp', hS, opaqueResolveSuccess] at e
        | 1 =>
          simp only [then_, hr, hp', hS, Heap.fst_alloc, Bool.not_false, if_true] at e
          rw [opaqueResolveSuccess_child (hc2 _) hd] at e
          simp [resolveSuccess] at e
        | j + 2 =>
          obtain ⟨h1, e1, -, ha1, hf1, -, -⟩ := then_resolved_success_spec hr hS j f g
          rw [e1] at e
          injection e with e
          have e2 := (Prod.mk.inj e).2
          subst e2
          refine key h1 ?_ hf1
          rw [ha1]
          by_cases hroot : PromiseImplBase.isRoot na.state_ = true <;> simp [hroot]
      · by_cases hF : PromiseImplBase.getState na.state_ = PromiseState.Failure
        · have hFS : PromiseState.Failure ≠ PromiseState.Success := by decide
          match fuel with
          | 0 => simp [then_, hr, hp', hF, hFS, opaqueResolveFailure] at e
          | 1 =>
            simp only [then_, hr, hp', hF, hFS, Heap.fst_alloc, Bool.not_false, if_true,
              if_false] at e
            rw [opaqueResolveFailure_child (hc2 _) hd] at e
            simp [resolveFailure] at e
          | j + 2 =>
            obtain ⟨h1, e1, -, ha1, hf1, -, -⟩ := then_resolved_failure_spec hr hF j f g
            rw [e1] at e
            injection e with e
            have e2 := (Prod.mk.inj e).2
            subst e2
            refine key h1 ?_ hf1
            rw [ha1]
            by_cases hroot : PromiseImplBase.isRoot na.state_ = true <;> simp [hroot]
        · simp only [then_, hr, hp', hS, hF, Heap.fst_alloc, Bool.not_false, if_true,
            if_false] at e
          rw [destruct_of_read ha2] at e
          simp only [] at e
          injection e with e
          have e2 := (Prod.mk.inj e).2
          subst e2
          by_cases hroot : PromiseImplBase.isRoot na.state_ = true
          · simp only [hroot, if_true]
            refine key _ (Or.inl ha2) ?_
            intro b hb1 hb2
            rw [Heap.read_write_of_ne _ hb1, Heap.read_alloc, if_neg hb2]
          · have hroot' : PromiseImplBase.isRoot na.state_ = false := by simpa using hroot
            simp only [hroot', Bool.false_eq_true, if_false]
            refine key _ (Or.inr ?_) ?_
            · rw [Heap.read_free, if_pos rfl]
            · intro b hb1 hb2
              rw [Heap.read_free, if_neg hb1, Heap.read_write_of_ne _ hb1, Heap.read_alloc,
                if_neg hb2]

end PromiseImpl

end AttachState

section TerminateState

variable {S F : Type}

namespace PromiseImpl

theorem thenTerminate_state_same {a : Nat} {h h' : Heap S F}
    (e : thenTerminate a h = .ok h') :
    ∀ b n n', h.read b = some n → h'.read b = some n' → n'.state_ = n.state_ := by
  cases hr : h.read a with
  | none => simp [thenTerminate, hr] at e
  | some na =>
    simp only [thenTerminate, hr] at e
    injection e with e
    subst e
    intro b n n' hb hb'
    by_cases hba : b = a
    · subst hba
      rw [Heap.read_write_self hr] at hb'
      rw [hr] at hb
      injection hb with hb
      injection hb' with hb'
      rw [← hb', ← hb]
    · rw [Heap.read_write_of_ne _ hba, hb] at hb'
      injection hb' with hb'
      rw [hb']

end PromiseImpl

end TerminateState

section Claims

variable {S F : Type} [Inhabited S] [Inhabited F]

/-- C10 fails on the code: a root resolved with Failure 9 accepts `resolveSuccess(7)`,
which returns and changes the root's state from Failure to Success. -/
theorem C10_resolved_state_overwritten :
    observe (RootPromise.ofFailure 1 9 (Heap.empty : Heap Nat Nat)) =
        some (some PromiseState.Failure, some 0, some 9) ∧
      observe (resolveFailureThenSuccess 1 9 7 (Heap.empty : Heap Nat Nat)) =
        some (some PromiseState.Success, some 7, some 9) := by
  decide

/-- The part of the one-way rule that the code keeps: a resolved node never returns to
Pending.  For every chain operation (`then`, `thenTerminate`, `resolveSuccess`,
`resolveFailure`) that returns, called on any node, every node whose state was Success or
Failure before and that is still allocated afterwards is in state Success or Failure
afterwards; after `then` and `thenTerminate` its state byte is the one it had. -/
theorem resolved_never_pending_again (op : ChainOp S F) (fuel this : Nat) (h h' : Heap S F)
    (hrun : op.run fuel this h = .ok h') (b : Nat) (n n' : PromiseImpl S F)
    (hb : h.read b = some n) (hb' : h'.read b = some n')
    (hres : PromiseImplBase.isResolved n.state_) :
    PromiseImplBase.isResolved n'.state_ ∧
    (op.isAttachment = true → n'.state_ = n.state_) := by
  cases op with
  | attach f g =>
    simp only [ChainOp.run] at hrun
    cases ht : PromiseImpl.then_ fuel this f g h with
    | error x => simp [ht] at hrun
    | ok r =>
      obtain ⟨c, h1⟩ := r
      rw [ht] at hrun
      injection hrun with hrun
      subst hrun
      have hs := PromiseImpl.then_state_same ht b n n' hb hb'
      exact ⟨by rw [hs]; exact hres, fun _ => hs⟩
  | thenTerminate =>
    have hs := PromiseImpl.thenTerminate_state_same hrun b n n' hb hb'
    exact ⟨by rw [hs]; exact hres, fun _ => hs⟩
  | resolveSuccess v =>
    have he := (PromiseImpl.resolveSuccess_evolves_aux fuel).1 this v h h' hrun
    exact ⟨stateKept_isResolved (he.2.2 b n n' hb hb') hres,
      fun hf => by simp [ChainOp.isAttachment] at hf⟩
  | resolveFailure v =>
    have he := (PromiseImpl.resolveFailure_evolves_aux fuel).1 this v h h' hrun
    exact ⟨stateKept_isResolved (he.2.2 b n n' hb hb') hres,
      fun hf => by simp [ChainOp.isAttachment] at hf⟩

/-- A resolved node stays resolved, at a root at address 0 resolved with Success 7 on
which `resolveFailure(9)` is called. -/
theorem resolved_never_pending_again_witness :
    (ChainOp.resolveFailure 9 : ChainOp Nat Nat).run 1 0 successRootHeap =
      .ok (successRootHeap.write 0 { successRootNode with
        state_ := PromiseImplBase.setState successRootNode.state_ PromiseState.Failure,
        failure_ := 9 }) ∧
    successRootHeap.read 0 = some successRootNode ∧
    PromiseImplBase.isResolved successRootNode.state_ ∧
    PromiseImplBase.isResolved
      (PromiseImplBase.setState successRootNode.state_ PromiseState.Failure) ∧
    ((ChainOp.resolveFailure 9 : ChainOp Nat Nat).isAttachment = true →
      PromiseImplBase.setState successRootNode.state_ PromiseState.Failure =
        successRootNode.state_) :=
  ⟨rfl, rfl, Or.inl (by decide),
    resolved_never_pending_again (ChainOp.resolveFailure 9) 1 0 successRootHeap
      (successRootHeap.write 0 { successRootNode with
        state_ := PromiseImplBase.setState successRootNode.state_ PromiseState.Failure,
        failure_ := 9 })
      rfl 0 successRootNode
      { successRootNode with
        state_ := PromiseImplBase.setState successRootNode.state_ PromiseState.Failure,
        failure_ := 9 }
      rfl rfl (Or.inl (by decide))⟩

end Claims

section Claims

variable {S F : Type} [Inhabited S] [Inhabited F]

/-- C11: on a pending node with no child attached, `resolveSuccess(X)` returns, sets the
state to Success and the success value to `X`, leaves the child link absent and the root
flag as it was, releases nothing and touches no other node; a continuation `then(f, g)`
attached afterwards receives `X` (its node is Success holding `f X`).  Symmetrically
`resolveFailure(E)` stores Failure and `E`, and a later continuation holds `g E`. -/
theorem C11_resolve_without_child_stores (h : Heap S F) (this : Nat) (n : PromiseImpl S F)
    (hr : h.read this = some n) (hc : n.child_ = none)
    (hp : PromiseImplBase.isPending n.state_ = true) (fuel : Nat) (X : S) (E : F) :
    stateAt h this = some PromiseState.Pending ∧
    (∃ h' : Heap S F,
      PromiseImpl.resolveSuccess (fuel + 1) this X h = .ok h' ∧
      stateAt h' this = some PromiseState.Success ∧
      successAt h' this = some X ∧
      failureAt h' this = some n.failure_ ∧
      childAt h' this = some none ∧
      isRootAt h' this = some (PromiseImplBase.isRoot n.state_) ∧
      (∀ b, b ≠ this → h'.read b = h.read b) ∧
      h'.trace = h.trace ∧
      (∀ (k : Nat) (f : S → S) (g : F → F), ∃ (c : Nat) (h2 : Heap S F),
        PromiseImpl.then_ (k + 2) this f g h' = .ok (c, h2) ∧
        stateAt h2 c = some PromiseState.Success ∧
        successAt h2 c = some (f X))) ∧
    (∃ h' : Heap S F,
      PromiseImpl.resolveFailure (fuel + 1) this E h = .ok h' ∧
      stateAt h' this = some PromiseState.Failure ∧
      failureAt h' this = some E ∧
      successAt h' this = some n.success_ ∧
      childAt h' this = some none ∧
      isRootAt h' this = some (PromiseImplBase.isRoot n.state_) ∧
      (∀ b, b ≠ this → h'.read b = h.read b) ∧
      h'.trace = h.trace ∧
      (∀ (k : Nat) (f : S → S) (g : F → F), ∃ (c : Nat) (h2 : Heap S F),
        PromiseImpl.then_ (k + 2) this f g h' = .ok (c, h2) ∧
        stateAt h2 c = some PromiseState.Failure ∧
        failureAt h2 c = some (g E))) := by
  have hpend : PromiseImplBase.getState n.state_ = PromiseState.Pending := by
    simpa [PromiseImplBase.isPending] using hp
  refine ⟨by simp [stateAt, hr, hpend], ?_, ?_⟩
  · have hw := Heap.read_write_self hr
      ({ n with state_ := PromiseImplBase.setState n.state_ PromiseState.Success,
                success_ := X } : PromiseImpl S F)
    refine ⟨_, PromiseImpl.resolveSuccess_leaf hr hc fuel X, ?_, ?_, ?_, ?_, ?_, ?_, rfl, ?_⟩
    · simp [stateAt, hw, PromiseImplBase.getState_setState_Success]
    · simp [successAt, hw]
    · simp [failureAt, hw]
    · rw [childAt, hw]; simp [hc]
    · simp [isRootAt, hw, PromiseImplBase.isRoot_setState_Success]
    · intro b hb
      rw [Heap.read_write_of_ne _ hb]
    · intro k f g
      obtain ⟨h2, e2, hc2, -, -, -, -⟩ := PromiseImpl.then_resolved_success_spec hw
        (PromiseImplBase.getState_setState_Success n.state_) k f g
      refine ⟨_, h2, e2, ?_, ?_⟩
      · rw [stateAt, hc2]; simp [PromiseImplBase.getState_Success]
      · rw [successAt, hc2]; simp
  · have hw := Heap.read_write_self hr
      ({ n with state_ := PromiseImplBase.setState n.state_ PromiseState.Failure,
                failure_ := E } : PromiseImpl S F)
    refine ⟨_, PromiseImpl.resolveFailure_leaf hr hc fuel E, ?_, ?_, ?_, ?_, ?_, ?_, rfl, ?_⟩
    · simp [stateAt, hw, PromiseImplBase.getState_setState_Failure]
    · simp [failureAt, hw]
    · simp [successAt, hw]
    · rw [childAt, hw]; simp [hc]
    · simp [isRootAt, hw, PromiseImplBase.isRoot_setState_Failure]
    · intro b hb
      rw [Heap.read_write_of_ne _ hb]
    · intro k f g
      obtain ⟨h2, e2, hc2, -, -, -, -⟩ := PromiseImpl.then_resolved_failure_spec hw
        (PromiseImplBase.getState_setState_Failure n.state_) k f g
      refine ⟨_, h2, e2, ?_, ?_⟩
      · rw [stateAt, hc2]; simp [PromiseImplBase.getState_Failure]
      · rw [failureAt, hc2]; simp

end Claims

section Claims

/-- C11 at a pending root at address 0, resolved with 7 or failed with 9. -/
theorem C11_resolve_without_child_stores_witness :
    pendingRootHeap.read 0 = some RootPromise.rootNode ∧
    (RootPromise.rootNode : PromiseImpl Nat Nat).child_ = none ∧
    PromiseImplBase.isPending (RootPromise.rootNode : PromiseImpl Nat Nat).state_ = true ∧
    stateAt pendingRootHeap 0 = some PromiseState.Pending ∧
    (∃ h' : Heap Nat Nat,
      PromiseImpl.resolveSuccess (0 + 1) 0 7 pendingRootHeap = .ok h' ∧
      stateAt h' 0 = some PromiseState.Success ∧
      successAt h' 0 = some 7 ∧
      failureAt h' 0 = some (RootPromise.rootNode : PromiseImpl Nat Nat).failure_ ∧
      childAt h' 0 = some none ∧
      isRootAt h' 0 = some (PromiseImplBase.isRoot
        (RootPromise.rootNode : PromiseImpl Nat Nat).state_) ∧
      (∀ b, b ≠ 0 → h'.read b = pendingRootHeap.read b) ∧
      h'.trace = pendingRootHeap.trace ∧
      (∀ (k : Nat) (f : Nat → Nat) (g : Nat → Nat), ∃ (c : Nat) (h2 : Heap Nat Nat),
        PromiseImpl.then_ (k + 2) 0 f g h' = .ok (c, h2) ∧
        stateAt h2 c = some PromiseState.Success ∧
        successAt h2 c = some (f 7))) ∧
    (∃ h' : Heap Nat Nat,
      PromiseImpl.resolveFailure (0 + 1) 0 9 pendingRootHeap = .ok h' ∧
      stateAt h' 0 = some PromiseState.Failure ∧
      failureAt h' 0 = some 9 ∧
      successAt h' 0 = some (RootPromise.rootNode : PromiseImpl Nat Nat).success_ ∧
      childAt h' 0 = some none ∧
      isRootAt h' 0 = some (PromiseImplBase.isRoot
        (RootPromise.rootNode : PromiseImpl Nat Nat).state_) ∧
      (∀ b, b ≠ 0 → h'.read b = pendingRootHeap.read b) ∧
      h'.trace = pendingRootHeap.trace ∧
      (∀ (k : Nat) (f : Nat → Nat) (g : Nat → Nat), ∃ (c : Nat) (h2 : Heap Nat Nat),
        PromiseImpl.then_ (k + 2) 0 f g h' = .ok (c, h2) ∧
        stateAt h2 c = some PromiseState.Failure ∧
        failureAt h2 c = some (g 9))) :=
  ⟨rfl, rfl, by decide,
    C11_resolve_without_child_stores pendingRootHeap 0 RootPromise.rootNode rfl rfl
      (by decide) 0 7 9⟩

end Claims

namespace PromiseImplBase

theorem getState_setState_Pending (b : Nat) :
    getState (setState b PromiseState.Pending) = PromiseState.Pending := by
  unfold setState PromiseState.Mask
  rcases and_IsRoot_cases b with h | h <;> rw [h] <;> decide

theorem isRoot_setState_Pending (b : Nat) :
    isRoot (setState b PromiseState.Pending) = isRoot b := by
  unfold setState PromiseState.Mask isRoot
  rcases and_IsRoot_cases b with h | h <;> rw [h] <;> decide

set_option maxRecDepth 100000 in
theorem setIsRoot_table :
    ∀ b, b < 256 → isRoot (setIsRoot b) = true ∧ getState (setIsRoot b) = getState b := by
  decide

end PromiseImplBase

section Claims

variable {S F : Type} [Inhabited S] [Inhabited F]

/-- C13: the root flag is never cleared and never set by the chain operations.
`setState` with Pending, Success or Failure leaves `isRoot` of any state byte as it was;
and for every chain operation (`then`, `thenTerminate`, `resolveSuccess`,
`resolveFailure`) that returns, called on any node, every node that is allocated before
and after has the same `isRoot` before and after: set stays set, unset stays unset. -/
theorem C13_root_flag_kept (op : ChainOp S F) (fuel this : Nat) (h h' : Heap S F)
    (hrun : op.run fuel this h = .ok h') (b : Nat) (n n' : PromiseImpl S F)
    (hb : h.read b = some n) (hb' : h'.read b = some n') :
    PromiseImplBase.isRoot n'.state_ = PromiseImplBase.isRoot n.state_ ∧
    (∀ byte : Nat,
      PromiseImplBase.isRoot (PromiseImplBase.setState byte PromiseState.Pending) =
        PromiseImplBase.isRoot byte ∧
      PromiseImplBase.isRoot (PromiseImplBase.setState byte PromiseState.Success) =
        PromiseImplBase.isRoot byte ∧
      PromiseImplBase.isRoot (PromiseImplBase.setState byte PromiseState.Failure) =
        PromiseImplBase.isRoot byte) := by
  refine ⟨?_, fun byte => ⟨PromiseImplBase.isRoot_setState_Pending byte,
    PromiseImplBase.isRoot_setState_Success byte,
    PromiseImplBase.isRoot_setState_Failure byte⟩⟩
  cases op with
  | attach f g =>
    simp only [ChainOp.run] at hrun
    cases ht : PromiseImpl.then_ fuel this f g h with
    | error x => simp [ht] at hrun
    | ok r =>
      obtain ⟨c, h1⟩ := r
      rw [ht] at hrun
      injection hrun with hrun
      subst hrun
      rw [PromiseImpl.then_state_same ht b n n' hb hb']
  | thenTerminate =>
    rw [PromiseImpl.thenTerminate_state_same hrun b n n' hb hb']
  | resolveSuccess v =>
    exact ((PromiseImpl.resolveSuccess_evolves_aux fuel).1 this v h h' hrun).2.2
      b n n' hb hb' |>.1
  | resolveFailure v =>
    exact ((PromiseImpl.resolveFailure_evolves_aux fuel).1 this v h h' hrun).2.2
      b n n' hb hb' |>.1

/-- C13 at a pending root at address 0 on which `resolveSuccess(7)` is called. -/
theorem C13_root_flag_kept_witness :
    (ChainOp.resolveSuccess 7 : ChainOp Nat Nat).run 1 0 pendingRootHeap =
      .ok successRootHeap ∧
    pendingRootHeap.read 0 = some RootPromise.rootNode ∧
    successRootHeap.read 0 = some successRootNode ∧
    PromiseImplBase.isRoot successRootNode.state_ = true ∧
    PromiseImplBase.isRoot successRootNode.state_ =
      PromiseImplBase.isRoot (RootPromise.rootNode : PromiseImpl Nat Nat).state_ ∧
    (∀ byte : Nat,
      PromiseImplBase.isRoot (PromiseImplBase.setState byte PromiseState.Pending) =
        PromiseImplBase.isRoot byte ∧
      PromiseImplBase.isRoot (PromiseImplBase.setState byte PromiseState.Success) =
        PromiseImplBase.isRoot byte ∧
      PromiseImplBase.isRoot (PromiseImplBase.setState byte PromiseState.Failure) =
        PromiseImplBase.isRoot byte) :=
  ⟨rfl, rfl, rfl, by decide,
    C13_root_flag_kept (ChainOp.resolveSuccess 7) 1 0 pendingRootHeap successRootHeap rfl 0
      RootPromise.rootNode successRootNode rfl rfl⟩

/-- C19: the state byte keeps the resolution state and the root flag apart.  For every
byte `b` and every `s` among Pending, Success, Failure, `getState` after `setState(s)` is
`s` and `isRoot` is as before; `setIsRoot` makes `isRoot` true and leaves `getState`, and
so `isPending`, as they were. -/
theorem C19_state_byte_independent (b : Nat) (hb : b < 256) :
    PromiseImplBase.getState (PromiseImplBase.setState b PromiseState.Pending) =
      PromiseState.Pending ∧
    PromiseImplBase.getState (PromiseImplBase.setState b PromiseState.Success) =
      PromiseState.Success ∧
    PromiseImplBase.getState (PromiseImplBase.setState b PromiseState.Failure) =
      PromiseState.Failure ∧
    PromiseImplBase.isRoot (PromiseImplBase.setState b PromiseState.Pending) =
      PromiseImplBase.isRoot b ∧
    PromiseImplBase.isRoot (PromiseImplBase.setState b PromiseState.Success) =
      PromiseImplBase.isRoot b ∧
    PromiseImplBase.isRoot (PromiseImplBase.setState b PromiseState.Failure) =
      PromiseImplBase.isRoot b ∧
    PromiseImplBase.isRoot (PromiseImplBase.setIsRoot b) = true ∧
    PromiseImplBase.getState (PromiseImplBase.setIsRoot b) = PromiseImplBase.getState b ∧
    PromiseImplBase.isPending (PromiseImplBase.setIsRoot b) =
      PromiseImplBase.isPending b := by
  have ht := PromiseImplBase.setIsRoot_table b hb
  refine ⟨PromiseImplBase.getState_setState_Pending b,
    PromiseImplBase.getState_setState_Success b,
    PromiseImplBase.getState_setState_Failure b,
    PromiseImplBase.isRoot_setState_Pending b,
    PromiseImplBase.isRoot_setState_Success b,
    PromiseImplBase.isRoot_setState_Failure b, ht.1, ht.2, ?_⟩
  unfold PromiseImplBase.isPending
  rw [ht.2]

/-- C19 at the byte 2 (Failure, root flag not set). -/
theorem C19_state_byte_independent_witness :
    (2 : Nat) < 256 ∧
    PromiseImplBase.getState (PromiseImplBase.setState 2 PromiseState.Pending) =
      PromiseState.Pending ∧
    PromiseImplBase.getState (PromiseImplBase.setState 2 PromiseState.Success) =
      PromiseState.Success ∧
    PromiseImplBase.getState (PromiseImplBase.setState 2 PromiseState.Failure) =
      PromiseState.Failure ∧
    PromiseImplBase.isRoot (PromiseImplBase.setState 2 PromiseState.Pending) =
      PromiseImplBase.isRoot 2 ∧
    PromiseImplBase.isRoot (PromiseImplBase.setState 2 PromiseState.Success) =
      PromiseImplBase.isRoot 2 ∧
    PromiseImplBase.isRoot (PromiseImplBase.setState 2 PromiseState.Failure) =
      PromiseImplBase.isRoot 2 ∧
    PromiseImplBase.isRoot (PromiseImplBase.setIsRoot 2) = true ∧
    PromiseImplBase.getState (PromiseImplBase.setIsRoot 2) = PromiseImplBase.getState 2 ∧
    PromiseImplBase.isPending (PromiseImplBase.setIsRoot 2) =
      PromiseImplBase.isPending 2 :=
  ⟨by decide, C19_state_byte_independent 2 (by decide)⟩

end Claims

/-! ## Moving a handle -/

namespace Promise

variable {S F : Type}

/-- The move of a handle whose `impl_` points at a root node: the target's inline node
takes over the members of the source's inline node, and `impl_` is re-bound to it. -/
theorem assign_of_root {this other : Promise} {h : Heap S F} {oi o t : PromiseImpl S F}
    (hi : h.read other.impl_ = some oi) (hroot : PromiseImplBase.isRoot oi.state_ = true)
    (ho : h.read other.root_impl_ = some o) (ht : h.read this.root_impl_ = some t) :
    assign this other h =
      .ok ({ impl_ := this.root_impl_, root_impl_ := this.root_impl_ },
        h.write this.root_impl_ ⟨o.child_, o.state_, o.success_, o.failure_, t.dyn⟩) := by
  simp [assign, hi, hroot, PromiseImpl.moveAssign, ho, ht, PromiseImpl.assignNode,
    PromiseImpl.assignBase]

/-- The move constructor applied to a handle whose `impl_` points at a root node. -/
theorem moveNew_of_root [Inhabited S] [Inhabited F] {other : Promise} {h : Heap S F}
    {oi o : PromiseImpl S F}
    (hi : h.read other.impl_ = some oi) (hroot : PromiseImplBase.isRoot oi.state_ = true)
    (ho : h.read other.root_impl_ = some o) :
    ∃ h' : Heap S F,
      moveNew other h =
        .ok ({ impl_ := h.cells.length, root_impl_ := h.cells.length }, h') ∧
      h'.read h.cells.length = some ⟨o.child_, o.state_, o.success_, o.failure_, none⟩ ∧
      (∀ b, b ≠ h.cells.length → h'.read b = h.read b) ∧
      h'.cells.length = h.cells.length + 1 ∧
      h'.trace = h.trace := by
  have hi1 : (h.alloc (PromiseImpl.new : PromiseImpl S F)).2.read other.impl_ = some oi :=
    read_alloc_of_read hi _
  have ho1 : (h.alloc (PromiseImpl.new : PromiseImpl S F)).2.read other.root_impl_ =
      some o := read_alloc_of_read ho _
  have ht1 : (h.alloc (PromiseImpl.new : PromiseImpl S F)).2.read h.cells.length =
      some PromiseImpl.new := by
    rw [Heap.read_alloc]; simp
  refine ⟨(h.alloc (PromiseImpl.new : PromiseImpl S F)).2.write h.cells.length
    ⟨o.child_, o.state_, o.success_, o.failure_, (PromiseImpl.new : PromiseImpl S F).dyn⟩,
    ?_, ?_, ?_, ?_, ?_⟩
  · unfold moveNew
    simp only [Heap.fst_alloc]
    exact @assign_of_root S F ⟨h.cells.length, h.cells.length⟩ other _ oi o _ hi1 hroot ho1 ht1
  · rw [Heap.read_write]
    simp [PromiseImpl.new]
  · intro b hb
    rw [Heap.read_write_of_ne _ hb, Heap.read_alloc, if_neg hb]
  · simp
  · simp

end Promise

section Claims

variable {S F : Type} [Inhabited S] [Inhabited F]

/-- C12: moving a root handle (its `impl_` points at its own inline node, which carries
the root flag) into a new handle succeeds; the new handle's `impl_` points at its own,
newly placed inline node, and that node has the source node's state (Pending, Success or
Failure), success value, failure value and the root flag.  A later `resolveSuccess`
through the new handle stores into the relocated node (when no child is attached) and a
later `then` links its child to the relocated node (when it is pending); the source node
is not written by either.  The same holds for move assignment into an existing handle. -/
theorem C12_move_root_handle (other : Promise) (h : Heap S F) (o : PromiseImpl S F)
    (hown : other.impl_ = other.root_impl_) (hr : h.read other.impl_ = some o)
    (hroot : PromiseImplBase.isRoot o.state_ = true) :
    (∃ (p : Promise) (h' : Heap S F),
      Promise.moveNew other h = .ok (p, h') ∧
      p.impl_ = p.root_impl_ ∧ p.impl_ = h.cells.length ∧ p.impl_ ≠ other.impl_ ∧
      stateAt h' p.impl_ = some (PromiseImplBase.getState o.state_) ∧
      successAt h' p.impl_ = some o.success_ ∧
      failureAt h' p.impl_ = some o.failure_ ∧
      isRootAt h' p.impl_ = some true ∧
      (o.child_ = none → ∀ (k : Nat) (X : S), ∃ h2 : Heap S F,
        Promise.resolveSuccess (k + 1) p X h' = .ok h2 ∧
        stateAt h2 p.impl_ = some PromiseState.Success ∧
        successAt h2 p.impl_ = some X ∧
        h2.read other.impl_ = some o) ∧
      (PromiseImplBase.isPending o.state_ = true →
        ∀ (fuel : Nat) (f : S → S) (g : F → F), ∃ (c : Promise) (h2 : Heap S F),
          Promise.then_ fuel p f g h' = .ok (c, h2) ∧
          childAt h2 p.impl_ = some (some c.impl_) ∧
          h2.read other.impl_ = some o)) ∧
    (∀ (this : Promise) (t : PromiseImpl S F), h.read this.root_impl_ = some t →
      ∃ (p : Promise) (h' : Heap S F),
        Promise.assign this other h = .ok (p, h') ∧
        p.impl_ = this.root_impl_ ∧ p.root_impl_ = this.root_impl_ ∧
        stateAt h' p.impl_ = some (PromiseImplBase.getState o.state_) ∧
        successAt h' p.impl_ = some o.success_ ∧
        failureAt h' p.impl_ = some o.failure_ ∧
        isRootAt h' p.impl_ = some true) := by
  have ho : h.read other.root_impl_ = some o := by rw [← hown]; exact hr
  have hlt := Heap.lt_length_of_read hr
  constructor
  · obtain ⟨h', e, hn, hf, hl, -⟩ := Promise.moveNew_of_root hr hroot ho
    have hne : other.impl_ ≠ h.cells.length := by omega
    have hother : h'.read other.impl_ = some o := by rw [hf _ hne]; exact hr
    refine ⟨_, h', e, rfl, rfl, fun e => hne e.symm, ?_, ?_, ?_, ?_, ?_, ?_⟩
    · simp [stateAt, hn]
    · simp [successAt, hn]
    · simp [failureAt, hn]
    · simp [isRootAt, hn, hroot]
    · intro hc k X
      refine ⟨_, PromiseImpl.resolveSuccess_leaf hn hc k X, ?_, ?_, ?_⟩
      · simp [stateAt, Heap.read_write_self hn, PromiseImplBase.getState_setState_Success]
      · simp [successAt, Heap.read_write_self hn]
      · rw [Heap.read_write_of_ne _ hne]; exact hother
    · intro hp fuel f g
      obtain ⟨h1, e1, -, ha1, hf1, -, -⟩ := PromiseImpl.then_pending_spec hn hp fuel f g
      have hlt' := Heap.lt_length_of_read hother
      refine ⟨_, _, Promise.then_of_impl e1, ?_, ?_⟩
      · simp [childAt, Promise.read_alloc_of_read ha1]
      · refine Promise.read_alloc_of_read ?_ _
        rw [hf1 _ hne (by omega)]
        exact hother
  · intro this t ht
    have hw := Heap.read_write_self ht
      (⟨o.child_, o.state_, o.success_, o.failure_, t.dyn⟩ : PromiseImpl S F)
    refine ⟨_, _, Promise.assign_of_root hr hroot ho ht, rfl, rfl, ?_, ?_, ?_, ?_⟩
    · simp [stateAt, hw]
    · simp [successAt, hw]
    · simp [failureAt, hw]
    · simp [isRootAt, hw, hroot]

/-- C12 at a root handle at address 0 resolved with Success 7. -/
theorem C12_move_root_handle_witness :
    (⟨0, 0⟩ : Promise).impl_ = (⟨0, 0⟩ : Promise).root_impl_ ∧
    successRootHeap.read 0 = some successRootNode ∧
    PromiseImplBase.isRoot successRootNode.state_ = true ∧
    ∃ (p : Promise) (h' : Heap Nat Nat),
      Promise.moveNew ⟨0, 0⟩ successRootHeap = .ok (p, h') ∧
      p.impl_ = p.root_impl_ ∧ p.impl_ = successRootHeap.cells.length ∧ p.impl_ ≠ 0 ∧
      stateAt h' p.impl_ = some (PromiseImplBase.getState successRootNode.state_) ∧
      successAt h' p.impl_ = some successRootNode.success_ ∧
      failureAt h' p.impl_ = some successRootNode.failure_ ∧
      isRootAt h' p.impl_ = some true ∧
      (successRootNode.child_ = none → ∀ (k : Nat) (X : Nat), ∃ h2 : Heap Nat Nat,
        Promise.resolveSuccess (k + 1) p X h' = .ok h2 ∧
        stateAt h2 p.impl_ = some PromiseState.Success ∧
        successAt h2 p.impl_ = some X ∧
        h2.read 0 = some successRootNode) ∧
      (PromiseImplBase.isPending successRootNode.state_ = true →
        ∀ (fuel : Nat) (f : Nat → Nat) (g : Nat → Nat), ∃ (c : Promise) (h2 : Heap Nat Nat),
          Promise.then_ fuel p f g h' = .ok (c, h2) ∧
          childAt h2 p.impl_ = some (some c.impl_) ∧
          h2.read 0 = some successRootNode) :=
  ⟨rfl, rfl, by decide,
    (C12_move_root_handle ⟨0, 0⟩ successRootHeap successRootNode rfl rfl (by decide)).1⟩

end Claims

section Claims

/-- C16 fails on the code: the handle returned by `RootPromise::then()` references a root
node (`impl_->isRoot()` is true), and after it is moved into a new handle the new handle
references its own inline node, which does not carry the root flag: the condition of
`ASSERT(impl_->isRoot())` is false. -/
theorem C16_assert_violated :
    (moveNonOwningRootHandle (Heap.empty : Heap Nat Nat)).toOption.map
      (fun r => (r.1.1.implIsRoot r.2, r.1.2.implIsRoot r.2, r.1.2.impl_)) =
      some (some true, some false, 2) := by
  decide

/-- C17 fails on the code for a terminal node: a root at address 0 marked with
`thenTerminate()` and moved into a new handle has its node relocated to address 1, but
the relocated node's child link is still address 0, not the node itself; resolving
through the new handle makes a forwarding call on the node at address 0. -/
theorem C17_terminal_link_not_relocated :
    (moveTerminalRootThenResolve 3 7 (Heap.empty : Heap Nat Nat)).toOption.map
      (fun r => (r.1.1.impl_, r.1.2.impl_, childAt r.2 r.1.2.impl_, r.2.trace)) =
      some (0, 1, some (some 0), [Event.forwardSuccess 1 0]) := by
  decide

end Claims

/-! ## The trace of a resolution along a chain -/

section ChainTrace

variable {S F : Type}

theorem chainReleases_congr {h h' : Heap S F} (hrd : ∀ b, h'.read b = h.read b) :
    ∀ (a : Nat) (l : List (Nat × ChildImpl S F)),
      chainReleases h' a l = chainReleases h a l := by
  intro a l
  induction l generalizing a with
  | nil => rfl
  | cons x rest ih =>
    obtain ⟨c, m⟩ := x
    simp only [chainReleases, ih c, isRootAt, hrd]

theorem promiseChain_last_ne_head {h : Heap S F} {a c : Nat} {m : ChildImpl S F}
    {rest : List (Nat × ChildImpl S F)} (hc : PromiseChain h a ((c, m) :: rest)) :
    chainLast c rest ≠ a := by
  obtain ⟨-, hne, hnot, -, -⟩ := hc
  rcases chainLast_mem c rest with e | e
  · rw [e]; exact hne
  · intro e2; rw [e2] at e; exact hnot e

/-- Resolving the head of a chain with Success `v`, in full: the run returns with fuel
`2 * length + 1` or more; the last node takes state Success and the mapped value and
keeps its failure slot; every other node of the chain is left as it was when it is a
root and is released otherwise; nothing outside the chain is touched; and the trace gains
the forwarding calls followed by the releases. -/
theorem resolveSuccess_chain_full (l : List (Nat × ChildImpl S F)) :
    ∀ (h : Heap S F) (a : Nat), PromiseChain h a l → ∀ (k : Nat) (v : S),
      ∃ (h' : Heap S F) (nl : PromiseImpl S F),
        PromiseImpl.resolveSuccess (2 * l.length + 1 + k) a v h = .ok h' ∧
        h.read (chainLast a l) = some nl ∧
        h'.read (chainLast a l) =
          some ⟨none, PromiseImplBase.setState nl.state_ PromiseState.Success,
            chainMapSuccess l v, nl.failure_, nl.dyn⟩ ∧
        (∀ b, b ≠ a → b ∉ l.map Prod.fst → h'.read b = h.read b) ∧
        (∀ x, (x = a ∨ x ∈ l.map Prod.fst) → x ≠ chainLast a l →
          h'.read x = if isRootAt h x = some true then h.read x else none) ∧
        h'.trace = h.trace ++ chainForwardsSuccess a l ++ chainReleases h a l := by
  induction l with
  | nil =>
    intro h a hc k v
    obtain ⟨n, hr, hn⟩ := hc
    refine ⟨h.write a { n with
      state_ := PromiseImplBase.setState n.state_ PromiseState.Success, success_ := v },
      n, ?_, hr, ?_, ?_, ?_, ?_⟩
    · rw [show 2 * ([] : List (Nat × ChildImpl S F)).length + 1 + k = k + 1 by simp; omega]
      exact PromiseImpl.resolveSuccess_leaf hr hn k v
    · simp only [chainLast, chainMapSuccess]
      rw [Heap.read_write_self hr, hn]
    · intro b hb _
      rw [Heap.read_write_of_ne _ hb]
    · intro x hx hne
      simp only [chainLast, List.map_nil, List.not_mem_nil, or_false] at hx hne
      exact absurd hx hne
    · simp [chainForwardsSuccess, chainReleases]
  | cons x rest ih =>
    obtain ⟨c, m⟩ := x
    intro h a hc k v
    have hlast := promiseChain_last_ne_head hc
    obtain ⟨⟨n, hr, hn⟩, hne, hnot, ⟨cn, hrc, hd⟩, hrest⟩ := hc
    have hrd : ∀ b, (h.note (Event.forwardSuccess a c)).read b = h.read b :=
      fun b => Heap.read_note _ _ b
    have hrest' : PromiseChain (h.note (Event.forwardSuccess a c)) c rest :=
      promiseChain_congr hrd hrest
    obtain ⟨h1, nl, e1, hl0, hl1, hf1, hx1, ht1⟩ := ih _ c hrest' k (m.map_success_ v)
    have hra1 : h1.read a = some n := by
      rw [hf1 a (Ne.symm hne) hnot, Heap.read_note]; exact hr
    have hrc' : (h.note (Event.forwardSuccess a c)).read c = some cn := by
      rw [Heap.read_note]; exact hrc
    have hrootA : isRootAt h a = some (PromiseImplBase.isRoot n.state_) := by
      simp [isRootAt, hr]
    refine ⟨if PromiseImplBase.isRoot n.state_ then h1 else h1.free a, nl, ?_, ?_, ?_, ?_,
      ?_, ?_⟩
    · rw [show 2 * ((c, m) :: rest).length + 1 + k = (2 * rest.length + 1 + k) + 1 + 1 by
        simp; omega]
      rw [PromiseImpl.resolveSuccess_forward hr hn hne,
        PromiseImpl.opaqueResolveSuccess_child hrc' hd, e1]
      simp only []
      exact PromiseImpl.destruct_of_read hra1
    · simpa [chainLast] using hl0
    · simp only [chainLast, chainMapSuccess]
      by_cases hroot : PromiseImplBase.isRoot n.state_ = true
      · simpa [hroot] using hl1
      · have hroot' : PromiseImplBase.isRoot n.state_ = false := by simpa using hroot
        simp only [hroot', Bool.false_eq_true, if_false]
        rw [Heap.read_free, if_neg hlast]
        exact hl1
    · intro b hb hbl
      simp only [List.map_cons, List.mem_cons, not_or] at hbl
      have hb1 : h1.read b = h.read b := by
        rw [hf1 b hbl.1 hbl.2, Heap.read_note]
      by_cases hroot : PromiseImplBase.isRoot n.state_ = true
      · simpa [hroot] using hb1
      · have hroot' : PromiseImplBase.isRoot n.state_ = false := by simpa using hroot
        simp only [hroot', Bool.false_eq_true, if_false]
        rw [Heap.read_free, if_neg hb]
        exact hb1
    · intro x hx hxl
      simp only [chainLast] at hxl
      by_cases hxa : x = a
      · subst hxa
        rw [hrootA]
        by_cases hroot : PromiseImplBase.isRoot n.state_ = true
        · simp only [hroot, if_true]
          rw [hra1, hr]
        · have hroot' : PromiseImplBase.isRoot n.state_ = false := by simpa using hroot
          simp only [hroot', Bool.false_eq_true, if_false]
          rw [Heap.read_free, if_pos rfl]
          simp
      · have hx' : x = c ∨ x ∈ rest.map Prod.fst := by
          rcases hx with e | e
          · exact absurd e hxa
          · simpa using e
        have hx1' := hx1 x hx' hxl
        simp only [isRootAt, Heap.read_note] at hx1'
        by_cases hroot : PromiseImplBase.isRoot n.state_ = true
        · simp only [hroot, if_true]
          simpa [isRootAt] using hx1'
        · have hroot' : PromiseImplBase.isRoot n.state_ = false := by simpa using hroot
          simp only [hroot', Bool.false_eq_true, if_false]
          rw [Heap.read_free, if_neg hxa]
          simpa [isRootAt] using hx1'
    · have hcr := chainReleases_congr hrd c rest
      by_cases hroot : PromiseImplBase.isRoot n.state_ = true
      · simp [hroot, ht1, hcr, chainForwardsSuccess, chainReleases, hrootA]
      · have hroot' : PromiseImplBase.isRoot n.state_ = false := by simpa using hroot
        simp [hroot', ht1, hcr, chainForwardsSuccess, chainReleases, hrootA]

end ChainTrace

section ChainTraceFailure

variable {S F : Type}

/-- Resolving the head of a chain with Failure `v`, in full: the run returns with fuel
`2 * length + 1` or more; the last node takes state Failure and the mapped value and
keeps its success slot; every other node of the chain is left as it was when it is a
root and is released otherwise; nothing outside the chain is touched; and the trace gains
the forwarding calls followed by the releases. -/
theorem resolveFailure_chain_full (l : List (Nat × ChildImpl S F)) :
    ∀ (h : Heap S F) (a : Nat), PromiseChain h a l → ∀ (k : Nat) (v : F),
      ∃ (h' : Heap S F) (nl : PromiseImpl S F),
        PromiseImpl.resolveFailure (2 * l.length + 1 + k) a v h = .ok h' ∧
        h.read (chainLast a l) = some nl ∧
        h'.read (chainLast a l) =
          some ⟨none, PromiseImplBase.setState nl.state_ PromiseState.Failure,
            nl.success_, chainMapFailure l v, nl.dyn⟩ ∧
        (∀ b, b ≠ a → b ∉ l.map Prod.fst → h'.read b = h.read b) ∧
        (∀ x, (x = a ∨ x ∈ l.map Prod.fst) → x ≠ chainLast a l →
          h'.read x = if isRootAt h x = some true then h.read x else none) ∧
        h'.trace = h.trace ++ chainForwardsFailure a l ++ chainReleases h a l := by
  induction l with
  | nil =>
    intro h a hc k v
    obtain ⟨n, hr, hn⟩ := hc
    refine ⟨h.write a { n with
      state_ := PromiseImplBase.setState n.state_ PromiseState.Failure, failure_ := v },
      n, ?_, hr, ?_, ?_, ?_, ?_⟩
    · rw [show 2 * ([] : List (Nat × ChildImpl S F)).length + 1 + k = k + 1 by simp; omega]
      exact PromiseImpl.resolveFailure_leaf hr hn k v
    · simp only [chainLast, chainMapFailure]
      rw [Heap.read_write_self hr, hn]
    · intro b hb _
      rw [Heap.read_write_of_ne _ hb]
    · intro x hx hne
      simp only [chainLast, List.map_nil, List.not_mem_nil, or_false] at hx hne
      exact absurd hx hne
    · simp [chainForwardsFailure, chainReleases]
  | cons x rest ih =>
    obtain ⟨c, m⟩ := x
    intro h a hc k v
    have hlast := promiseChain_last_ne_head hc
    obtain ⟨⟨n, hr, hn⟩, hne, hnot, ⟨cn, hrc, hd⟩, hrest⟩ := hc
    have hrd : ∀ b, (h.note (Event.forwardFailure a c)).read b = h.read b :=
      fun b => Heap.read_note _ _ b
    have hrest' : PromiseChain (h.note (Event.forwardFailure a c)) c rest :=
      promiseChain_congr hrd hrest
    obtain ⟨h1, nl, e1, hl0, hl1, hf1, hx1, ht1⟩ := ih _ c hrest' k (m.map_failure_ v)
    have hra1 : h1.read a = some n := by
      rw [hf1 a (Ne.symm hne) hnot, Heap.read_note]; exact hr
    have hrc' : (h.note (Event.forwardFailure a c)).read c = some cn := by
      rw [Heap.read_note]; exact hrc
    have hrootA : isRootAt h a = some (PromiseImplBase.isRoot n.state_) := by
      simp [isRootAt, hr]
    refine ⟨if PromiseImplBase.isRoot n.state_ then h1 else h1.free a, nl, ?_, ?_, ?_, ?_,
      ?_, ?_⟩
    · rw [show 2 * ((c, m) :: rest).length + 1 + k = (2 * rest.length + 1 + k) + 1 + 1 by
        simp; omega]
      rw [PromiseImpl.resolveFailure_forward hr hn hne,
        PromiseImpl.opaqueResolveFailure_child hrc' hd, e1]
      simp only []
      exact PromiseImpl.destruct_of_read hra1
    · simpa [chainLast] using hl0
    · simp only [chainLast, chainMapFailure]
      by_cases hroot : PromiseImplBase.isRoot n.state_ = true
      · simpa [hroot] using hl1
      · have hroot' : PromiseImplBase.isRoot n.state_ = false := by simpa using hroot
        simp only [hroot', Bool.false_eq_true, if_false]
        rw [Heap.read_free, if_neg hlast]
        exact hl1
    · intro b hb hbl
      simp only [List.map_cons, List.mem_cons, not_or] at hbl
      have hb1 : h1.read b = h.read b := by
        rw [hf1 b hbl.1 hbl.2, Heap.read_note]
      by_cases hroot : PromiseImplBase.isRoot n.state_ = true
      · simpa [hroot] using hb1
      · have hroot' : PromiseImplBase.isRoot n.state_ = false := by simpa using hroot
        simp only [hroot', Bool.false_eq_true, if_false]
        rw [Heap.read_free, if_neg hb]
        exact hb1
    · intro x hx hxl
      simp only [chainLast] at hxl
      by_cases hxa : x = a
      · subst hxa
        rw [hrootA]
        by_cases hroot : PromiseImplBase.isRoot n.state_ = true
        · simp only [hroot, if_true]
          rw [hra1, hr]
        · have hroot' : PromiseImplBase.isRoot n.state_ = false := by simpa using hroot
          simp only [hroot', Bool.false_eq_true, if_false]
          rw [Heap.read_free, if_pos rfl]
          simp
      · have hx' : x = c ∨ x ∈ rest.map Prod.fst := by
          rcases hx with e | e
          · exact absurd e hxa
          · simpa using e
        have hx1' := hx1 x hx' hxl
        simp only [isRootAt, Heap.read_note] at hx1'
        by_cases hroot : PromiseImplBase.isRoot n.state_ = true
        · simp only [hroot, if_true]
          simpa [isRootAt] using hx1'
        · have hroot' : PromiseImplBase.isRoot n.state_ = false := by simpa using hroot
          simp only [hroot', Bool.false_eq_true, if_false]
          rw [Heap.read_free, if_neg hxa]
          simpa [isRootAt] using hx1'
    · have hcr := chainReleases_congr hrd c rest
      by_cases hroot : PromiseImplBase.isRoot n.state_ = true
      · simp [hroot, ht1, hcr, chainForwardsFailure, chainReleases, hrootA]
      · have hroot' : PromiseImplBase.isRoot n.state_ = false := by simpa using hroot
        simp [hroot', ht1, hcr, chainForwardsFailure, chainReleases, hrootA]

end ChainTraceFailure

/-! ## Counting releases -/

section Releases

variable {S F : Type}

theorem releasesBetween_of_trace {h h' : Heap S F} {evs : List Event}
    (ht : h'.trace = h.trace ++ evs) (x : Nat) :
    releasesBetween h h' x = evs.count (Event.release x) := by
  unfold releasesBetween
  rw [ht, List.drop_left]

theorem count_release_chainForwardsSuccess (a : Nat) (l : List (Nat × ChildImpl S F))
    (x : Nat) : (chainForwardsSuccess a l).count (Event.release x) = 0 := by
  induction l generalizing a with
  | nil => rfl
  | cons y rest ih =>
    obtain ⟨c, m⟩ := y
    simp [chainForwardsSuccess, List.count_cons, ih c]

theorem count_release_chainForwardsFailure (a : Nat) (l : List (Nat × ChildImpl S F))
    (x : Nat) : (chainForwardsFailure a l).count (Event.release x) = 0 := by
  induction l generalizing a with
  | nil => rfl
  | cons y rest ih =>
    obtain ⟨c, m⟩ := y
    simp [chainForwardsFailure, List.count_cons, ih c]

/-- In the releases of a chain, a node occurs once when it is a node of the chain other
than the last and does not carry the root flag, and does not occur otherwise. -/
theorem count_release_chainReleases (l : List (Nat × ChildImpl S F)) :
    ∀ (h : Heap S F) (a : Nat), PromiseChain h a l → ∀ x : Nat,
      (chainReleases h a l).count (Event.release x) =
        if (x = a ∨ x ∈ l.map Prod.fst) ∧ x ≠ chainLast a l ∧ isRootAt h x ≠ some true
        then 1 else 0 := by
  induction l with
  | nil =>
    intro h a _ x
    simp only [chainReleases, chainLast, List.count_nil]
    rw [if_neg]
    rintro ⟨e, ne, -⟩
    rcases e with e | e
    · exact ne e
    · simp at e
  | cons y rest ih =>
    obtain ⟨c, m⟩ := y
    intro h a hc x
    have hlast := promiseChain_last_ne_head hc
    obtain ⟨-, hne, hnot, -, hrest⟩ := hc
    have ih' := ih h c hrest x
    simp only [chainReleases, List.count_append, ih', chainLast, List.map_cons,
      List.mem_cons]
    by_cases hxa : x = a
    · subst hxa
      have h1 : ¬ (x = c ∨ x ∈ rest.map Prod.fst) := by
        intro e
        rcases e with e | e
        · exact hne e.symm
        · exact hnot e
      have h2 : x ≠ chainLast c rest := fun e => hlast e.symm
      rw [if_neg (fun e => h1 e.1)]
      by_cases hroot : isRootAt h x = some true
      · rw [if_pos hroot, if_neg (fun e => e.2.2 hroot)]
        rfl
      · rw [if_neg hroot, if_pos ⟨Or.inl rfl, h2, hroot⟩]
        simp
    · have h3 : (if isRootAt h a = some true then ([] : List Event)
          else [Event.release a]).count (Event.release x) = 0 := by
        split
        · rfl
        · simp [List.count_cons, hxa, Ne.symm hxa]
      rw [h3]
      simp only [hxa, false_or, Nat.add_zero]

end Releases

section Releases

variable {S F : Type}

/-- From the trace and the reads that a resolution along a chain leaves: every node of
the chain other than the last is released exactly once when it does not carry the root
flag and is neither released nor written when it does; the last node is not released. -/
theorem chain_release_summary {h h' : Heap S F} {a : Nat} {l : List (Nat × ChildImpl S F)}
    (hc : PromiseChain h a l) {fw : List Event}
    (hfw : ∀ x, fw.count (Event.release x) = 0)
    (ht : h'.trace = h.trace ++ fw ++ chainReleases h a l)
    (hx : ∀ x, (x = a ∨ x ∈ l.map Prod.fst) → x ≠ chainLast a l →
      h'.read x = if isRootAt h x = some true then h.read x else none)
    (hl : (h'.read (chainLast a l)).isSome = true) :
    ∀ x, (x = a ∨ x ∈ l.map Prod.fst) →
      (x ≠ chainLast a l →
        (isRootAt h x = some true → releasesBetween h h' x = 0 ∧ h'.read x = h.read x) ∧
        (isRootAt h x ≠ some true → releasesBetween h h' x = 1 ∧ h'.read x = none)) ∧
      (x = chainLast a l → releasesBetween h h' x = 0 ∧ (h'.read x).isSome = true) := by
  intro x hxm
  have hcount : releasesBetween h h' x =
      if (x = a ∨ x ∈ l.map Prod.fst) ∧ x ≠ chainLast a l ∧ isRootAt h x ≠ some true
      then 1 else 0 := by
    rw [List.append_assoc] at ht
    rw [releasesBetween_of_trace ht, List.count_append, hfw, Nat.zero_add]
    exact count_release_chainReleases l h a hc x
  refine ⟨fun hne => ⟨fun hroot => ?_, fun hroot => ?_⟩, fun hlast => ?_⟩
  · refine ⟨?_, ?_⟩
    · rw [hcount, if_neg (fun e => e.2.2 hroot)]
    · rw [hx x hxm hne, if_pos hroot]
  · refine ⟨?_, ?_⟩
    · rw [hcount, if_pos ⟨hxm, hne, hroot⟩]
    · rw [hx x hxm hne, if_neg hroot]
  · refine ⟨?_, ?_⟩
    · rw [hcount, if_neg (fun e => e.2.1 hlast)]
    · rw [hlast]; exact hl

end Releases



section Claims

variable {S F : Type}

/-- C18: resolving a pending root that has an owned successor records nothing on the root
itself.  For a root at the head of a chain with at least one link, `resolveSuccess(X)` and
`resolveFailure(E)` return and leave the root's node exactly as it was: its state is
still Pending, its success and failure slots and its child link are unchanged.  The
resolution is recorded at the end of the chain, which is the child itself when the child
has no continuation. -/
theorem C18_forwarding_root_records_nothing (h : Heap S F) (a : Nat) (n : PromiseImpl S F)
    (c : Nat) (m : ChildImpl S F) (rest : List (Nat × ChildImpl S F))
    (hr : h.read a = some n) (hroot : PromiseImplBase.isRoot n.state_ = true)
    (hp : PromiseImplBase.isPending n.state_ = true)
    (hc : PromiseChain h a ((c, m) :: rest)) (k : Nat) (X : S) (E : F) :
    (∃ h' : Heap S F,
      PromiseImpl.resolveSuccess (2 * ((c, m) :: rest).length + 1 + k) a X h = .ok h' ∧
      h'.read a = some n ∧
      stateAt h' a = some PromiseState.Pending ∧
      successAt h' a = some n.success_ ∧
      failureAt h' a = some n.failure_ ∧
      childAt h' a = some (some c) ∧
      stateAt h' (chainLast c rest) = some PromiseState.Success ∧
      successAt h' (chainLast c rest) = some (chainMapSuccess rest (m.map_success_ X))) ∧
    (∃ h' : Heap S F,
      PromiseImpl.resolveFailure (2 * ((c, m) :: rest).length + 1 + k) a E h = .ok h' ∧
      h'.read a = some n ∧
      stateAt h' a = some PromiseState.Pending ∧
      successAt h' a = some n.success_ ∧
      failureAt h' a = some n.failure_ ∧
      childAt h' a = some (some c) ∧
      stateAt h' (chainLast c rest) = some PromiseState.Failure ∧
      failureAt h' (chainLast c rest) = some (chainMapFailure rest (m.map_failure_ E))) := by
  have hlast := promiseChain_last_ne_head hc
  have hchild : n.child_ = some c := by
    obtain ⟨⟨n', hr', hn'⟩, -⟩ := hc
    rw [hr] at hr'
    injection hr' with hr'
    rw [hr']; exact hn'
  have hpend : PromiseImplBase.getState n.state_ = PromiseState.Pending := by
    simpa [PromiseImplBase.isPending] using hp
  have hrootA : isRootAt h a = some true := by simp [isRootAt, hr, hroot]
  constructor
  · obtain ⟨h', nl, e, -, hl1, -, hx, -⟩ :=
      resolveSuccess_chain_full ((c, m) :: rest) h a hc k X
    have ha : h'.read a = some n := by
      rw [hx a (Or.inl rfl) (fun e => hlast e.symm), if_pos hrootA]; exact hr
    simp only [chainLast, chainMapSuccess] at hl1
    refine ⟨h', e, ha, ?_, ?_, ?_, ?_, ?_, ?_⟩
    · simp [stateAt, ha, hpend]
    · simp [successAt, ha]
    · simp [failureAt, ha]
    · simp [childAt, ha, hchild]
    · simp [stateAt, hl1, PromiseImplBase.getState_setState_Success]
    · simp [successAt, hl1]
  · obtain ⟨h', nl, e, -, hl1, -, hx, -⟩ :=
      resolveFailure_chain_full ((c, m) :: rest) h a hc k E
    have ha : h'.read a = some n := by
      rw [hx a (Or.inl rfl) (fun e => hlast e.symm), if_pos hrootA]; exact hr
    simp only [chainLast, chainMapFailure] at hl1
    refine ⟨h', e, ha, ?_, ?_, ?_, ?_, ?_, ?_⟩
    · simp [stateAt, ha, hpend]
    · simp [successAt, ha]
    · simp [failureAt, ha]
    · simp [childAt, ha, hchild]
    · simp [stateAt, hl1, PromiseImplBase.getState_setState_Failure]
    · simp [failureAt, hl1]

end Claims

section Claims

/-- C18 at the pending root at address 0 of `attachedRootHeap`, whose child at address 1
carries identity mappers, resolved with Success 7 or Failure 9. -/
theorem C18_forwarding_root_records_nothing_witness :
    attachedRootHeap.read 0 = some attachedRootNode ∧
    PromiseImplBase.isRoot attachedRootNode.state_ = true ∧
    PromiseImplBase.isPending attachedRootNode.state_ = true ∧
    PromiseChain attachedRootHeap 0 [(1, ⟨fun s => s, fun e => e⟩)] ∧
    (∃ h' : Heap Nat Nat,
      PromiseImpl.resolveSuccess
        (2 * [((1 : Nat), (⟨fun s => s, fun e => e⟩ : ChildImpl Nat Nat))].length + 1 + 0)
        0 7 attachedRootHeap = .ok h' ∧
      h'.read 0 = some attachedRootNode ∧
      stateAt h' 0 = some PromiseState.Pending ∧
      successAt h' 0 = some attachedRootNode.success_ ∧
      failureAt h' 0 = some attachedRootNode.failure_ ∧
      childAt h' 0 = some (some 1) ∧
      stateAt h' (chainLast 1 ([] : List (Nat × ChildImpl Nat Nat))) =
        some PromiseState.Success ∧
      successAt h' (chainLast 1 ([] : List (Nat × ChildImpl Nat Nat))) =
        some (chainMapSuccess ([] : List (Nat × ChildImpl Nat Nat)) 7)) ∧
    (∃ h' : Heap Nat Nat,
      PromiseImpl.resolveFailure
        (2 * [((1 : Nat), (⟨fun s => s, fun e => e⟩ : ChildImpl Nat Nat))].length + 1 + 0)
        0 9 attachedRootHeap = .ok h' ∧
      h'.read 0 = some attachedRootNode ∧
      stateAt h' 0 = some PromiseState.Pending ∧
      successAt h' 0 = some attachedRootNode.success_ ∧
      failureAt h' 0 = some attachedRootNode.failure_ ∧
      childAt h' 0 = some (some 1) ∧
      stateAt h' (chainLast 1 ([] : List (Nat × ChildImpl Nat Nat))) =
        some PromiseState.Failure ∧
      failureAt h' (chainLast 1 ([] : List (Nat × ChildImpl Nat Nat))) =
        some (chainMapFailure ([] : List (Nat × ChildImpl Nat Nat)) 9)) :=
  have hc : PromiseChain attachedRootHeap 0 [(1, ⟨fun s => s, fun e => e⟩)] :=
    ⟨⟨_, rfl, rfl⟩, by decide, by decide, ⟨_, rfl, rfl⟩, ⟨_, rfl, rfl⟩⟩
  ⟨rfl, by decide, by decide, hc,
    C18_forwarding_root_records_nothing attachedRootHeap 0 attachedRootNode 1
      ⟨fun s => s, fun e => e⟩ [] rfl (by decide) (by decide) hc 0 7 9⟩

end Claims

/-! ## A whole chain, built and resolved -/

section Channel

variable {S F : Type}

theorem chainMapSuccess_eq_foldl (l : List (Nat × ChildImpl S F)) :
    ∀ (ms : List ((S → S) × (F → F))),
      l.map Prod.snd = ms.map (fun m => (⟨m.1, m.2⟩ : ChildImpl S F)) → ∀ v : S,
      chainMapSuccess l v = ms.foldl (fun v m => m.1 v) v := by
  induction l with
  | nil =>
    intro ms hm v
    cases ms with
    | nil => rfl
    | cons m rest => simp at hm
  | cons x rest ih =>
    obtain ⟨c, cm⟩ := x
    intro ms hm v
    cases ms with
    | nil => simp at hm
    | cons m ms' =>
      simp only [List.map_cons, List.cons.injEq] at hm
      simp only [chainMapSuccess, List.foldl_cons]
      rw [hm.1]
      exact ih ms' hm.2 _

theorem chainMapFailure_eq_foldl (l : List (Nat × ChildImpl S F)) :
    ∀ (ms : List ((S → S) × (F → F))),
      l.map Prod.snd = ms.map (fun m => (⟨m.1, m.2⟩ : ChildImpl S F)) → ∀ v : F,
      chainMapFailure l v = ms.foldl (fun v m => m.2 v) v := by
  induction l with
  | nil =>
    intro ms hm v
    cases ms with
    | nil => rfl
    | cons m rest => simp at hm
  | cons x rest ih =>
    obtain ⟨c, cm⟩ := x
    intro ms hm v
    cases ms with
    | nil => simp at hm
    | cons m ms' =>
      simp only [List.map_cons, List.cons.injEq] at hm
      simp only [chainMapFailure, List.foldl_cons]
      rw [hm.1]
      exact ih ms' hm.2 _

theorem countP_chainForwardsSuccess (a : Nat) (l : List (Nat × ChildImpl S F)) :
    (chainForwardsSuccess a l).countP Event.isForwardSuccess = l.length ∧
    (chainForwardsSuccess a l).countP Event.isForwardFailure = 0 := by
  induction l generalizing a with
  | nil => exact ⟨rfl, rfl⟩
  | cons y rest ih =>
    obtain ⟨c, m⟩ := y
    simp [chainForwardsSuccess, List.countP_cons, Event.isForwardSuccess,
      Event.isForwardFailure, (ih c).1, (ih c).2]

theorem countP_chainForwardsFailure (a : Nat) (l : List (Nat × ChildImpl S F)) :
    (chainForwardsFailure a l).countP Event.isForwardFailure = l.length ∧
    (chainForwardsFailure a l).countP Event.isForwardSuccess = 0 := by
  induction l generalizing a with
  | nil => exact ⟨rfl, rfl⟩
  | cons y rest ih =>
    obtain ⟨c, m⟩ := y
    simp [chainForwardsFailure, List.countP_cons, Event.isForwardSuccess,
      Event.isForwardFailure, (ih c).1, (ih c).2]

theorem countP_chainReleases (h : Heap S F) (a : Nat) (l : List (Nat × ChildImpl S F)) :
    (chainReleases h a l).countP Event.isForwardSuccess = 0 ∧
    (chainReleases h a l).countP Event.isForwardFailure = 0 := by
  induction l generalizing a with
  | nil => exact ⟨rfl, rfl⟩
  | cons y rest ih =>
    obtain ⟨c, m⟩ := y
    simp only [chainReleases, List.countP_append, (ih c).1, (ih c).2, Nat.zero_add]
    split <;> simp [List.countP_cons, Event.isForwardSuccess, Event.isForwardFailure]

end Channel

section Build

variable {S F : Type} [Inhabited S] [Inhabited F]

/-- Attaching to a pending node whose value slots hold the default values records no event,
and the last node of the resulting chain holds the default values in both slots. -/
theorem attachAll_pending_last (ms : List ((S → S) × (F → F))) :
    ∀ (p : Promise) (h : Heap S F) (n : PromiseImpl S F), h.read p.impl_ = some n →
      PromiseImplBase.isPending n.state_ = true → n.success_ = default →
      n.failure_ = default → ∀ fuel : Nat,
      ∃ (last : Promise) (h1 : Heap S F) (nl : PromiseImpl S F),
        attachAll fuel ms p h = .ok (last, h1) ∧
        h1.read last.impl_ = some nl ∧
        nl.success_ = default ∧ nl.failure_ = default ∧
        h1.trace = h.trace := by
  induction ms with
  | nil =>
    intro p h n hr _ hs hf fuel
    exact ⟨p, h, n, rfl, hr, hs, hf, rfl⟩
  | cons m rest ih =>
    intro p h n hr hp _ _ fuel
    obtain ⟨h', e', hc', -, -, -, ht'⟩ := PromiseImpl.then_pending_spec hr hp fuel m.1 m.2
    have hq : (h'.alloc (PromiseImpl.new : PromiseImpl S F)).2.read h.cells.length =
        some (PromiseImpl.newChild m.1 m.2) := Promise.read_alloc_of_read hc' _
    obtain ⟨last, h1, nl, e1, hr1, hs1, hf1, ht1⟩ :=
      ih { impl_ := h.cells.length, root_impl_ := h'.cells.length }
        (h'.alloc PromiseImpl.new).2 (PromiseImpl.newChild m.1 m.2) hq
        (show PromiseImplBase.isPending PromiseState.Pending = true by decide) rfl rfl fuel
    refine ⟨last, h1, nl, ?_, hr1, hs1, hf1, ?_⟩
    · simp only [attachAll]
      rw [Promise.then_of_impl e']
      exact e1
    · rw [ht1, Heap.trace_alloc, ht']

end Build

section Claims

variable {S F : Type} [Inhabited S] [Inhabited F]

/-- C15: resolution runs through the whole chain and stays in its channel.  For every
list of mapper pairs `(f₁, g₁), …, (fₙ, gₙ)` attached in order starting from a pending
root, `resolveSuccess(X)` at the root returns (fuel `2 * n + 1` or more) with the last
node in state Success holding `fₙ (… (f₁ X))`; its failure slot still holds the default
value, one success forwarding call was made per link and no failure forwarding call, so
no `gᵢ` was applied.  Symmetrically `resolveFailure(E)` returns with the last node in
state Failure holding `gₙ (… (g₁ E))`, with no success forwarding call. -/
theorem C15_resolution_stays_in_channel (ms : List ((S → S) × (F → F))) (k : Nat) (X : S)
    (E : F) (h : Heap S F) :
    (∃ (last : Promise) (h2 : Heap S F),
      chainThenResolveSuccess (2 * ms.length + 1 + k) ms X h = .ok (last, h2) ∧
      stateAt h2 last.impl_ = some PromiseState.Success ∧
      successAt h2 last.impl_ = some (ms.foldl (fun v m => m.1 v) X) ∧
      failureAt h2 last.impl_ = some default ∧
      (h2.trace.drop h.trace.length).countP Event.isForwardSuccess = ms.length ∧
      (h2.trace.drop h.trace.length).countP Event.isForwardFailure = 0) ∧
    (∃ (last : Promise) (h2 : Heap S F),
      chainThenResolveFailure (2 * ms.length + 1 + k) ms E h = .ok (last, h2) ∧
      stateAt h2 last.impl_ = some PromiseState.Failure ∧
      failureAt h2 last.impl_ = some (ms.foldl (fun v m => m.2 v) E) ∧
      successAt h2 last.impl_ = some default ∧
      (h2.trace.drop h.trace.length).countP Event.isForwardFailure = ms.length ∧
      (h2.trace.drop h.trace.length).countP Event.isForwardSuccess = 0) := by
  have hr0 : (RootPromise.new h).2.read (RootPromise.new h).1.impl_ =
      some (RootPromise.rootNode : PromiseImpl S F) := by
    rw [RootPromise.read_new]; simp [RootPromise.new_fst]
  have hpend : PromiseImplBase.isPending
      (RootPromise.rootNode : PromiseImpl S F).state_ = true :=
    show PromiseImplBase.isPending
      (PromiseImplBase.setIsRoot PromiseState.Pending) = true by decide
  obtain ⟨last, h1, l, e1, hch, hlast, hmap, -, -, -, -⟩ :=
    attachAll_pending_chain ms (RootPromise.new h).1 (RootPromise.new h).2
      RootPromise.rootNode hr0 rfl hpend (2 * ms.length + 1 + k)
  obtain ⟨last', h1', nl, e1', hr1, hs1, hf1, ht1⟩ :=
    attachAll_pending_last ms (RootPromise.new h).1 (RootPromise.new h).2
      RootPromise.rootNode hr0 hpend rfl rfl (2 * ms.length + 1 + k)
  rw [e1] at e1'
  injection e1' with e1'
  obtain ⟨el, eh⟩ := Prod.mk.inj e1'
  subst el
  subst eh
  rw [RootPromise.trace_new] at ht1
  have hlen : l.length = ms.length := by
    have := congrArg List.length hmap
    simpa using this
  rw [hlast] at hr1
  constructor
  · obtain ⟨h2, nl2, e2, hl0, hl1, -, -, ht2⟩ := resolveSuccess_chain_full l h1 _ hch k X
    rw [hlen] at e2
    rw [hr1] at hl0
    injection hl0 with hl0
    subst hl0
    have hdrop : h2.trace.drop h.trace.length =
        chainForwardsSuccess (RootPromise.new h).1.impl_ l ++
          chainReleases h1 (RootPromise.new h).1.impl_ l := by
      rw [ht2, ht1, List.append_assoc, List.drop_left]
    refine ⟨last, h2, ?_, ?_, ?_, ?_, ?_, ?_⟩
    · unfold chainThenResolveSuccess
      simp only []
      rw [e1]
      simp only [Promise.resolveSuccess]
      rw [e2]
    · rw [hlast]
      simp [stateAt, hl1, PromiseImplBase.getState_setState_Success]
    · rw [hlast]
      simp [successAt, hl1, chainMapSuccess_eq_foldl l ms hmap]
    · rw [hlast]
      simp [failureAt, hl1, hf1]
    · rw [hdrop, List.countP_append, (countP_chainForwardsSuccess _ l).1,
        (countP_chainReleases h1 _ l).1, hlen]
      rfl
    · rw [hdrop, List.countP_append, (countP_chainForwardsSuccess _ l).2,
        (countP_chainReleases h1 _ l).2]
  · obtain ⟨h2, nl2, e2, hl0, hl1, -, -, ht2⟩ := resolveFailure_chain_full l h1 _ hch k E
    rw [hlen] at e2
    rw [hr1] at hl0
    injection hl0 with hl0
    subst hl0
    have hdrop : h2.trace.drop h.trace.length =
        chainForwardsFailure (RootPromise.new h).1.impl_ l ++
          chainReleases h1 (RootPromise.new h).1.impl_ l := by
      rw [ht2, ht1, List.append_assoc, List.drop_left]
    refine ⟨last, h2, ?_, ?_, ?_, ?_, ?_, ?_⟩
    · unfold chainThenResolveFailure
      simp only []
      rw [e1]
      simp only [Promise.resolveFailure]
      rw [e2]
    · rw [hlast]
      simp [stateAt, hl1, PromiseImplBase.getState_setState_Failure]
    · rw [hlast]
      simp [failureAt, hl1, chainMapFailure_eq_foldl l ms hmap]
    · rw [hlast]
      simp [successAt, hl1, hs1]
    · rw [hdrop, List.countP_append, (countP_chainForwardsFailure _ l).1,
        (countP_chainReleases h1 _ l).2, hlen]
      rfl
    · rw [hdrop, List.countP_append, (countP_chainForwardsFailure _ l).2,
        (countP_chainReleases h1 _ l).1]

end Claims

/-! ## Resolution along a chain closed with `thenTerminate` -/

section TerminalChains

variable {S F : Type}

theorem terminalChain_congr {h h' : Heap S F} (hrd : ∀ b, h'.read b = h.read b) :
    ∀ {a : Nat} {l : List (Nat × ChildImpl S F)},
      TerminalChain h a l → TerminalChain h' a l := by
  intro a l
  induction l generalizing a with
  | nil =>
    intro hc
    simpa [TerminalChain, hrd] using hc
  | cons x rest ih =>
    obtain ⟨c, m⟩ := x
    intro hc
    obtain ⟨h1, h2, h3, h4, h5⟩ := hc
    exact ⟨by simpa [hrd] using h1, h2, h3, by simpa [hrd] using h4, ih h5⟩

theorem chainReleasesAll_congr {h h' : Heap S F} (hrd : ∀ b, h'.read b = h.read b) :
    ∀ (a : Nat) (l : List (Nat × ChildImpl S F)),
      chainReleasesAll h' a l = chainReleasesAll h a l := by
  intro a l
  induction l generalizing a with
  | nil => simp only [chainReleasesAll, isRootAt, hrd]
  | cons x rest ih =>
    obtain ⟨c, m⟩ := x
    simp only [chainReleasesAll, ih c, isRootAt, hrd]

/-- Resolving the head of a chain closed with `thenTerminate()` with Success `v`: the run
returns with fuel `2 * length + 1` or more; no node stores anything; every node of the
chain, the last included, is left as it was when it is a root and is released otherwise;
nothing outside the chain is touched; and the trace gains the forwarding calls followed
by the releases. -/
theorem resolveSuccess_terminalChain_full (l : List (Nat × ChildImpl S F)) :
    ∀ (h : Heap S F) (a : Nat), TerminalChain h a l → ∀ (k : Nat) (v : S),
      ∃ h' : Heap S F,
        PromiseImpl.resolveSuccess (2 * l.length + 1 + k) a v h = .ok h' ∧
        (∀ b, b ≠ a → b ∉ l.map Prod.fst → h'.read b = h.read b) ∧
        (∀ x, (x = a ∨ x ∈ l.map Prod.fst) →
          h'.read x = if isRootAt h x = some true then h.read x else none) ∧
        h'.trace = h.trace ++ chainForwardsSuccess a l ++ chainReleasesAll h a l := by
  induction l with
  | nil =>
    intro h a hc k v
    obtain ⟨n, hr, hn⟩ := hc
    have hrootA : isRootAt h a = some (PromiseImplBase.isRoot n.state_) := by
      simp [isRootAt, hr]
    refine ⟨if PromiseImplBase.isRoot n.state_ then h else h.free a, ?_, ?_, ?_, ?_⟩
    · rw [show 2 * ([] : List (Nat × ChildImpl S F)).length + 1 + k = k + 1 by simp; omega]
      exact PromiseImpl.resolveSuccess_terminal hr hn k v
    · intro b hb _
      by_cases hroot : PromiseImplBase.isRoot n.state_ = true
      · simp [hroot]
      · have hroot' : PromiseImplBase.isRoot n.state_ = false := by simpa using hroot
        simp only [hroot', Bool.false_eq_true, if_false]
        rw [Heap.read_free, if_neg hb]
    · intro x hx
      simp only [List.map_nil, List.not_mem_nil, or_false] at hx
      subst hx
      rw [hrootA]
      by_cases hroot : PromiseImplBase.isRoot n.state_ = true
      · simp [hroot]
      · have hroot' : PromiseImplBase.isRoot n.state_ = false := by simpa using hroot
        simp only [hroot', Bool.false_eq_true, if_false]
        rw [Heap.read_free, if_pos rfl]
        simp
    · by_cases hroot : PromiseImplBase.isRoot n.state_ = true
      · simp [hroot, chainForwardsSuccess, chainReleasesAll, hrootA]
      · have hroot' : PromiseImplBase.isRoot n.state_ = false := by simpa using hroot
        simp [hroot', chainForwardsSuccess, chainReleasesAll, hrootA]
  | cons x rest ih =>
    obtain ⟨c, m⟩ := x
    intro h a hc k v
    obtain ⟨⟨n, hr, hn⟩, hne, hnot, ⟨cn, hrc, hd⟩, hrest⟩ := hc
    have hrd : ∀ b, (h.note (Event.forwardSuccess a c)).read b = h.read b :=
      fun b => Heap.read_note _ _ b
    have hrest' : TerminalChain (h.note (Event.forwardSuccess a c)) c rest :=
      terminalChain_congr hrd hrest
    obtain ⟨h1, e1, hf1, hx1, ht1⟩ := ih _ c hrest' k (m.map_success_ v)
    have hra1 : h1.read a = some n := by
      rw [hf1 a (Ne.symm hne) hnot, Heap.read_note]; exact hr
    have hrc' : (h.note (Event.forwardSuccess a c)).read c = some cn := by
      rw [Heap.read_note]; exact hrc
    have hrootA : isRootAt h a = some (PromiseImplBase.isRoot n.state_) := by
      simp [isRootAt, hr]
    refine ⟨if PromiseImplBase.isRoot n.state_ then h1 else h1.free a, ?_, ?_, ?_, ?_⟩
    · rw [show 2 * ((c, m) :: rest).length + 1 + k = (2 * rest.length + 1 + k) + 1 + 1 by
        simp; omega]
      rw [PromiseImpl.resolveSuccess_forward hr hn hne,
        PromiseImpl.opaqueResolveSuccess_child hrc' hd, e1]
      simp only []
      exact PromiseImpl.destruct_of_read hra1
    · intro b hb hbl
      simp only [List.map_cons, List.mem_cons, not_or] at hbl
      have hb1 : h1.read b = h.read b := by
        rw [hf1 b hbl.1 hbl.2, Heap.read_note]
      by_cases hroot : PromiseImplBase.isRoot n.state_ = true
      · simpa [hroot] using hb1
      · have hroot' : PromiseImplBase.isRoot n.state_ = false := by simpa using hroot
        simp only [hroot', Bool.false_eq_true, if_false]
        rw [Heap.read_free, if_neg hb]
        exact hb1
    · intro x hx
      by_cases hxa : x = a
      · subst hxa
        rw [hrootA]
        by_cases hroot : PromiseImplBase.isRoot n.state_ = true
        · simp only [hroot, if_true]
          rw [hra1, hr]
        · have hroot' : PromiseImplBase.isRoot n.state_ = false := by simpa using hroot
          simp only [hroot', Bool.false_eq_true, if_false]
          rw [Heap.read_free, if_pos rfl]
          simp
      · have hx' : x = c ∨ x ∈ rest.map Prod.fst := by
          rcases hx with e | e
          · exact absurd e hxa
          · simpa using e
        have hx1' := hx1 x hx'
        simp only [isRootAt, Heap.read_note] at hx1'
        by_cases hroot : PromiseImplBase.isRoot n.state_ = true
        · simp only [hroot, if_true]
          simpa [isRootAt] using hx1'
        · have hroot' : PromiseImplBase.isRoot n.state_ = false := by simpa using hroot
          simp only [hroot', Bool.false_eq_true, if_false]
          rw [Heap.read_free, if_neg hxa]
          simpa [isRootAt] using hx1'
    · have hcr := chainReleasesAll_congr hrd c rest
      by_cases hroot : PromiseImplBase.isRoot n.state_ = true
      · simp [hroot, ht1, hcr, chainForwardsSuccess, chainReleasesAll, hrootA]
      · have hroot' : PromiseImplBase.isRoot n.state_ = false := by simpa using hroot
        simp [hroot', ht1, hcr, chainForwardsSuccess, chainReleasesAll, hrootA]

end TerminalChains

section TerminalChainsFailure

variable {S F : Type}

/-- Resolving the head of a chain closed with `thenTerminate()` with Failure `v`: the run
returns with fuel `2 * length + 1` or more; no node stores anything; every node of the
chain, the last included, is left as it was when it is a root and is released otherwise;
nothing outside the chain is touched; and the trace gains the forwarding calls followed
by the releases. -/
theorem resolveFailure_terminalChain_full (l : List (Nat × ChildImpl S F)) :
    ∀ (h : Heap S F) (a : Nat), TerminalChain h a l → ∀ (k : Nat) (v : F),
      ∃ h' : Heap S F,
        PromiseImpl.resolveFailure (2 * l.length + 1 + k) a v h = .ok h' ∧
        (∀ b, b ≠ a → b ∉ l.map Prod.fst → h'.read b = h.read b) ∧
        (∀ x, (x = a ∨ x ∈ l.map Prod.fst) →
          h'.read x = if isRootAt h x = some true then h.read x else none) ∧
        h'.trace = h.trace ++ chainForwardsFailure a l ++ chainReleasesAll h a l := by
  induction l with
  | nil =>
    intro h a hc k v
    obtain ⟨n, hr, hn⟩ := hc
    have hrootA : isRootAt h a = some (PromiseImplBase.isRoot n.state_) := by
      simp [isRootAt, hr]
    refine ⟨if PromiseImplBase.isRoot n.state_ then h else h.free a, ?_, ?_, ?_, ?_⟩
    · rw [show 2 * ([] : List (Nat × ChildImpl S F)).length + 1 + k = k + 1 by simp; omega]
      exact PromiseImpl.resolveFailure_terminal hr hn k v
    · intro b hb _
      by_cases hroot : PromiseImplBase.isRoot n.state_ = true
      · simp [hroot]
      · have hroot' : PromiseImplBase.isRoot n.state_ = false := by simpa using hroot
        simp only [hroot', Bool.false_eq_true, if_false]
        rw [Heap.read_free, if_neg hb]
    · intro x hx
      simp only [List.map_nil, List.not_mem_nil, or_false] at hx
      subst hx
      rw [hrootA]
      by_cases hroot : PromiseImplBase.isRoot n.state_ = true
      · simp [hroot]
      · have hroot' : PromiseImplBase.isRoot n.state_ = false := by simpa using hroot
        simp only [hroot', Bool.false_eq_true, if_false]
        rw [Heap.read_free, if_pos rfl]
        simp
    · by_cases hroot : PromiseImplBase.isRoot n.state_ = true
      · simp [hroot, chainForwardsFailure, chainReleasesAll, hrootA]
      · have hroot' : PromiseImplBase.isRoot n.state_ = false := by simpa using hroot
        simp [hroot', chainForwardsFailure, chainReleasesAll, hrootA]
  | cons x rest ih =>
    obtain ⟨c, m⟩ := x
    intro h a hc k v
    obtain ⟨⟨n, hr, hn⟩, hne, hnot, ⟨cn, hrc, hd⟩, hrest⟩ := hc
    have hrd : ∀ b, (h.note (Event.forwardFailure a c)).read b = h.read b :=
      fun b => Heap.read_note _ _ b
    have hrest' : TerminalChain (h.note (Event.forwardFailure a c)) c rest :=
      terminalChain_congr hrd hrest
    obtain ⟨h1, e1, hf1, hx1, ht1⟩ := ih _ c hrest' k (m.map_failure_ v)
    have hra1 : h1.read a = some n := by
      rw [hf1 a (Ne.symm hne) hnot, Heap.read_note]; exact hr
    have hrc' : (h.note (Event.forwardFailure a c)).read c = some cn := by
      rw [Heap.read_note]; exact hrc
    have hrootA : isRootAt h a = some (PromiseImplBase.isRoot n.state_) := by
      simp [isRootAt, hr]
    refine ⟨if PromiseImplBase.isRoot n.state_ then h1 else h1.free a, ?_, ?_, ?_, ?_⟩
    · rw [show 2 * ((c, m) :: rest).length + 1 + k = (2 * rest.length + 1 + k) + 1 + 1 by
        simp; omega]
      rw [PromiseImpl.resolveFailure_forward hr hn hne,
        PromiseImpl.opaqueResolveFailure_child hrc' hd, e1]
      simp only []
      exact PromiseImpl.destruct_of_read hra1
    · intro b hb hbl
      simp only [List.map_cons, List.mem_cons, not_or] at hbl
      have hb1 : h1.read b = h.read b := by
        rw [hf1 b hbl.1 hbl.2, Heap.read_note]
      by_cases hroot : PromiseImplBase.isRoot n.state_ = true
      · simpa [hroot] using hb1
      · have hroot' : PromiseImplBase.isRoot n.state_ = false := by simpa using hroot
        simp only [hroot', Bool.false_eq_true, if_false]
        rw [Heap.read_free, if_neg hb]
        exact hb1
    · intro x hx
      by_cases hxa : x = a
      · subst hxa
        rw [hrootA]
        by_cases hroot : PromiseImplBase.isRoot n.state_ = true
        · simp only [hroot, if_true]
          rw [hra1, hr]
        · have hroot' : PromiseImplBase.isRoot n.state_ = false := by simpa using hroot
          simp only [hroot', Bool.false_eq_true, if_false]
          rw [Heap.read_free, if_pos rfl]
          simp
      · have hx' : x = c ∨ x ∈ rest.map Prod.fst := by
          rcases hx with e | e
          · exact absurd e hxa
          · simpa using e
        have hx1' := hx1 x hx'
        simp only [isRootAt, Heap.read_note] at hx1'
        by_cases hroot : PromiseImplBase.isRoot n.state_ = true
        · simp only [hroot, if_true]
          simpa [isRootAt] using hx1'
        · have hroot' : PromiseImplBase.isRoot n.state_ = false := by simpa using hroot
          simp only [hroot', Bool.false_eq_true, if_false]
          rw [Heap.read_free, if_neg hxa]
          simpa [isRootAt] using hx1'
    · have hcr := chainReleasesAll_congr hrd c rest
      by_cases hroot : PromiseImplBase.isRoot n.state_ = true
      · simp [hroot, ht1, hcr, chainForwardsFailure, chainReleasesAll, hrootA]
      · have hroot' : PromiseImplBase.isRoot n.state_ = false := by simpa using hroot
        simp [hroot', ht1, hcr, chainForwardsFailure, chainReleasesAll, hrootA]

end TerminalChainsFailure

section TerminalReleases

variable {S F : Type}

/-- In the releases of a chain closed with `thenTerminate()`, a node occurs once when it
is a node of the chain and does not carry the root flag, and does not occur otherwise. -/
theorem count_release_chainReleasesAll (l : List (Nat × ChildImpl S F)) :
    ∀ (h : Heap S F) (a : Nat), TerminalChain h a l → ∀ x : Nat,
      (chainReleasesAll h a l).count (Event.release x) =
        if (x = a ∨ x ∈ l.map Prod.fst) ∧ isRootAt h x ≠ some true then 1 else 0 := by
  induction l with
  | nil =>
    intro h a _ x
    simp only [chainReleasesAll, List.map_nil, List.not_mem_nil, or_false]
    by_cases hxa : x = a
    · subst hxa
      by_cases hroot : isRootAt h x = some true
      · rw [if_pos hroot, if_neg (fun e => e.2 hroot)]
        rfl
      · rw [if_neg hroot, if_pos ⟨rfl, hroot⟩]
        simp
    · have h3 : (if isRootAt h a = some true then ([] : List Event)
          else [Event.release a]).count (Event.release x) = 0 := by
        split
        · rfl
        · simp [List.count_cons, hxa, Ne.symm hxa]
      rw [h3]
      exact (if_neg (fun e => hxa e.1)).symm
  | cons y rest ih =>
    obtain ⟨c, m⟩ := y
    intro h a hc x
    obtain ⟨-, hne, hnot, -, hrest⟩ := hc
    have ih' := ih h c hrest x
    simp only [chainReleasesAll, List.count_append, ih', List.map_cons, List.mem_cons]
    by_cases hxa : x = a
    · subst hxa
      have h1 : ¬ (x = c ∨ x ∈ rest.map Prod.fst) := by
        intro e
        rcases e with e | e
        · exact hne e.symm
        · exact hnot e
      rw [if_neg (fun e => h1 e.1)]
      by_cases hroot : isRootAt h x = some true
      · rw [if_pos hroot, if_neg (fun e => e.2 hroot)]
        rfl
      · rw [if_neg hroot, if_pos ⟨Or.inl rfl, hroot⟩]
        simp
    · have h3 : (if isRootAt h a = some true then ([] : List Event)
          else [Event.release a]).count (Event.release x) = 0 := by
        split
        · rfl
        · simp [List.count_cons, hxa, Ne.symm hxa]
      rw [h3]
      simp only [hxa, false_or, Nat.add_zero]

/-- From the trace and the reads that a resolution along a chain closed with
`thenTerminate()` leaves: every node of the chain, the last included, is released exactly
once when it does not carry the root flag and is neither released nor written when it
does. -/
theorem terminalChain_release_summary {h h' : Heap S F} {a : Nat}
    {l : List (Nat × ChildImpl S F)} (hc : TerminalChain h a l) {fw : List Event}
    (hfw : ∀ x, fw.count (Event.release x) = 0)
    (ht : h'.trace = h.trace ++ fw ++ chainReleasesAll h a l)
    (hx : ∀ x, (x = a ∨ x ∈ l.map Prod.fst) →
      h'.read x = if isRootAt h x = some true then h.read x else none) :
    ∀ x, (x = a ∨ x ∈ l.map Prod.fst) →
      (isRootAt h x = some true → releasesBetween h h' x = 0 ∧ h'.read x = h.read x) ∧
      (isRootAt h x ≠ some true → releasesBetween h h' x = 1 ∧ h'.read x = none) := by
  intro x hxm
  have hcount : releasesBetween h h' x =
      if (x = a ∨ x ∈ l.map Prod.fst) ∧ isRootAt h x ≠ some true then 1 else 0 := by
    rw [List.append_assoc] at ht
    rw [releasesBetween_of_trace ht, List.count_append, hfw, Nat.zero_add]
    exact count_release_chainReleasesAll l h a hc x
  refine ⟨fun hroot => ⟨?_, ?_⟩, fun hroot => ⟨?_, ?_⟩⟩
  · rw [hcount, if_neg (fun e => e.2 hroot)]
  · rw [hx x hxm, if_pos hroot]
  · rw [hcount, if_pos ⟨hxm, hroot⟩]
  · rw [hx x hxm, if_neg hroot]

end TerminalReleases

section Claims

variable {S F : Type} [Inhabited S] [Inhabited F]

/-- C14, as stated, fails for a chain closed with `thenTerminate()`: in the chain
0 -> 1 -> 3 whose last node 3 was marked terminal, resolving the root releases the last
node too (the trace ends with the releases of 3 and of 1, and node 3 is no longer
allocated). -/
theorem C14_counterexample :
    observe (terminatedChainThenResolve 5 [(fun s => s, fun e => e), (fun s => s, fun e => e)]
        7 (Heap.empty : Heap Nat Nat)) = some (none, none, none) ∧
      traceOf (terminatedChainThenResolve 5
        [(fun s => s, fun e => e), (fun s => s, fun e => e)] 7
        (Heap.empty : Heap Nat Nat)) =
        some [Event.forwardSuccess 0 1, Event.forwardSuccess 1 3, Event.release 3,
          Event.release 1] :=
  ⟨by decide, by decide⟩

/-- C14, amended: release on forwarding.  When the head of a chain is resolved with
`resolveSuccess` or `resolveFailure`, the run returns and every node of the chain that
forwards to an owned successor (every node but the last) is released exactly once when it
is not a root, and is neither released nor written when it is a root.  So in a chain
root -> n1 -> ... -> nk the non-root nodes n1..n(k-1) are released once each and the root
is not.  The last node nk is not released when its child link is absent; when nk was
closed with `thenTerminate()` it follows the same rule as the others: released exactly
once when it is not a root, not released when it is a root.  When `then` is attached to
an already resolved node, the node forwards at once and is released exactly once when it
is not a root and not released when it is a root. -/
theorem C14_release_on_forwarding (h : Heap S F) (a : Nat) (l : List (Nat × ChildImpl S F))
    (hc : PromiseChain h a l) (k : Nat) (X : S) (E : F)
    (hb : Heap S F) (b : Nat) (nb : PromiseImpl S F) (hrb : hb.read b = some nb)
    (hres : PromiseImplBase.isResolved nb.state_) (f : S → S) (g : F → F)
    (hT : Heap S F) (aT : Nat) (lT : List (Nat × ChildImpl S F))
    (hcT : TerminalChain hT aT lT) :
    (∃ h' : Heap S F,
      PromiseImpl.resolveSuccess (2 * l.length + 1 + k) a X h = .ok h' ∧
      ∀ x, (x = a ∨ x ∈ l.map Prod.fst) →
        (x ≠ chainLast a l →
          (isRootAt h x = some true → releasesBetween h h' x = 0 ∧ h'.read x = h.read x) ∧
          (isRootAt h x ≠ some true → releasesBetween h h' x = 1 ∧ h'.read x = none)) ∧
        (x = chainLast a l → releasesBetween h h' x = 0 ∧ (h'.read x).isSome = true)) ∧
    (∃ h' : Heap S F,
      PromiseImpl.resolveFailure (2 * l.length + 1 + k) a E h = .ok h' ∧
      ∀ x, (x = a ∨ x ∈ l.map Prod.fst) →
        (x ≠ chainLast a l →
          (isRootAt h x = some true → releasesBetween h h' x = 0 ∧ h'.read x = h.read x) ∧
          (isRootAt h x ≠ some true → releasesBetween h h' x = 1 ∧ h'.read x = none)) ∧
        (x = chainLast a l → releasesBetween h h' x = 0 ∧ (h'.read x).isSome = true)) ∧
    (∃ (c : Nat) (h' : Heap S F),
      PromiseImpl.then_ (k + 2) b f g hb = .ok (c, h') ∧
      releasesBetween hb h' b = (if PromiseImplBase.isRoot nb.state_ then 0 else 1) ∧
      h'.read b = (if PromiseImplBase.isRoot nb.state_
        then some ⟨some c, nb.state_, nb.success_, nb.failure_, nb.dyn⟩ else none) ∧
      (h'.read c).isSome = true) ∧
    (∃ h' : Heap S F,
      PromiseImpl.resolveSuccess (2 * lT.length + 1 + k) aT X hT = .ok h' ∧
      ∀ x, (x = aT ∨ x ∈ lT.map Prod.fst) →
        (isRootAt hT x = some true →
          releasesBetween hT h' x = 0 ∧ h'.read x = hT.read x) ∧
        (isRootAt hT x ≠ some true → releasesBetween hT h' x = 1 ∧ h'.read x = none)) ∧
    (∃ h' : Heap S F,
      PromiseImpl.resolveFailure (2 * lT.length + 1 + k) aT E hT = .ok h' ∧
      ∀ x, (x = aT ∨ x ∈ lT.map Prod.fst) →
        (isRootAt hT x = some true →
          releasesBetween hT h' x = 0 ∧ h'.read x = hT.read x) ∧
        (isRootAt hT x ≠ some true → releasesBetween hT h' x = 1 ∧ h'.read x = none)) := by
  refine ⟨?_, ?_, ?_, ?_, ?_⟩
  · obtain ⟨h', nl, e, -, hl1, -, hx, ht⟩ := resolveSuccess_chain_full l h a hc k X
    exact ⟨h', e, chain_release_summary hc (count_release_chainForwardsSuccess a l) ht hx
      (by rw [hl1]; rfl)⟩
  · obtain ⟨h', nl, e, -, hl1, -, hx, ht⟩ := resolveFailure_chain_full l h a hc k E
    exact ⟨h', e, chain_release_summary hc (count_release_chainForwardsFailure a l) ht hx
      (by rw [hl1]; rfl)⟩
  · rcases hres with hs | hs
    · obtain ⟨h', e, hc', ha', -, -, ht⟩ :=
        PromiseImpl.then_resolved_success_spec hrb hs k f g
      refine ⟨_, h', e, ?_, ha', by rw [hc']; rfl⟩
      rw [releasesBetween_of_trace ht]
      by_cases hroot : PromiseImplBase.isRoot nb.state_ = true
      · simp [hroot, List.count_cons]
      · have hroot' : PromiseImplBase.isRoot nb.state_ = false := by simpa using hroot
        simp [hroot', List.count_cons]
    · obtain ⟨h', e, hc', ha', -, -, ht⟩ :=
        PromiseImpl.then_resolved_failure_spec hrb hs k f g
      refine ⟨_, h', e, ?_, ha', by rw [hc']; rfl⟩
      rw [releasesBetween_of_trace ht]
      by_cases hroot : PromiseImplBase.isRoot nb.state_ = true
      · simp [hroot, List.count_cons]
      · have hroot' : PromiseImplBase.isRoot nb.state_ = false := by simpa using hroot
        simp [hroot', List.count_cons]
  · obtain ⟨h', e, -, hx, ht⟩ := resolveSuccess_terminalChain_full lT hT aT hcT k X
    exact ⟨h', e, terminalChain_release_summary hcT
      (count_release_chainForwardsSuccess aT lT) ht hx⟩
  · obtain ⟨h', e, -, hx, ht⟩ := resolveFailure_terminalChain_full lT hT aT hcT k E
    exact ⟨h', e, terminalChain_release_summary hcT
      (count_release_chainForwardsFailure aT lT) ht hx⟩

end Claims

section Claims

/-- C14, amended, at the chain 0 -> 1 -> 3 of `twoLinkChainHeap`, resolved at the root 0
with Success 7 or Failure 9, at a root resolved with Success 7 to which `then` is
attached, and at the same chain with its last node 3 closed with `thenTerminate()`. -/
theorem C14_release_on_forwarding_witness :
    PromiseChain twoLinkChainHeap 0 twoLinkChain ∧
    successRootHeap.read 0 = some successRootNode ∧
    PromiseImplBase.isResolved successRootNode.state_ ∧
    TerminalChain terminatedTwoLinkChainHeap 0 twoLinkChain ∧
    (∃ h' : Heap Nat Nat,
      PromiseImpl.resolveSuccess (2 * twoLinkChain.length + 1 + 0) 0 7 twoLinkChainHeap =
        .ok h' ∧
      ∀ x, (x = 0 ∨ x ∈ twoLinkChain.map Prod.fst) →
        (x ≠ chainLast 0 twoLinkChain →
          (isRootAt twoLinkChainHeap x = some true →
            releasesBetween twoLinkChainHeap h' x = 0 ∧
              h'.read x = twoLinkChainHeap.read x) ∧
          (isRootAt twoLinkChainHeap x ≠ some true →
            releasesBetween twoLinkChainHeap h' x = 1 ∧ h'.read x = none)) ∧
        (x = chainLast 0 twoLinkChain →
          releasesBetween twoLinkChainHeap h' x = 0 ∧ (h'.read x).isSome = true)) ∧
    (∃ h' : Heap Nat Nat,
      PromiseImpl.resolveFailure (2 * twoLinkChain.length + 1 + 0) 0 9 twoLinkChainHeap =
        .ok h' ∧
      ∀ x, (x = 0 ∨ x ∈ twoLinkChain.map Prod.fst) →
        (x ≠ chainLast 0 twoLinkChain →
          (isRootAt twoLinkChainHeap x = some true →
            releasesBetween twoLinkChainHeap h' x = 0 ∧
              h'.read x = twoLinkChainHeap.read x) ∧
          (isRootAt twoLinkChainHeap x ≠ some true →
            releasesBetween twoLinkChainHeap h' x = 1 ∧ h'.read x = none)) ∧
        (x = chainLast 0 twoLinkChain →
          releasesBetween twoLinkChainHeap h' x = 0 ∧ (h'.read x).isSome = true)) ∧
    (∃ (c : Nat) (h' : Heap Nat Nat),
      PromiseImpl.then_ (0 + 2) 0 (fun s => s + 1) (fun e => e) successRootHeap =
        .ok (c, h') ∧
      releasesBetween successRootHeap h' 0 =
        (if PromiseImplBase.isRoot successRootNode.state_ then 0 else 1) ∧
      h'.read 0 = (if PromiseImplBase.isRoot successRootNode.state_
        then some ⟨some c, successRootNode.state_, successRootNode.success_,
          successRootNode.failure_, successRootNode.dyn⟩ else none) ∧
      (h'.read c).isSome = true) ∧
    (∃ h' : Heap Nat Nat,
      PromiseImpl.resolveSuccess (2 * twoLinkChain.length + 1 + 0) 0 7
        terminatedTwoLinkChainHeap = .ok h' ∧
      ∀ x, (x = 0 ∨ x ∈ twoLinkChain.map Prod.fst) →
        (isRootAt terminatedTwoLinkChainHeap x = some true →
          releasesBetween terminatedTwoLinkChainHeap h' x = 0 ∧
            h'.read x = terminatedTwoLinkChainHeap.read x) ∧
        (isRootAt terminatedTwoLinkChainHeap x ≠ some true →
          releasesBetween terminatedTwoLinkChainHeap h' x = 1 ∧ h'.read x = none)) ∧
    (∃ h' : Heap Nat Nat,
      PromiseImpl.resolveFailure (2 * twoLinkChain.length + 1 + 0) 0 9
        terminatedTwoLinkChainHeap = .ok h' ∧
      ∀ x, (x = 0 ∨ x ∈ twoLinkChain.map Prod.fst) →
        (isRootAt terminatedTwoLinkChainHeap x = some true →
          releasesBetween terminatedTwoLinkChainHeap h' x = 0 ∧
            h'.read x = terminatedTwoLinkChainHeap.read x) ∧
        (isRootAt terminatedTwoLinkChainHeap x ≠ some true →
          releasesBetween terminatedTwoLinkChainHeap h' x = 1 ∧ h'.read x = none)) :=
  have hc : PromiseChain twoLinkChainHeap 0 twoLinkChain :=
    ⟨⟨_, rfl, rfl⟩, by decide, by decide, ⟨_, rfl, rfl⟩,
      ⟨⟨_, rfl, rfl⟩, by decide, by decide, ⟨_, rfl, rfl⟩, ⟨_, rfl, rfl⟩⟩⟩
  have hcT : TerminalChain terminatedTwoLinkChainHeap 0 twoLinkChain :=
    ⟨⟨_, rfl, rfl⟩, by decide, by decide, ⟨_, rfl, rfl⟩,
      ⟨⟨_, rfl, rfl⟩, by decide, by decide, ⟨_, rfl, rfl⟩, ⟨_, rfl, rfl⟩⟩⟩
  ⟨hc, rfl, Or.inl (by decide), hcT,
    C14_release_on_forwarding twoLinkChainHeap 0 twoLinkChain hc 0 7 9
      successRootHeap 0 successRootNode rfl (Or.inl (by decide))
      (fun s => s + 1) (fun e => e) terminatedTwoLinkChainHeap 0 twoLinkChain hcT⟩

end Claims
